import Mathlib

/-!
# Telemetry scheduler gadget: schedule table, import/export, copy/paste

A shallow embedding of `telemetryschedulergadgetwidget.cpp`.

* `QVariant`, `QStandardItemModel`, `QDomNode` describe the Qt values the widget works on,
  reduced to what the widget reads and writes.
* `TelemetrySchedulerGadgetWidget` is the controller state; `updateCurrentColumn`,
  `dataModel_itemChanged`, `saveTelemetryToFile`, `importTelemetryConfiguration` and
  `applySchedule` follow the member functions of the same names.
* `SpinBoxDelegate` is the cell editor, a spin box with the range 0 to 65535.
* `QTableViewWithCopyPaste` is the table view with `copy` and `paste`.

Conventions: C++ `int`/`uint` quantities are natural numbers; a narrowing store keeps an
explicit `% 2^16`.  A `double` is the rational number it stands for; every operation of
the bandwidth estimate is the exact one followed by `roundDouble`, the rounding of
IEEE 754 binary64 to the nearest value.  Dereferencing a null pointer, dividing by zero
or converting a `double` that the target type cannot hold is a separate outcome (`none`,
or a dedicated constructor) and never a value.
-/

namespace TelemetryScheduler

/-! ## Qt strings -/

/-- Largest value of a C++ `unsigned int` (32 bit). -/
def UINT_MAX : Nat := 4294967295

/-- Decimal value of a list of digit characters, most significant first. -/
def decimalValue (cs : List Char) : Nat :=
  cs.foldl (fun acc c => 10 * acc + (c.toNat - 48)) 0

/-- Largest value of a C++ `unsigned long long` (64 bit). -/
def ULLONG_MAX : Nat := 18446744073709551615

/-- `QChar::isSpace()` of Qt 4: the characters 9 to 13 and the Unicode separators
(categories Zs, Zl and Zp). -/
def QChar.isSpace (c : Char) : Bool :=
  (9 ≤ c.toNat && c.toNat ≤ 13) || c.toNat == 0x20 || c.toNat == 0xA0 || c.toNat == 0x1680 ||
  c.toNat == 0x180E || (0x2000 ≤ c.toNat && c.toNat ≤ 0x200A) || c.toNat == 0x2028 ||
  c.toNat == 0x2029 || c.toNat == 0x202F || c.toNat == 0x205F || c.toNat == 0x3000

/-- The text without the white space at its two ends, which the number conversions
skip. -/
def trimSpace (cs : List Char) : List Char :=
  (cs.dropWhile QChar.isSpace).rdropWhile QChar.isSpace

/-- The text after a plus sign at its start, if there is one. -/
def skipPlus : List Char → List Char
  | '+' :: t => t
  | cs => cs

/-- `QString::toULongLong()` in base 10 (with the digits `0` to `9`, as in the C locale):
white space at the two ends is skipped and one plus sign may come first; the number when
what remains is a non-empty run of decimal digits whose value fits 64 bits, and `0` when
the conversion fails (a minus sign, other characters, no digit, overflow). -/
def QString.toULongLong (s : String) : Nat :=
  let digits := skipPlus (trimSpace s.data)
  if digits ≠ [] ∧ digits.all Char.isDigit = true then
    if decimalValue digits ≤ ULLONG_MAX then decimalValue digits else 0
  else 0

/-- `QString::toUInt()`: `toULongLong()`, and `0` when that exceeds `UINT_MAX`. -/
def QString.toUInt (s : String) : Nat :=
  if QString.toULongLong s > UINT_MAX then 0 else QString.toULongLong s

/-- `QString::split` with the default `KeepEmptyParts`, on the characters: the pieces
between separator characters; text without a separator is a single piece. -/
def splitChars (p : Char → Bool) : List Char → List (List Char)
  | [] => [[]]
  | c :: cs =>
    if p c then [] :: splitChars p cs
    else
      match splitChars p cs with
      | [] => [[c]]
      | t :: ts => (c :: t) :: ts

/-- `QString::split` on every character satisfying `p`. -/
def QString.split (p : Char → Bool) (s : String) : List String :=
  (splitChars p s.data).map String.mk

/-- `QStringList::join(",")` on the characters. -/
def joinChars (sep : Char) : List (List Char) → List Char
  | [] => []
  | [t] => t
  | t :: u :: ts => t ++ sep :: joinChars sep (u :: ts)

/-- `QStringList::join` with a one-character separator. -/
def QStringList.join (sep : Char) (l : List String) : String :=
  String.mk (joinChars sep (l.map String.data))

/-- `QString::count(ch)`: the number of occurrences of a character. -/
def QString.count (ch : Char) (s : String) : Nat :=
  s.data.count ch

/-! ## Qt variants and the item model -/

/-- `QVariant` as the table uses it: nothing, a number (the `int`/`uint` variants, which
here only ever hold values from `0` to `UINT_MAX`), or a string. -/
inductive QVariant where
  | invalid
  | num (n : Nat)
  | str (s : String)
deriving DecidableEq, Repr

/-- `QVariant::isValid()`. -/
def QVariant.isValid : QVariant → Bool
  | .invalid => false
  | _ => true

/-- `QVariant::toUInt()`: `0` for an invalid variant, the number itself, and for a
string its `toULongLong()` cut to 32 bits. -/
def QVariant.toUInt : QVariant → Nat
  | .invalid => 0
  | .num n => n
  | .str s => QString.toULongLong s % 4294967296

/-- `QVariant::toString()`. -/
def QVariant.toString : QVariant → String
  | .invalid => ""
  | .num n => Nat.repr n
  | .str s => s

/-- `QModelIndex` of a top-level cell. -/
structure QModelIndex where
  row : Nat
  column : Nat
deriving DecidableEq, Repr

/-- `QStandardItemModel` as the widget builds it.  The constructor labels the rows
`1, 2, ..., n` with `setVerticalHeaderItem`, which grows the model to `n + 1` rows and
leaves row `0` without a header item; no later code adds or removes rows.
`verticalHeader` holds the texts of rows `1 .. n`.  Every column is created together
with its header item (`setHorizontalHeaderItem`, `setHorizontalHeaderLabels`), so
`horizontalHeader` holds one text per column.  `item` is the display data of a cell. -/
structure QStandardItemModel where
  verticalHeader : List String
  horizontalHeader : List String
  item : Nat → Nat → QVariant

namespace QStandardItemModel

/-- `rowCount()`: none before a row was labelled, else the labelled rows and row `0`. -/
def rowCount (m : QStandardItemModel) : Nat :=
  match m.verticalHeader with
  | [] => 0
  | _ :: t => t.length + 2

/-- `columnCount()`. -/
def columnCount (m : QStandardItemModel) : Nat :=
  m.horizontalHeader.length

/-- `index(row, column).isValid()`. -/
def hasIndex (m : QStandardItemModel) (row column : Nat) : Bool :=
  decide (row < m.rowCount) && decide (column < m.columnCount)

/-- `data(index(row, column))`: an invalid variant for an invalid index. -/
def data (m : QStandardItemModel) (row column : Nat) : QVariant :=
  if m.hasIndex row column then m.item row column else .invalid

/-- `setData(index(row, column), value)`: no effect for an invalid index. -/
def setData (m : QStandardItemModel) (row column : Nat) (value : QVariant) :
    QStandardItemModel :=
  if m.hasIndex row column then
    { m with item := fun r c => if r = row ∧ c = column then value else m.item r c }
  else m

/-- `removeColumns(column, count)`: refused unless `count ≥ 1` and the range lies inside
the model; otherwise the columns to the right move left, with their headers. -/
def removeColumns (m : QStandardItemModel) (column count : Nat) : QStandardItemModel :=
  if count < 1 ∨ column + count > m.columnCount then m
  else
    { m with
      horizontalHeader := m.horizontalHeader.take column ++ m.horizontalHeader.drop (column + count)
      item := fun r c => if c < column then m.item r c else m.item r (c + count) }

/-- `setHorizontalHeaderLabels(labels)`: grows the column count to the number of labels
when needed (new cells are empty) and sets the header text of the first columns. -/
def setHorizontalHeaderLabels (m : QStandardItemModel) (labels : List String) :
    QStandardItemModel :=
  { m with
    horizontalHeader := labels ++ m.horizontalHeader.drop labels.length
    item := fun r c => if c < m.columnCount then m.item r c else .invalid }

end QStandardItemModel

/-! ## The table view with copy and paste -/

/-- `QModelIndex::operator<` or equality: ordered by row, then by column. -/
def QModelIndex.le (a b : QModelIndex) : Prop :=
  a.row < b.row ∨ (a.row = b.row ∧ a.column ≤ b.column)

instance : DecidableRel QModelIndex.le := fun a b => by
  unfold QModelIndex.le
  exact inferInstance

/-- `data(index)` where the index may be a default-constructed `QModelIndex` (`none`),
for which the model has no data. -/
def QStandardItemModel.dataAt (m : QStandardItemModel) : Option QModelIndex → QVariant
  | none => .invalid
  | some i => m.data i.row i.column

/-- State of `QTableViewWithCopyPaste`: its model, `selectionModel()->selectedIndexes()`
and the text of the application clipboard. -/
structure QTableViewWithCopyPaste where
  model : QStandardItemModel
  selectedIndexes : List QModelIndex
  clipboard : String

/-- The `foreach(current, indexes)` loop of `copy`: appends the text of `previous` and a
separator for each further index, and leaves in `current` the last index visited (the
loop variable is declared outside the loop and is still default-constructed when the
list is empty). -/
def copyLoop (m : QStandardItemModel) :
    List QModelIndex → QModelIndex → String → Option QModelIndex → String × Option QModelIndex
  | [], _, selected_text, current => (selected_text, current)
  | cur :: rest, previous, selected_text, _ =>
    let text := (m.data previous.row previous.column).toString
    let sep := if cur.row ≠ previous.row then '\n' else '\t'
    copyLoop m rest cur ((selected_text ++ text).push sep) (some cur)

/-- `QTableViewWithCopyPaste::copy()`. -/
def copy (v : QTableViewWithCopyPaste) : QTableViewWithCopyPaste :=
  match List.insertionSort QModelIndex.le v.selectedIndexes with
  | [] => v
  | previous :: indexes =>
    let r := copyLoop v.model indexes previous "" none
    { v with clipboard := (r.1 ++ (v.model.dataAt r.2).toString).push '\n' }

/-- What `paste` reports when it returns normally. -/
inductive PasteOutcome where
  | pasted
  | invalidClipboardData
  | exceedsRows
  | exceedsColumns
deriving DecidableEq, Repr

/-- Undefined behaviour `paste` can run into. -/
inductive PasteFault where
  | divisionByZero
  | frontOfEmptyList
deriving DecidableEq, Repr

/-- The separator test of `QRegExp("\\n|\\t")`. -/
def isCellSeparator (c : Char) : Bool :=
  c == '\n' || c == '\t'

/-- The loop `while(!cells.empty() && cells.back().size() == 0) cells.pop_back()`. -/
def stripTrailingEmpty (cells : List String) : List String :=
  cells.rdropWhile (fun s => s.length == 0)

/-- Inner loop of `paste` for one clipboard row: `cols` cells, `cell` counting on. -/
def pasteRow (cells : List String) (anchor : QModelIndex) (row cols : Nat)
    (st : QStandardItemModel × Nat) : QStandardItemModel × Nat :=
  (List.range cols).foldl
    (fun s col =>
      (s.1.setData (anchor.row + row) (anchor.column + col) (.str (cells.getD s.2 "")), s.2 + 1))
    st

/-- The two nested loops of `paste`, starting with `cell = 0`. -/
def pasteLoop (cells : List String) (anchor : QModelIndex) (rows cols : Nat)
    (m : QStandardItemModel) : QStandardItemModel :=
  ((List.range rows).foldl (fun s row => pasteRow cells anchor row cols s) (m, 0)).1

/-- `QTableViewWithCopyPaste::paste()`. -/
def paste (v : QTableViewWithCopyPaste) :
    Except PasteFault (PasteOutcome × QTableViewWithCopyPaste) :=
  let cells := stripTrailingEmpty (QString.split isCellSeparator v.clipboard)
  let rows := QString.count '\n' v.clipboard
  if rows = 0 then .error .divisionByZero
  else
    let cols := cells.length / rows
    if cells.length % rows ≠ 0 then .ok (.invalidClipboardData, v)
    else
      match v.selectedIndexes with
      | [] => .error .frontOfEmptyList
      | front :: _ =>
        if front.row + rows > v.model.rowCount then .ok (.exceedsRows, v)
        else if front.column + cols > v.model.columnCount then .ok (.exceedsColumns, v)
        else .ok (.pasted, { v with model := pasteLoop cells front rows cols v.model })

/-! ## XML documents -/

/-- `QDomNode`: an element with its tag name, attributes and child nodes, or a node of
another kind (text, comment, ...). -/
inductive QDomNode where
  | element (tagName : String) (attributes : List (String × String)) (children : List QDomNode)
  | other

namespace QDomNode

/-- `toElement().tagName()`: empty for a node that is not an element. -/
def tagName : QDomNode → String
  | element t _ _ => t
  | other => ""

/-- `toElement().attribute(name)`: the empty string when the attribute is absent. -/
def attr : QDomNode → String → String
  | element _ attrs _, name =>
    match attrs.find? (fun a => a.1 = name) with
    | some a => a.2
    | none => ""
  | other, _ => ""

/-- The child nodes in document order, as walked by `firstChild()`/`nextSibling()`. -/
def childNodes : QDomNode → List QDomNode
  | element _ _ cs => cs
  | other => []

/-- Whether the node is an element with the given tag. -/
def isElementNamed (tag : String) : QDomNode → Bool
  | element t _ _ => t = tag
  | other => false

/-- `firstChildElement(tag)`: `none` stands for the null element. -/
def firstChildElement (n : QDomNode) (tag : String) : Option QDomNode :=
  n.childNodes.find? (isElementNamed tag)

/-- `documentElement()` of a document whose root node is `n`: null unless an element. -/
def toElement : QDomNode → Option QDomNode
  | element t a c => some (element t a c)
  | other => none

end QDomNode

/-! ## IEEE 754 double precision -/

/-- Rounding to the nearest integer, a tie to the even one. -/
def roundHalfEven (y : ℚ) : ℤ :=
  if y - ⌊y⌋ < 1 / 2 then ⌊y⌋
  else if 1 / 2 < y - ⌊y⌋ then ⌊y⌋ + 1
  else if ⌊y⌋ % 2 = 0 then ⌊y⌋ else ⌊y⌋ + 1

/-- The exponent of the spacing of the `double` values around `x`: `e - 52` when
`2^e ≤ |x| < 2^(e+1)`, and `-1074` below the normal range, which starts at `2^-1022`. -/
def ulpExponent (x : ℚ) : ℤ :=
  max (Int.log 2 |x|) (-1022) - 52

/-- The `double` result of an operation whose exact result is `x`: IEEE 754 binary64
with the default rounding, to the nearest value and a tie to the even significand, one
rounding for each operation.  The exponent has no upper end here: a result of `2^1024`
or more, which the hardware delivers as an infinity, stays a number.  In
`dataModel_itemChanged` only the running sum can grow that far, and all that happens to
it afterwards is the conversion to `uint16_t`, undefined for the infinity as for the
number. -/
def roundDouble (x : ℚ) : ℚ :=
  roundHalfEven (x / 2 ^ ulpExponent x) * 2 ^ ulpExponent x

/-! ## The object registry -/

/-- Modelled from the spec: `UAVObject::Metadata`, declared in `uavobject.h`, which is not
among the sources at hand.  The update periods are unsigned 16 bit fields ("periods are
unsigned integers bounded to a 16-bit range (0-65535), matching the protocol field
width"; the delegate notes "Update period datatype is uint16"). -/
structure Metadata where
  flags : Nat
  flightTelemetryUpdatePeriod : Nat
  gcsTelemetryUpdatePeriod : Nat
  loggingUpdatePeriod : Nat
deriving DecidableEq, Repr

/-- A value-initialised `Metadata`, as `QMap::value` returns for a missing key. -/
def Metadata.zero : Metadata :=
  { flags := 0, flightTelemetryUpdatePeriod := 0, gcsTelemetryUpdatePeriod := 0,
    loggingUpdatePeriod := 0 }

/-- Modelled from the spec: a data object of the registry ("identifies a remote data
object by name and byte size; read-only, supplied by an external object registry"), with
what the widget reads from it: `getName()`, `getObjID()`, `getNumBytes()` and
`getMetadata()`.  The class is declared in `uavobject.h`, not among the sources at hand. -/
structure UAVObject where
  name : String
  objID : Nat
  numBytes : Nat
  metadata : Metadata
deriving DecidableEq, Repr

/-- Modelled from the spec: `UAVObjectManager::getObject(name)`, the registry's "lookup
by name" (`uavobjectmanager.h` is not among the sources at hand); `none` stands for the
null pointer. -/
def getObject (objManager : List UAVObject) (name : String) : Option UAVObject :=
  objManager.find? (fun o => o.name = name)

/-- `QMap::insert(key, value)`: replaces the value of a key already present. -/
def QMap.insert (m : List (String × Metadata)) (key : String) (value : Metadata) :
    List (String × Metadata) :=
  m.filter (fun e => e.1 ≠ key) ++ [(key, value)]

/-- `QMap::value(key)`: a value-initialised `Metadata` for a missing key. -/
def QMap.value (m : List (String × Metadata)) (key : String) : Metadata :=
  match m.find? (fun e => e.1 = key) with
  | some e => e.2
  | none => Metadata.zero

/-! ## The schedule table controller -/

/-- State of `TelemetrySchedulerGadgetWidget`: the table model, the `columnHeaders`
list, the items of the schedule combo box, the saved default metadata and the object
manager.  The one-row frozen model with the bandwidth estimates belongs to the view and
is passed to `dataModel_itemChanged` on its own. -/
structure TelemetrySchedulerGadgetWidget where
  schedulerModel : QStandardItemModel
  columnHeaders : List String
  cmbScheduleList : List String
  defaultMdata : List (String × Metadata)
  objManager : List UAVObject

/-- The frozen model of the view: one row (row `0`, "Bandwidth required [bytes/s]")
with `columnCount` columns. -/
structure FrozenModel where
  columnCount : Nat
  item : Nat → QVariant

/-- `getFrozenModel()->setData(index(0, col), value)`: no effect for an invalid index. -/
def FrozenModel.setData (f : FrozenModel) (col : Nat) (value : QVariant) : FrozenModel :=
  if col < f.columnCount then
    { f with item := fun c => if c = col then value else f.item c }
  else f

/-- `getFrozenModel()->data(index(0, col))`. -/
def FrozenModel.data (f : FrozenModel) (col : Nat) : QVariant :=
  if col < f.columnCount then f.item col else .invalid

/-- Frequency in Hz of one row: `updatePeriod_s > 0 ? 1.0 / updatePeriod_s : 0` with
`updatePeriod_s = data(index).toUInt() / 1000.0`.  The `uint` converts to `double` as it
is; each division is rounded. -/
def updateFrequency_Hz (m : QStandardItemModel) (i col : Nat) : ℚ :=
  if roundDouble (((m.data i col).toUInt : ℚ) / 1000) > 0 then
    roundDouble (1 / roundDouble (((m.data i col).toUInt : ℚ) / 1000))
  else 0

/-- The loop of `dataModel_itemChanged` over the rows `i = 1 ..`, given with their header
texts; `none` when `getObject` returns null (`Q_ASSERT(obj)`, then `obj->getNumBytes()`).
The size is stored in a `uint16_t`; the product and the sum of
`bandwidthRequired_bps += updateFrequency_Hz * size` are rounded one after the other. -/
def bandwidthLoop (objManager : List UAVObject) (m : QStandardItemModel) (col : Nat) :
    List String → Nat → ℚ → Option ℚ
  | [], _, bandwidthRequired_bps => some bandwidthRequired_bps
  | uavObjectName :: rest, i, bandwidthRequired_bps =>
    match getObject objManager uavObjectName with
    | none => none
    | some obj =>
      bandwidthLoop objManager m col rest (i + 1)
        (roundDouble (bandwidthRequired_bps
          + roundDouble (updateFrequency_Hz m i col * ((obj.numBytes % 65536 : Nat) : ℚ))))

/-- Undefined behaviour `dataModel_itemChanged` can run into. -/
inductive BandwidthFault where
  | nullObject
  | castOutOfRange
deriving DecidableEq, Repr

/-- The conversion `(uint16_t) x` of a `double`: the fraction is cut off; undefined
(`none`) when the result is not a value of `uint16_t`. -/
def toUInt16 (x : ℚ) : Option Nat :=
  if -1 < x ∧ x < 65536 then some ⌊x⌋.toNat else none

/-- The value `(uint16_t)(bandwidthRequired_bps + 0.5)` that `dataModel_itemChanged`
stores for column `col`. -/
def storedBandwidth (w : TelemetrySchedulerGadgetWidget) (col : Nat) :
    Except BandwidthFault Nat :=
  match bandwidthLoop w.objManager w.schedulerModel col w.schedulerModel.verticalHeader 1 0 with
  | none => .error .nullObject
  | some bandwidthRequired_bps =>
    match toUInt16 (roundDouble (bandwidthRequired_bps + 1 / 2)) with
    | none => .error .castOutOfRange
    | some v => .ok v

/-- `TelemetrySchedulerGadgetWidget::dataModel_itemChanged(item)` for an item of column
`col`: the frozen model afterwards. -/
def dataModel_itemChanged (w : TelemetrySchedulerGadgetWidget) (frozenModel : FrozenModel)
    (col : Nat) : Except BandwidthFault FrozenModel :=
  match storedBandwidth w col with
  | .error e => .error e
  | .ok v => .ok (frozenModel.setData col (.num v))

/-- `QString().setNum(id, 16).toUpper()`. -/
def hexUpper (id : Nat) : String :=
  String.mk ((Nat.toDigits 16 id).map Char.toUpper)

/-- The `vals` list of one row in `saveTelemetryToFile`: for `col = 0 ..
columnHeaders.length() - 1` the text of `index(row, col + 1)`. -/
def saveVals (w : TelemetrySchedulerGadgetWidget) (row : Nat) : List String :=
  (List.range w.columnHeaders.length).map
    (fun col => (w.schedulerModel.data row (col + 1)).toString)

/-- The loop of `saveTelemetryToFile` over the rows `row = 1 ..`: the `uavobject`
elements; `none` when `getObject` returns null. -/
def saveRows (w : TelemetrySchedulerGadgetWidget) : List String → Nat → Option (List QDomNode)
  | [], _ => some []
  | uavObjectName :: rest, row =>
    match getObject w.objManager uavObjectName with
    | none => none
    | some obj =>
      match saveRows w rest (row + 1) with
      | none => none
      | some os =>
        some (.element "uavobject" [("name", obj.name), ("id", "0x" ++ hexUpper obj.objID)]
            [.element "field" [("values", QStringList.join ',' (saveVals w row))] []] :: os)

/-- The document `saveTelemetryToFile` builds (choosing and writing the file is left
out); `none` when `pop_front` meets an empty list or `getObject` returns null. -/
def saveTelemetryToFile (w : TelemetrySchedulerGadgetWidget) : Option QDomNode :=
  match w.columnHeaders with
  | _ :: _ :: tmpStringList =>
    match saveRows w w.schedulerModel.verticalHeader 1 with
    | none => none
    | some os =>
      some (.element "telemetry_scheduler" []
        [.element "version" [] [],
         .element "headings" [("values", QStringList.join ',' tmpStringList)] [],
         .element "settings" [] os])
  | _ => none

/-- What `importTelemetryConfiguration` tells the user. -/
inductive ImportOutcome where
  | imported
  | fileParsingFailed
  | wrongFileContents
deriving DecidableEq, Repr

/-- The steps `root = doc.documentElement(); if (root.tagName() == "telemetry_scheduler")
root = root.firstChildElement(name);` with `none` for a null element. -/
def subtreeRoot (doc : QDomNode) (name : String) : Option QDomNode :=
  if doc.tagName = "telemetry_scheduler" then doc.firstChildElement name else doc.toElement

/-- The row search of the import: `row = 0`, then the first `i ≥ 1` whose header text
equals the name; the list holds the header texts from row `i` on. -/
def findRowFrom (uavObjectName : String) : List String → Nat → Nat
  | [], _ => 0
  | h :: t, i => if h = uavObjectName then i else findRowFrom uavObjectName t (i + 1)

/-- The loop `while (val == 0 && j-k >= 0) { val = valuesList.at(j-k).toUInt(); k++; }`;
the first argument is `j - k + 1`, the number of positions not yet looked at. -/
def scanBack (valuesList : List String) : Nat → Nat → Nat
  | 0, val => val
  | n + 1, val =>
    if val = 0 then scanBack valuesList n (QString.toUInt (valuesList.getD n "")) else val

/-- The value written for position `j` of `valuesList`: the parsed value, replaced while
zero by the values before it, and by the `toUInt()` of column `0` when still zero. -/
def importValue (m : QStandardItemModel) (row : Nat) (valuesList : List String) (j : Nat) : Nat :=
  if scanBack valuesList j (QString.toUInt (valuesList.getD j "")) = 0 then (m.data row 0).toUInt
  else scanBack valuesList j (QString.toUInt (valuesList.getD j ""))

/-- The loop `for (j = 0; j < valuesList.length(); j++)` storing at `index(row, j+1)`. -/
def loadValues (valuesList : List String) (row : Nat) (m : QStandardItemModel) :
    QStandardItemModel :=
  (List.range valuesList.length).foldl
    (fun m j => m.setData row (j + 1) (.num (importValue m row valuesList j))) m

/-- The body of the `while (!node.isNull())` loop for one child of `settings`. -/
def importNode (objManager : List UAVObject) (m : QStandardItemModel) (node : QDomNode) :
    QStandardItemModel :=
  if node.tagName = "uavobject" then
    match getObject objManager (node.attr "name") with
    | none => m
    | some _ =>
      match node.childNodes.head? with
      | none => m
      | some f =>
        if f.tagName = "field" then
          loadValues (QString.split (fun c => c == ',') (f.attr "values"))
            (findRowFrom (node.attr "name") m.verticalHeader 1) m
        else m
  else m

/-- `TelemetrySchedulerGadgetWidget::importTelemetryConfiguration`, from the parsed
content of the file (`none` when `setContent` fails) to the message shown and the state
afterwards. -/
def importTelemetryConfiguration (content : Option QDomNode) (w : TelemetrySchedulerGadgetWidget) :
    ImportOutcome × TelemetrySchedulerGadgetWidget :=
  match content with
  | none => (.fileParsingFailed, w)
  | some doc =>
    match subtreeRoot doc "headings" with
    | none => (.wrongFileContents, w)
    | some root =>
      if root.tagName ≠ "headings" then (.wrongFileContents, w)
      else
        let new_columnHeaders :=
          "Default" :: "Current" :: QString.split (fun c => c == ',') (root.attr "values")
        let m := (w.schedulerModel.removeColumns 2 w.columnHeaders.length).setHorizontalHeaderLabels
          new_columnHeaders
        let w1 := { w with schedulerModel := m, cmbScheduleList := new_columnHeaders,
                           columnHeaders := new_columnHeaders }
        match subtreeRoot doc "settings" with
        | none => (.wrongFileContents, w1)
        | some root =>
          if root.tagName ≠ "settings" then (.wrongFileContents, w1)
          else
            (.imported,
              { w1 with schedulerModel := root.childNodes.foldl (importNode w.objManager) m })

/-- What `applySchedule` does when it returns. -/
inductive ApplyResult where
  | columnNotFound
  | applied (metaDataList : List (String × Metadata))
deriving DecidableEq, Repr

/-- The column search of `applySchedule`: the first `j` whose header text equals the
selected text; the list holds the header texts from column `j` on. -/
def findColumnFrom (currentText : String) : List String → Nat → Option Nat
  | [], _ => none
  | h :: t, j => if h = currentText then some j else findColumnFrom currentText t (j + 1)

/-- The update period `applySchedule` takes for row `i`: the cell when it is valid, else
the saved default of the object. -/
def updatePeriod_ms (w : TelemetrySchedulerGadgetWidget) (obj : UAVObject) (i col : Nat) : Nat :=
  if (w.schedulerModel.data i col).isValid then (w.schedulerModel.data i col).toUInt
  else (QMap.value w.defaultMdata (obj.name ++ "Meta")).flightTelemetryUpdatePeriod

/-- The loop of `applySchedule` over the rows `i = 1 ..`; `none` when `getObject`
returns null (`obj->getMetadata()`).  The period is stored in a `quint16` field. -/
def applyLoop (w : TelemetrySchedulerGadgetWidget) (col : Nat) :
    List String → Nat → List (String × Metadata) → Option (List (String × Metadata))
  | [], _, metaDataList => some metaDataList
  | uavObjectName :: rest, i, metaDataList =>
    match getObject w.objManager uavObjectName with
    | none => none
    | some obj =>
      applyLoop w col rest (i + 1)
        (QMap.insert metaDataList uavObjectName
          { obj.metadata with flightTelemetryUpdatePeriod := updatePeriod_ms w obj i col % 65536 })

/-- `TelemetrySchedulerGadgetWidget::applySchedule()` with the current text of the
schedule combo box: the argument of the one call of `setAllNonSettingsMetadata`, or
`columnNotFound` when the function returns before it. -/
def applySchedule (w : TelemetrySchedulerGadgetWidget) (currentText : String) : Option ApplyResult :=
  match findColumnFrom currentText w.schedulerModel.horizontalHeader 0 with
  | none => some .columnNotFound
  | some col => (applyLoop w col w.schedulerModel.verticalHeader 1 []).map .applied

/-! ## Live metadata -/

/-- Modelled from the spec: the meta object of a data object, which carries the live
metadata and notifies the widget when it changes ("default/live metadata (a period value
in milliseconds) per object; notifies on metadata change").  `name` is `getName()`, the
name of the data object followed by "Meta"; `data` is `getData()`.  The class is declared
in `uavmetaobject.h`, not among the sources at hand. -/
structure UAVMetaObject where
  name : String
  data : Metadata
deriving DecidableEq, Repr

/-- The row search of `updateCurrentColumn`: `rowIndex = -1` (`none`), then the first
`i ≥ 1` whose header text followed by "Meta" equals the name of the meta object; the list
holds the header texts from row `i` on. -/
def findMetaRowFrom (mobjName : String) : List String → Nat → Option Nat
  | [], _ => none
  | h :: t, i => if h ++ "Meta" = mobjName then some i else findMetaRowFrom mobjName t (i + 1)

/-- `TelemetrySchedulerGadgetWidget::updateCurrentColumn(obj)`; the argument is `none` when
the `dynamic_cast` to `UAVMetaObject` fails. -/
def updateCurrentColumn (w : TelemetrySchedulerGadgetWidget) (obj : Option UAVMetaObject) :
    TelemetrySchedulerGadgetWidget :=
  match obj with
  | none => w
  | some mobj =>
    match findMetaRowFrom mobj.name w.schedulerModel.verticalHeader 1 with
    | none => w
    | some rowIndex =>
      if mobj.data.flightTelemetryUpdatePeriod
          ≠ (QMap.value w.defaultMdata mobj.name).flightTelemetryUpdatePeriod then
        { w with schedulerModel :=
            w.schedulerModel.setData rowIndex 1 (.num mobj.data.flightTelemetryUpdatePeriod) }
      else w

/-! ## The spin box delegate -/

/-- Largest value of a C++ `long long` (64 bit). -/
def LLONG_MAX : Nat := 9223372036854775807

/-- `QString::toLongLong()` in base 10 (with the digits `0` to `9`, as in the C locale):
white space at the two ends is skipped and one sign may come first; the number when what
remains is a non-empty run of decimal digits whose signed value fits a `long long`, and
`0` when the conversion fails. -/
def QString.toLongLong (s : String) : Int :=
  match trimSpace s.data with
  | '-' :: digits =>
    if digits ≠ [] ∧ digits.all Char.isDigit = true then
      if decimalValue digits ≤ LLONG_MAX + 1 then -(decimalValue digits : Int) else 0
    else 0
  | '+' :: digits =>
    if digits ≠ [] ∧ digits.all Char.isDigit = true then
      if decimalValue digits ≤ LLONG_MAX then (decimalValue digits : Int) else 0
    else 0
  | digits =>
    if digits ≠ [] ∧ digits.all Char.isDigit = true then
      if decimalValue digits ≤ LLONG_MAX then (decimalValue digits : Int) else 0
    else 0

/-- The conversion of a 64 bit integer to a C++ `int`: the low 32 bits, read as signed. -/
def toInt32 (x : Int) : Int :=
  if x % 4294967296 < 2147483648 then x % 4294967296 else x % 4294967296 - 4294967296

/-- `QVariant::toInt()`: `0` for an invalid variant, the number cut to an `int`, and for a
string its `toLongLong()` cut to an `int`. -/
def QVariant.toInt : QVariant → Int
  | .invalid => 0
  | .num n => toInt32 n
  | .str s => toInt32 (QString.toLongLong s)

/-- `QSpinBox`: its range and its value. -/
structure QSpinBox where
  minimum : Int
  maximum : Int
  value : Int
deriving DecidableEq, Repr

/-- `QSpinBox::setValue(val)`: the value is bound to the range of the spin box.  Typing
into the editor or stepping it changes the value under the same bound. -/
def QSpinBox.setValue (s : QSpinBox) (val : Int) : QSpinBox :=
  { s with value := max s.minimum (min s.maximum val) }

/-- `SpinBoxDelegate::createEditor`: a spin box with the range 0 to 65535 (a new
`QSpinBox` holds the value 0). -/
def SpinBoxDelegate.createEditor : QSpinBox :=
  { minimum := 0, maximum := 65535, value := 0 }

/-- `SpinBoxDelegate::setEditorData`: the editor takes the `toInt()` of the cell. -/
def SpinBoxDelegate.setEditorData (editor : QSpinBox) (m : QStandardItemModel)
    (row column : Nat) : QSpinBox :=
  editor.setValue (m.data row column).toInt

/-- `SpinBoxDelegate::setModelData`: the value of the editor is stored in the cell. -/
def SpinBoxDelegate.setModelData (editor : QSpinBox) (m : QStandardItemModel)
    (row column : Nat) : QStandardItemModel :=
  m.setData row column (.num editor.value.toNat)

/-- A cell edit through the delegate: the view creates the editor, loads it from the cell,
the user changes the value any number of times, and the view stores the result. -/
def SpinBoxDelegate.editCell (m : QStandardItemModel) (row column : Nat) (entered : List Int) :
    QStandardItemModel :=
  SpinBoxDelegate.setModelData
    (entered.foldl QSpinBox.setValue
      (SpinBoxDelegate.setEditorData SpinBoxDelegate.createEditor m row column))
    m row column

/-! ## The claims in the words of the specification -/

/-- The bandwidth share of one row as the specification words it: `1000 / period_ms`
times the byte size of the row's object when the period is positive, else `0`. -/
def specRowBandwidth (w : TelemetrySchedulerGadgetWidget) (col : Nat) (row : Nat × String) : ℚ :=
  match getObject w.objManager row.2 with
  | none => 0
  | some obj =>
    if 0 < (w.schedulerModel.data row.1 col).toUInt then
      1000 / ((w.schedulerModel.data row.1 col).toUInt : ℚ) * (obj.numBytes : ℚ)
    else 0

/-- The bandwidth of a column as the specification words it: the sum of the shares of
the object rows `1, 2, ...`. -/
def specBandwidth (w : TelemetrySchedulerGadgetWidget) (col : Nat) : ℚ :=
  ((w.schedulerModel.verticalHeader.enumFrom 1).map (specRowBandwidth w col)).sum

/-- The parsed value at position `i` of a value list: `valuesList.at(i).toUInt()`. -/
def parsedValue (valuesList : List String) (i : Nat) : Nat :=
  QString.toUInt (valuesList.getD i "")

/-- The period a cell stands for in a saved file: the `toUInt()` of its text. -/
def cellPeriod (m : QStandardItemModel) (row column : Nat) : Nat :=
  QString.toUInt (m.data row column).toString

/-- The value list the import reads back for a row of a saved document: the saved
`values` attribute of the row, split at the commas. -/
def savedTokens (w : TelemetrySchedulerGadgetWidget) (row : Nat) : List String :=
  QString.split (fun c => c == ',') (QStringList.join ',' (saveVals w row))

/-- Clipboard text of one row of cells: the cells separated by tabs, closed by a newline. -/
def rowText : List String → List Char
  | [] => ['\n']
  | [s] => s.data ++ ['\n']
  | s :: t :: ts => s.data ++ '\t' :: rowText (t :: ts)

/-- Clipboard text of a block of rows, each closed by a newline. -/
def blockText : List (List String) → List Char
  | [] => []
  | row :: rest => rowText row ++ blockText rest

/-- The invariant of the specification: the period read from any cell of the table is in
the 16 bit range. -/
def periodsIn16Bit (m : QStandardItemModel) : Prop :=
  ∀ r c, (m.data r c).toUInt ≤ 65535

/-- The value list of the first child of a node, split at the commas, as the import
reads it for an object entry. -/
def nodeValues (node : QDomNode) : List String :=
  match node.childNodes.head? with
  | some f => QString.split (fun c => c == ',') (f.attr "values")
  | none => []

/-- All values in the `settings` section of a schedule file. -/
def fileValues (doc : QDomNode) : List String :=
  match subtreeRoot doc "settings" with
  | some root => root.childNodes.flatMap nodeValues
  | none => []

/-- One object of 10 bytes with a period of 3 ms in the third column. -/
def wThreeMs : TelemetrySchedulerGadgetWidget :=
  { schedulerModel :=
      { verticalHeader := ["A"], horizontalHeader := ["Default", "Current", "USB"],
        item := fun r c => if r = 1 ∧ c = 2 then .num 3 else .invalid }
    columnHeaders := ["Default", "Current", "USB"]
    cmbScheduleList := ["Default", "Current", "USB"]
    defaultMdata := []
    objManager := [⟨"A", 1, 10, Metadata.zero⟩] }

/-- A table with one object row whose "USB" cell holds the period 0. -/
def wZeroPeriod : TelemetrySchedulerGadgetWidget :=
  { schedulerModel :=
      { verticalHeader := ["A"], horizontalHeader := ["Default", "Current", "USB"],
        item := fun r c =>
          if r = 1 ∧ c = 0 then .num 1000 else if r = 1 ∧ c = 2 then .num 0 else .invalid }
    columnHeaders := ["Default", "Current", "USB"]
    cmbScheduleList := ["Default", "Current", "USB"]
    defaultMdata := [("AMeta", ⟨0, 1000, 0, 0⟩)]
    objManager := [⟨"A", 1, 10, ⟨0, 1000, 0, 0⟩⟩] }

/-- A table with two object rows and periods in the "USB" and "9600" columns. -/
def wTwoRows : TelemetrySchedulerGadgetWidget :=
  { schedulerModel :=
      { verticalHeader := ["A", "B"], horizontalHeader := ["Default", "Current", "USB", "9600"],
        item := fun r c =>
          if c = 0 then .num 1000 else if r = 2 ∧ c = 2 then .num 250
          else if r = 2 ∧ c = 3 then .num 0 else .invalid }
    columnHeaders := ["Default", "Current", "USB", "9600"]
    cmbScheduleList := ["Default", "Current", "USB", "9600"]
    defaultMdata := [("AMeta", ⟨0, 1000, 0, 0⟩), ("BMeta", ⟨0, 1000, 0, 0⟩)]
    objManager := [⟨"A", 1, 10, ⟨0, 1000, 0, 0⟩⟩, ⟨"B", 2, 20, ⟨0, 1000, 0, 0⟩⟩] }

/-- A document whose root element is `headings` itself. -/
def docHeadingsRoot : QDomNode :=
  .element "headings" [("values", "X")] []

/-- A document with an unrelated root element. -/
def docOtherRoot : QDomNode :=
  .element "uavobjects" [] [.element "headings" [("values", "X")] [], .element "settings" [] []]

/-- A table with one object row whose "USB" cell holds 70000. -/
def wLargePeriod : TelemetrySchedulerGadgetWidget :=
  { schedulerModel :=
      { verticalHeader := ["A"], horizontalHeader := ["Default", "Current", "USB"],
        item := fun r c =>
          if r = 1 ∧ c = 0 then .num 1000 else if r = 1 ∧ c = 2 then .num 70000 else .invalid }
    columnHeaders := ["Default", "Current", "USB"]
    cmbScheduleList := ["Default", "Current", "USB"]
    defaultMdata := [("AMeta", ⟨0, 1000, 0, 0⟩)]
    objManager := [⟨"A", 1, 10, ⟨0, 1000, 0, 0⟩⟩] }

/-- A view of a table with four rows and three columns, the cell (2, 1) selected and a
two by two block on the clipboard. -/
def vBlock : QTableViewWithCopyPaste :=
  { model :=
      { verticalHeader := ["A", "B", "C"], horizontalHeader := ["Default", "Current", "USB"],
        item := fun r c => if r = 1 ∧ c = 1 then .num 5 else if r = 1 then .num 7 else .invalid }
    selectedIndexes := [⟨2, 1⟩]
    clipboard := "1\t2\n3\t4\n" }

/-- A frozen model with three columns and no estimate stored yet. -/
def frozen3 : FrozenModel :=
  { columnCount := 3, item := fun _ => .invalid }

/-- A document with the right root tag and a `headings` element, but no `settings`. -/
def docNoSettings : QDomNode :=
  .element "telemetry_scheduler" [] [.element "headings" [("values", "X")] []]

/-- A document with the right root tag and a `settings` element, but no `headings`. -/
def docNoHeadings : QDomNode :=
  .element "telemetry_scheduler" [] [.element "settings" [] []]

/-- A registry with the table object "A" and a settings object "S", which has no row. -/
def wWithSettingsObject : TelemetrySchedulerGadgetWidget :=
  { schedulerModel :=
      { verticalHeader := ["A"], horizontalHeader := ["Default", "Current", "USB"],
        item := fun r c => if r = 1 ∧ c = 0 then .num 1000 else .invalid }
    columnHeaders := ["Default", "Current", "USB"]
    cmbScheduleList := ["Default", "Current", "USB"]
    defaultMdata := [("AMeta", ⟨0, 1000, 0, 0⟩)]
    objManager := [⟨"A", 1, 10, ⟨0, 1000, 0, 0⟩⟩, ⟨"S", 2, 40, ⟨0, 0, 0, 0⟩⟩] }

/-- A schedule file with one entry, for the settings object "S". -/
def docSettingsObject : QDomNode :=
  .element "telemetry_scheduler" []
    [.element "headings" [("values", "USB")] [],
     .element "settings" []
       [.element "uavobject" [("name", "S"), ("id", "0x2")]
          [.element "field" [("values", "7,8")] []]]]

/-- A table with one object row holding 1000, 5 and 7 in its three columns. -/
def wThreeCells : TelemetrySchedulerGadgetWidget :=
  { schedulerModel :=
      { verticalHeader := ["A"], horizontalHeader := ["Default", "Current", "USB"],
        item := fun r c =>
          if r = 1 ∧ c = 0 then .num 1000 else if r = 1 ∧ c = 1 then .num 5
          else if r = 1 ∧ c = 2 then .num 7 else .invalid }
    columnHeaders := ["Default", "Current", "USB"]
    cmbScheduleList := ["Default", "Current", "USB"]
    defaultMdata := [("AMeta", ⟨0, 1000, 0, 0⟩)]
    objManager := [⟨"A", 1, 10, ⟨0, 1000, 0, 0⟩⟩] }

/-- A schedule file that gives the object "A" the period 70000. -/
def docLargeValue : QDomNode :=
  .element "telemetry_scheduler" []
    [.element "headings" [("values", "USB")] [],
     .element "settings" []
       [.element "uavobject" [("name", "A"), ("id", "0x1")]
          [.element "field" [("values", "70000")] []]]]

/-- A schedule file that gives the object "A" the periods 250 and 300. -/
def docInRange : QDomNode :=
  .element "telemetry_scheduler" []
    [.element "headings" [("values", "USB")] [],
     .element "settings" []
       [.element "uavobject" [("name", "A"), ("id", "0x1")]
          [.element "field" [("values", "250,300")] []]]]

/-- A view of the table with the cells 1000, 5 and 7, the cell (1, 1) selected and the
text `70000` on the clipboard. -/
def vLargeValue : QTableViewWithCopyPaste :=
  { model := wThreeCells.schedulerModel
    selectedIndexes := [⟨1, 1⟩]
    clipboard := "70000\n" }

/-- A table in the state the constructor leaves, with six columns, and a period in the
last of them. -/
def wSixColumns : TelemetrySchedulerGadgetWidget :=
  { schedulerModel :=
      { verticalHeader := ["A"]
        horizontalHeader := ["Default", "Current", "USB", "2400", "4800", "9600"]
        item := fun r c =>
          if r = 1 ∧ c = 0 then .num 1000 else if r = 1 ∧ c = 5 then .num 77 else .invalid }
    columnHeaders := ["Default", "Current", "USB", "2400", "4800", "9600"]
    cmbScheduleList := ["Default", "Current", "USB", "2400", "4800", "9600"]
    defaultMdata := [("AMeta", ⟨0, 1000, 0, 0⟩)]
    objManager := [⟨"A", 1, 10, ⟨0, 1000, 0, 0⟩⟩] }

/-- A document with the single heading "X" and no object. -/
def docOneHeading : QDomNode :=
  .element "telemetry_scheduler" []
    [.element "headings" [("values", "X")] [], .element "settings" [] []]

/-- The state after importing `docOneHeading` into `wSixColumns`: three column names, six
columns in the model. -/
def wNamesShort : TelemetrySchedulerGadgetWidget :=
  (importTelemetryConfiguration (some docOneHeading) wSixColumns).2

/-- A table with one object row of 195 bytes whose "USB" cell holds the period 48. -/
def wHalfway : TelemetrySchedulerGadgetWidget :=
  { schedulerModel :=
      { verticalHeader := ["A"], horizontalHeader := ["Default", "Current", "USB"],
        item := fun r c => if r = 1 ∧ c = 2 then .num 48 else .invalid }
    columnHeaders := ["Default", "Current", "USB"]
    cmbScheduleList := ["Default", "Current", "USB"]
    defaultMdata := []
    objManager := [⟨"A", 1, 195, Metadata.zero⟩] }

/-- A table with one object row of 65535 bytes whose "USB" cell holds the period 1. -/
def wOutOfRange : TelemetrySchedulerGadgetWidget :=
  { schedulerModel :=
      { verticalHeader := ["A"], horizontalHeader := ["Default", "Current", "USB"],
        item := fun r c => if r = 1 ∧ c = 2 then .num 1 else .invalid }
    columnHeaders := ["Default", "Current", "USB"]
    cmbScheduleList := ["Default", "Current", "USB"]
    defaultMdata := []
    objManager := [⟨"A", 1, 65535, Metadata.zero⟩] }

/-! # Theorems -/

/-! ## Strings -/

theorem splitChars_no_sep (p : Char → Bool) :
    ∀ t : List Char, (∀ c ∈ t, p c = false) → splitChars p t = [t] := by
  intro t
  induction t with
  | nil => intro _; rfl
  | cons c cs ih =>
    intro h
    have hc : p c = false := h c (List.mem_cons_self _ _)
    simp [splitChars, hc, ih (fun x hx => h x (List.mem_cons_of_mem _ hx))]

theorem splitChars_append_sep (p : Char → Bool) (sep : Char) (hsep : p sep = true)
    (rest : List Char) :
    ∀ t : List Char, (∀ c ∈ t, p c = false) →
      splitChars p (t ++ sep :: rest) = t :: splitChars p rest := by
  intro t
  induction t with
  | nil => intro _; simp [splitChars, hsep]
  | cons c cs ih =>
    intro h
    have hc : p c = false := h c (List.mem_cons_self _ _)
    simp [splitChars, hc, ih (fun x hx => h x (List.mem_cons_of_mem _ hx))]

theorem splitChars_joinChars (p : Char → Bool) (sep : Char) (hsep : p sep = true) :
    ∀ L : List (List Char), L ≠ [] → (∀ t ∈ L, ∀ c ∈ t, p c = false) →
      splitChars p (joinChars sep L) = L := by
  intro L
  induction L with
  | nil => intro h; exact absurd rfl h
  | cons t ts ih =>
    intro _ hfree
    cases ts with
    | nil =>
      simp only [joinChars]
      exact splitChars_no_sep p t (hfree t (List.mem_cons_self _ _))
    | cons u us =>
      simp only [joinChars]
      rw [splitChars_append_sep p sep hsep _ t (hfree t (List.mem_cons_self _ _))]
      rw [ih (by simp) (fun x hx => hfree x (List.mem_cons_of_mem _ hx))]

theorem split_join (l : List String) (hl : l ≠ [])
    (hfree : ∀ s ∈ l, ',' ∉ s.data) :
    QString.split (fun c => c == ',') (QStringList.join ',' l) = l := by
  unfold QString.split QStringList.join
  simp only
  rw [splitChars_joinChars (fun c => c == ',') ',' (by simp) (l.map String.data) (by simpa using hl)]
  · rw [List.map_map]
    conv_rhs => rw [← List.map_id l]
    apply List.map_congr_left
    intro s _
    rfl
  · intro t ht c hc
    obtain ⟨s, hs, rfl⟩ := List.mem_map.mp ht
    have := hfree s hs
    simp only [beq_eq_false_iff_ne, ne_eq]
    rintro rfl
    exact this hc

theorem digitChar_toNat (d : Nat) (hd : d < 10) : (Nat.digitChar d).toNat - 48 = d := by
  interval_cases d <;> rfl

theorem digitChar_isDigit (d : Nat) (hd : d < 10) : (Nat.digitChar d).isDigit = true := by
  interval_cases d <;> rfl

theorem toDigitsCore_ne_nil (fuel n : Nat) (ds : List Char) (h : ds ≠ []) :
    Nat.toDigitsCore 10 fuel n ds ≠ [] := by
  induction fuel generalizing n ds with
  | zero => simpa [Nat.toDigitsCore] using h
  | succ fuel ih =>
    simp only [Nat.toDigitsCore]
    split
    · simp
    · exact ih _ _ (by simp)

theorem toDigitsCore_all (fuel n : Nat) (ds : List Char) (h : ds.all Char.isDigit = true) :
    (Nat.toDigitsCore 10 fuel n ds).all Char.isDigit = true := by
  induction fuel generalizing n ds with
  | zero => simpa [Nat.toDigitsCore] using h
  | succ fuel ih =>
    simp only [Nat.toDigitsCore]
    have hd : (Nat.digitChar (n % 10)).isDigit = true := digitChar_isDigit _ (Nat.mod_lt _ (by decide))
    split
    · simp only [List.all_cons, hd, h, Bool.and_self]
    · exact ih _ _ (by simp only [List.all_cons, hd, h, Bool.and_self])

theorem toDigitsCore_value (fuel : Nat) :
    ∀ (n : Nat) (ds : List Char), n < fuel →
      (Nat.toDigitsCore 10 fuel n ds).foldl (fun acc c => 10 * acc + (c.toNat - 48)) 0
        = ds.foldl (fun acc c => 10 * acc + (c.toNat - 48)) n := by
  induction fuel with
  | zero => intro n ds h; omega
  | succ fuel ih =>
    intro n ds hn
    simp only [Nat.toDigitsCore]
    have hd : (Nat.digitChar (n % 10)).toNat - 48 = n % 10 := digitChar_toNat _ (Nat.mod_lt _ (by decide))
    split
    · rename_i h0
      simp only [List.foldl_cons, hd]
      congr 1
      omega
    · rename_i h0
      rw [ih (n / 10) _ (by omega)]
      simp only [List.foldl_cons, hd]
      congr 1
      omega

theorem repr_data (n : Nat) : (Nat.repr n).data = Nat.toDigitsCore 10 (n + 1) n [] := rfl

theorem dropWhile_of_none (p : Char → Bool) (l : List Char) (h : ∀ c ∈ l, p c = false) :
    l.dropWhile p = l := by
  cases l with
  | nil => rfl
  | cons a t => simp [List.dropWhile, h a (List.mem_cons_self _ _)]

theorem rdropWhile_of_none (p : Char → Bool) (l : List Char) (h : ∀ c ∈ l, p c = false) :
    l.rdropWhile p = l := by
  unfold List.rdropWhile
  rw [dropWhile_of_none p l.reverse (fun c hc => h c (List.mem_reverse.mp hc)), List.reverse_reverse]

theorem isSpace_of_isDigit (c : Char) (h : c.isDigit = true) : QChar.isSpace c = false := by
  simp only [Char.isDigit, Bool.and_eq_true, decide_eq_true_eq] at h
  have h1 : 48 ≤ c.toNat := h.1
  have h2 : c.toNat ≤ 57 := h.2
  simp only [QChar.isSpace, Bool.or_eq_false_iff, Bool.and_eq_false_iff, decide_eq_false_iff_not,
    beq_eq_false_iff_ne, ne_eq]
  omega

/-- Text made of decimal digits has no white space at its ends and no sign. -/
theorem digits_plain (l : List Char) (h : l.all Char.isDigit = true) :
    skipPlus (trimSpace l) = l := by
  rw [List.all_eq_true] at h
  have hs : ∀ c ∈ l, QChar.isSpace c = false := fun c hc => isSpace_of_isDigit c (h c hc)
  unfold trimSpace
  rw [dropWhile_of_none _ _ hs, rdropWhile_of_none _ _ hs]
  cases l with
  | nil => rfl
  | cons a t =>
    have ha := h a (List.mem_cons_self _ _)
    unfold skipPlus
    split
    · rename_i heq
      injection heq with h1 h2
      subst h1
      exact absurd ha (by decide)
    · rfl

theorem toUInt_repr (n : Nat) (hn : n ≤ UINT_MAX) : QString.toUInt (Nat.repr n) = n := by
  have hne : (Nat.repr n).data ≠ [] := by
    rw [repr_data]
    simp only [Nat.toDigitsCore]
    split
    · simp
    · exact toDigitsCore_ne_nil _ _ _ (by simp)
  have hall : (Nat.repr n).data.all Char.isDigit = true := by
    rw [repr_data]
    exact toDigitsCore_all _ _ _ rfl
  have hval : decimalValue (Nat.repr n).data = n := by
    rw [repr_data]
    unfold decimalValue
    rw [toDigitsCore_value (n + 1) n [] (Nat.lt_succ_self n)]
    rfl
  have hull : QString.toULongLong (Nat.repr n) = n := by
    unfold QString.toULongLong
    simp only [digits_plain _ hall]
    rw [if_pos ⟨hne, hall⟩, hval, if_pos (le_trans hn (by decide))]
  unfold QString.toUInt
  rw [hull, if_neg (not_lt.mpr hn)]

theorem repr_no_comma (n : Nat) : ',' ∉ (Nat.repr n).data := by
  intro h
  have hall : (Nat.repr n).data.all Char.isDigit = true := by
    rw [repr_data]
    exact toDigitsCore_all _ _ _ rfl
  rw [List.all_eq_true] at hall
  have := hall _ h
  exact absurd this (by decide)

/-! ## The item model -/

namespace QStandardItemModel

@[simp]
theorem setData_verticalHeader (m : QStandardItemModel) (r c : Nat) (v : QVariant) :
    (m.setData r c v).verticalHeader = m.verticalHeader := by
  unfold setData; split <;> rfl

@[simp]
theorem setData_horizontalHeader (m : QStandardItemModel) (r c : Nat) (v : QVariant) :
    (m.setData r c v).horizontalHeader = m.horizontalHeader := by
  unfold setData; split <;> rfl

@[simp]
theorem setData_rowCount (m : QStandardItemModel) (r c : Nat) (v : QVariant) :
    (m.setData r c v).rowCount = m.rowCount := by
  simp [rowCount]

@[simp]
theorem setData_columnCount (m : QStandardItemModel) (r c : Nat) (v : QVariant) :
    (m.setData r c v).columnCount = m.columnCount := by
  simp [columnCount]

@[simp]
theorem setData_hasIndex (m : QStandardItemModel) (r c : Nat) (v : QVariant) (r' c' : Nat) :
    (m.setData r c v).hasIndex r' c' = m.hasIndex r' c' := by
  simp [hasIndex]

theorem data_setData (m : QStandardItemModel) (r c : Nat) (v : QVariant) (r' c' : Nat) :
    (m.setData r c v).data r' c'
      = if r' = r ∧ c' = c ∧ m.hasIndex r c = true then v else m.data r' c' := by
  unfold data
  rw [setData_hasIndex]
  unfold setData
  by_cases h : m.hasIndex r c = true
  · by_cases h' : r' = r ∧ c' = c
    · obtain ⟨rfl, rfl⟩ := h'
      simp [h]
    · simp [h, h']
  · simp only [h, if_false]
    simp

theorem data_setData_same (m : QStandardItemModel) (r c : Nat) (v : QVariant)
    (h : m.hasIndex r c = true) : (m.setData r c v).data r c = v := by
  simp [data_setData, h]

theorem data_setData_other (m : QStandardItemModel) (r c : Nat) (v : QVariant) (r' c' : Nat)
    (h : ¬(r' = r ∧ c' = c)) : (m.setData r c v).data r' c' = m.data r' c' := by
  rw [data_setData]
  rw [if_neg]
  tauto

end QStandardItemModel

/-! ## IEEE 754 double precision -/

theorem roundHalfEven_error (y : ℚ) : |(roundHalfEven y : ℚ) - y| ≤ 1 / 2 := by
  have h1 : (⌊y⌋ : ℚ) ≤ y := Int.floor_le y
  have h2 : y < ⌊y⌋ + 1 := Int.lt_floor_add_one y
  unfold roundHalfEven
  rw [abs_le]
  split_ifs with ha hb hc
  · constructor <;> linarith
  · push_cast
    constructor <;> linarith
  · constructor <;> linarith
  · push_cast
    constructor <;> linarith

theorem roundHalfEven_nonneg (y : ℚ) (hy : 0 ≤ y) : 0 ≤ roundHalfEven y := by
  have h0 : 0 ≤ ⌊y⌋ := Int.floor_nonneg.mpr hy
  unfold roundHalfEven
  split_ifs <;> omega

theorem roundDouble_zero : roundDouble 0 = 0 := by
  simp [roundDouble, roundHalfEven]

theorem roundDouble_nonneg (x : ℚ) (hx : 0 ≤ x) : 0 ≤ roundDouble x := by
  unfold roundDouble
  have hp : (0 : ℚ) < 2 ^ ulpExponent x := zpow_pos (by norm_num) _
  have := roundHalfEven_nonneg (x / 2 ^ ulpExponent x) (div_nonneg hx hp.le)
  have h2 : (0 : ℚ) ≤ (roundHalfEven (x / 2 ^ ulpExponent x) : ℚ) := by exact_mod_cast this
  exact mul_nonneg h2 hp.le

theorem roundDouble_ulp (x : ℚ) : |roundDouble x - x| ≤ 2 ^ ulpExponent x / 2 := by
  have hp : (0 : ℚ) < 2 ^ ulpExponent x := zpow_pos (by norm_num) _
  have h := roundHalfEven_error (x / 2 ^ ulpExponent x)
  have heq : roundDouble x - x
      = ((roundHalfEven (x / 2 ^ ulpExponent x) : ℚ) - x / 2 ^ ulpExponent x) * 2 ^ ulpExponent x := by
    unfold roundDouble
    field_simp
  rw [heq, abs_mul, abs_of_pos hp]
  calc |(roundHalfEven (x / 2 ^ ulpExponent x) : ℚ) - x / 2 ^ ulpExponent x| * 2 ^ ulpExponent x
      ≤ 1 / 2 * 2 ^ ulpExponent x := mul_le_mul_of_nonneg_right h hp.le
    _ = 2 ^ ulpExponent x / 2 := by ring

theorem ulp_normal (x : ℚ) (hx : (2 : ℚ) ^ (-1022 : ℤ) ≤ |x|) :
    (2 : ℚ) ^ ulpExponent x ≤ |x| / 2 ^ 52 := by
  have hpos : 0 < |x| := lt_of_lt_of_le (zpow_pos (by norm_num) _) hx
  have hlog : (-1022 : ℤ) ≤ Int.log 2 |x| := by
    rw [← Int.zpow_le_iff_le_log (by norm_num) hpos]
    exact_mod_cast hx
  have hle : ((2 : ℕ) : ℚ) ^ Int.log 2 |x| ≤ |x| := Int.zpow_log_le_self (by norm_num) hpos
  unfold ulpExponent
  rw [max_eq_left hlog, zpow_sub₀ (by norm_num), le_div_iff₀ (by positivity)]
  have h52 : (2 : ℚ) ^ (52 : ℤ) = 2 ^ 52 := by norm_cast
  rw [h52, div_mul_cancel₀ _ (by positivity)]
  exact_mod_cast hle

theorem ulp_any (x : ℚ) (h0 : x ≠ 0) :
    (2 : ℚ) ^ ulpExponent x ≤ |x| / 2 ^ 52 ∨ (2 : ℚ) ^ ulpExponent x = 2 ^ (-1074 : ℤ) := by
  by_cases hx : (2 : ℚ) ^ (-1022 : ℤ) ≤ |x|
  · exact Or.inl (ulp_normal x hx)
  · right
    have hpos : 0 < |x| := abs_pos.mpr h0
    have hlog : Int.log 2 |x| < (-1022 : ℤ) := by
      rw [← Int.lt_zpow_iff_log_lt (by norm_num) hpos]
      push_neg at hx
      exact_mod_cast hx
    unfold ulpExponent
    rw [max_eq_right hlog.le]
    norm_num

/-- The relative error of a rounding in the normal range is at most 2^-53. -/
theorem roundDouble_error (x : ℚ) (hx : (2 : ℚ) ^ (-1022 : ℤ) ≤ |x|) :
    |roundDouble x - x| ≤ |x| / 2 ^ 53 := by
  have h1 := roundDouble_ulp x
  have h2 := ulp_normal x hx
  have : |x| / 2 ^ 53 = |x| / 2 ^ 52 / 2 := by ring
  rw [this]
  linarith

theorem roundDouble_error_any (x : ℚ) :
    |roundDouble x - x| ≤ |x| / 2 ^ 53 + 2 ^ (-1075 : ℤ) := by
  have hnn : 0 ≤ |x| / 2 ^ 53 := by positivity
  have hnn2 : (0 : ℚ) ≤ 2 ^ (-1075 : ℤ) := by positivity
  by_cases h0 : x = 0
  · subst h0
    rw [roundDouble_zero]
    simpa using hnn2
  have h1 := roundDouble_ulp x
  rcases ulp_any x h0 with h2 | h2
  · have : |x| / 2 ^ 53 = |x| / 2 ^ 52 / 2 := by ring
    rw [this] at hnn ⊢
    generalize (2 : ℚ) ^ (-1075 : ℤ) = c at hnn2 ⊢
    linarith
  · rw [h2] at h1
    have : (2 : ℚ) ^ (-1074 : ℤ) / 2 = 2 ^ (-1075 : ℤ) := by
      rw [show (-1074 : ℤ) = -1075 + 1 by norm_num, zpow_add₀ (by norm_num)]
      norm_num
    rw [this] at h1
    generalize (2 : ℚ) ^ (-1075 : ℤ) = c at hnn2 h1 ⊢
    linarith


theorem tiny_le (x : ℚ) (hx : 1 / 2 ^ 40 ≤ x) : (2 : ℚ) ^ (-1022 : ℤ) ≤ |x| := by
  have h1 : (2 : ℚ) ^ (-1022 : ℤ) ≤ 2 ^ (-40 : ℤ) :=
    zpow_le_zpow_right₀ (by norm_num) (by norm_num)
  have h2 : (2 : ℚ) ^ (-40 : ℤ) = 1 / 2 ^ 40 := by
    rw [zpow_neg]
    norm_num
  have h3 : 0 ≤ x := le_trans (by positivity) hx
  rw [abs_of_nonneg h3]
  generalize (2 : ℚ) ^ (-1022 : ℤ) = c1 at h1 ⊢
  generalize (2 : ℚ) ^ (-40 : ℤ) = c2 at h1 h2
  linarith

theorem subnormal_le : (2 : ℚ) ^ (-1075 : ℤ) ≤ 1 / 2 ^ 100 := by
  have h1 : (2 : ℚ) ^ (-1075 : ℤ) ≤ 2 ^ (-100 : ℤ) :=
    zpow_le_zpow_right₀ (by norm_num) (by norm_num)
  have h2 : (2 : ℚ) ^ (-100 : ℤ) = 1 / 2 ^ 100 := by
    rw [zpow_neg]
    norm_num
  generalize (2 : ℚ) ^ (-1075 : ℤ) = c1 at h1 ⊢
  generalize (2 : ℚ) ^ (-100 : ℤ) = c2 at h1 h2
  linarith

/-- A rounded value of the normal range lies within the factor `1 ± 2^-53` of the exact
one. -/
theorem roundDouble_bounds (x : ℚ) (hx : 1 / 2 ^ 40 ≤ x) :
    x * (1 - 1 / 2 ^ 53) ≤ roundDouble x ∧ roundDouble x ≤ x * (1 + 1 / 2 ^ 53) := by
  have h := roundDouble_error x (tiny_le x hx)
  have h3 : 0 ≤ x := le_trans (by positivity) hx
  rw [abs_of_nonneg h3, abs_le] at h
  constructor <;> linarith [h.1, h.2]

/-- Any rounded value of a non-negative number lies within the factor `1 ± 2^-53` and
`2^-100` of the exact one. -/
theorem roundDouble_bounds_any (x : ℚ) (hx : 0 ≤ x) :
    x * (1 - 1 / 2 ^ 53) - 1 / 2 ^ 100 ≤ roundDouble x ∧
    roundDouble x ≤ x * (1 + 1 / 2 ^ 53) + 1 / 2 ^ 100 := by
  have h := roundDouble_error_any x
  have hs := subnormal_le
  rw [abs_of_nonneg hx, abs_le] at h
  generalize (2 : ℚ) ^ (-1075 : ℤ) = c at h hs
  constructor <;> linarith [h.1, h.2]

theorem roundHalfEven_eq (y : ℚ) (m : ℤ) (h : |y - m| < 1 / 2) : roundHalfEven y = m := by
  rw [abs_lt] at h
  by_cases hm : (m : ℚ) ≤ y
  · have hf : ⌊y⌋ = m := by
      rw [Int.floor_eq_iff]
      constructor <;> linarith [h.1, h.2]
    unfold roundHalfEven
    rw [hf, if_pos (by linarith [h.2])]
  · push_neg at hm
    have hf : ⌊y⌋ = m - 1 := by
      rw [Int.floor_eq_iff]
      push_cast
      constructor <;> linarith [h.1, h.2]
    unfold roundHalfEven
    rw [hf]
    push_cast
    rw [if_neg (by linarith [h.1]), if_pos (by linarith [h.1])]
    ring

/-- The rounded value of a number of the normal range, from its exponent and the nearest
multiple of the spacing. -/
theorem roundDouble_eq (x : ℚ) (e m : ℤ) (he : -1022 ≤ e) (h1 : (2 : ℚ) ^ e ≤ x)
    (h2 : x < 2 ^ (e + 1)) (hm : |x / 2 ^ (e - 52) - m| < 1 / 2) :
    roundDouble x = m * 2 ^ (e - 52) := by
  have hpos : 0 < x := lt_of_lt_of_le (zpow_pos (by norm_num) _) h1
  have hlog : Int.log 2 |x| = e := by
    rw [abs_of_pos hpos]
    apply le_antisymm
    · have : Int.log 2 x < e + 1 := by
        rw [← Int.lt_zpow_iff_log_lt (by norm_num) hpos]
        exact_mod_cast h2
      omega
    · rw [← Int.zpow_le_iff_le_log (by norm_num) hpos]
      exact_mod_cast h1
  unfold roundDouble ulpExponent
  rw [hlog, max_eq_left he, roundHalfEven_eq _ m hm]

/-! ## Bandwidth estimate -/

theorem getObject_mem {objManager : List UAVObject} {name : String} {obj : UAVObject}
    (h : getObject objManager name = some obj) : obj ∈ objManager ∧ obj.name = name := by
  unfold getObject at h
  exact ⟨List.mem_of_find?_eq_some h, by simpa using List.find?_some h⟩

/-- The rounded frequency of a period `n ≥ 1` lies within the factor `1 ± 3 * 2^-53` of
`1000 / n`. -/
theorem frequency_bounds (n : Nat) (h1 : 1 ≤ n) (h2 : n ≤ UINT_MAX) :
    0 < roundDouble ((n : ℚ) / 1000) ∧
    1000 / (n : ℚ) * (1 - 3 / 2 ^ 53) ≤ roundDouble (1 / roundDouble ((n : ℚ) / 1000)) ∧
    roundDouble (1 / roundDouble ((n : ℚ) / 1000)) ≤ 1000 / (n : ℚ) * (1 + 3 / 2 ^ 53) := by
  have hn1 : (1 : ℚ) ≤ n := by exact_mod_cast h1
  have hn2 : (n : ℚ) ≤ 4294967295 := by exact_mod_cast h2
  have hp : (0 : ℚ) < (n : ℚ) / 1000 := by positivity
  have hp1 : (1 : ℚ) / 1000 ≤ (n : ℚ) / 1000 := by
    apply div_le_div_of_nonneg_right hn1 (by norm_num)
  have hp2 : (n : ℚ) / 1000 ≤ 4294967295 / 1000 := by
    apply div_le_div_of_nonneg_right hn2 (by norm_num)
  obtain ⟨ha1, ha2⟩ := roundDouble_bounds ((n : ℚ) / 1000) (by linarith [show (1:ℚ) / 2 ^ 40 ≤ 1 / 1000 by norm_num])
  set p := (n : ℚ) / 1000 with hpdef
  set a := roundDouble p with hadef
  have hapos : 0 < a := by
    have : 0 < p * (1 - 1 / 2 ^ 53) := mul_pos hp (by norm_num)
    linarith
  have hale : a ≤ 2 ^ 23 := by
    have : p * (1 + 1 / 2 ^ 53) ≤ 4294967295 / 1000 * (1 + 1 / 2 ^ 53) :=
      mul_le_mul_of_nonneg_right hp2 (by norm_num)
    have h3 : (4294967295 : ℚ) / 1000 * (1 + 1 / 2 ^ 53) ≤ 2 ^ 23 := by norm_num
    linarith
  have hg : (1 : ℚ) / 2 ^ 40 ≤ 1 / a := by
    apply one_div_le_one_div_of_le hapos
    linarith [show (2 : ℚ) ^ 23 ≤ 2 ^ 40 by norm_num]
  obtain ⟨hf1, hf2⟩ := roundDouble_bounds (1 / a) hg
  set f := roundDouble (1 / a) with hfdef
  have hfa1 : 1 - 1 / 2 ^ 53 ≤ f * a := by
    have := mul_le_mul_of_nonneg_right hf1 hapos.le
    have h1a : 1 / a * a = 1 := one_div_mul_cancel hapos.ne'
    nlinarith
  have hfa2 : f * a ≤ 1 + 1 / 2 ^ 53 := by
    have := mul_le_mul_of_nonneg_right hf2 hapos.le
    have h1a : 1 / a * a = 1 := one_div_mul_cancel hapos.ne'
    nlinarith
  have hfpos : 0 < f := by
    have : 0 < 1 / a * (1 - 1 / 2 ^ 53) := mul_pos (by positivity) (by norm_num)
    linarith
  have h1000 : 1000 / (n : ℚ) = 1 / p := by
    rw [hpdef]
    field_simp
  rw [h1000]
  refine ⟨hapos, ?_, ?_⟩
  · rw [div_mul_eq_mul_div, one_mul, div_le_iff₀ hp]
    -- f * p ≥ f * a / (1 + u) ≥ (1 - u) / (1 + u) ≥ 1 - 3u
    have h4 : f * a ≤ f * p * (1 + 1 / 2 ^ 53) := by
      have := mul_le_mul_of_nonneg_left ha2 hfpos.le
      linarith
    have h5 : 0 ≤ f * p := by positivity
    nlinarith
  · rw [div_mul_eq_mul_div, one_mul, le_div_iff₀ hp]
    have h4 : f * p * (1 - 1 / 2 ^ 53) ≤ f * a := by
      have := mul_le_mul_of_nonneg_left ha1 hfpos.le
      linarith
    have h5 : 0 ≤ f * p := by positivity
    nlinarith

/-- The rounded share of one row lies within the factor `1 ± 5 * 2^-53` and `2^-100` of
the share in the words of the specification. -/
theorem row_bounds (w : TelemetrySchedulerGadgetWidget) (col i : Nat) (name : String)
    (obj : UAVObject) (hobj : getObject w.objManager name = some obj)
    (hsize : obj.numBytes < 65536)
    (hperiod : (w.schedulerModel.data i col).toUInt ≤ UINT_MAX) :
    0 ≤ specRowBandwidth w col (i, name) ∧
    specRowBandwidth w col (i, name) * (1 - 5 / 2 ^ 53) - 1 / 2 ^ 100
      ≤ roundDouble (updateFrequency_Hz w.schedulerModel i col
          * ((obj.numBytes % 65536 : Nat) : ℚ)) ∧
    roundDouble (updateFrequency_Hz w.schedulerModel i col * ((obj.numBytes % 65536 : Nat) : ℚ))
      ≤ specRowBandwidth w col (i, name) * (1 + 5 / 2 ^ 53) + 1 / 2 ^ 100 := by
  rw [Nat.mod_eq_of_lt hsize]
  simp only [specRowBandwidth, hobj]
  by_cases hn : 0 < (w.schedulerModel.data i col).toUInt
  · rw [if_pos hn]
    obtain ⟨ha, hf1, hf2⟩ := frequency_bounds _ hn hperiod
    unfold updateFrequency_Hz
    rw [if_pos ha]
    set n := (w.schedulerModel.data i col).toUInt with hndef
    set f := roundDouble (1 / roundDouble ((n : ℚ) / 1000)) with hfdef
    have hn0 : (0 : ℚ) < n := by exact_mod_cast hn
    have hs0 : (0 : ℚ) ≤ (obj.numBytes : ℚ) := Nat.cast_nonneg _
    have hF : (0 : ℚ) < 1000 / (n : ℚ) := by positivity
    have hT : 0 ≤ 1000 / (n : ℚ) * (obj.numBytes : ℚ) := mul_nonneg hF.le hs0
    have hf0 : 0 ≤ f := by
      have : 0 ≤ 1000 / (n : ℚ) * (1 - 3 / 2 ^ 53) := mul_nonneg hF.le (by norm_num)
      linarith
    have hh1 : 1000 / (n : ℚ) * (obj.numBytes : ℚ) * (1 - 3 / 2 ^ 53) ≤ f * (obj.numBytes : ℚ) := by
      have := mul_le_mul_of_nonneg_right hf1 hs0
      linarith
    have hh2 : f * (obj.numBytes : ℚ) ≤ 1000 / (n : ℚ) * (obj.numBytes : ℚ) * (1 + 3 / 2 ^ 53) := by
      have := mul_le_mul_of_nonneg_right hf2 hs0
      linarith
    obtain ⟨ht1, ht2⟩ := roundDouble_bounds_any (f * (obj.numBytes : ℚ)) (mul_nonneg hf0 hs0)
    set T := 1000 / (n : ℚ) * (obj.numBytes : ℚ) with hTdef
    set h := f * (obj.numBytes : ℚ) with hhdef
    refine ⟨hT, ?_, ?_⟩
    · have : T * (1 - 3 / 2 ^ 53) * (1 - 1 / 2 ^ 53) ≤ h * (1 - 1 / 2 ^ 53) :=
        mul_le_mul_of_nonneg_right hh1 (by norm_num)
      have h2 : T * (1 - 5 / 2 ^ 53) ≤ T * (1 - 3 / 2 ^ 53) * (1 - 1 / 2 ^ 53) := by
        have : T * (1 - 3 / 2 ^ 53) * (1 - 1 / 2 ^ 53) - T * (1 - 5 / 2 ^ 53)
            = T * ((1 - 3 / 2 ^ 53) * (1 - 1 / 2 ^ 53) - (1 - 5 / 2 ^ 53)) := by ring
        have h3 : (0 : ℚ) ≤ (1 - 3 / 2 ^ 53) * (1 - 1 / 2 ^ 53) - (1 - 5 / 2 ^ 53) := by norm_num
        have := mul_nonneg hT h3
        linarith
      linarith
    · have : h * (1 + 1 / 2 ^ 53) ≤ T * (1 + 3 / 2 ^ 53) * (1 + 1 / 2 ^ 53) :=
        mul_le_mul_of_nonneg_right hh2 (by norm_num)
      have h2 : T * (1 + 3 / 2 ^ 53) * (1 + 1 / 2 ^ 53) ≤ T * (1 + 5 / 2 ^ 53) := by
        have : T * (1 + 5 / 2 ^ 53) - T * (1 + 3 / 2 ^ 53) * (1 + 1 / 2 ^ 53)
            = T * ((1 + 5 / 2 ^ 53) - (1 + 3 / 2 ^ 53) * (1 + 1 / 2 ^ 53)) := by ring
        have h3 : (0 : ℚ) ≤ (1 + 5 / 2 ^ 53) - (1 + 3 / 2 ^ 53) * (1 + 1 / 2 ^ 53) := by norm_num
        have := mul_nonneg hT h3
        linarith
      linarith
  · rw [if_neg hn]
    have h0 : (w.schedulerModel.data i col).toUInt = 0 := by omega
    unfold updateFrequency_Hz
    rw [h0]
    simp only [Nat.cast_zero, zero_div, roundDouble_zero, gt_iff_lt, lt_self_iff_false, if_false,
      zero_mul]
    norm_num

/-- The accumulated sum after `k` rows lies within `k * c + 5 * 2^-53 * S` of the exact
sum `S`, where `c = 65537 * 2^-53 + 2^-99`, as long as the exact sum stays at most 65535
and there are at most 65535 rows. -/
theorem bandwidthLoop_bounds (w : TelemetrySchedulerGadgetWidget) (col : Nat)
    (hsize : ∀ o ∈ w.objManager, o.numBytes < 65536)
    (hperiod : ∀ i, (w.schedulerModel.data i col).toUInt ≤ UINT_MAX) :
    ∀ (names : List String) (i k : Nat) (acc S : ℚ),
      (∀ name ∈ names, getObject w.objManager name ≠ none) →
      0 ≤ acc → 0 ≤ S →
      |acc - S| ≤ k * (65537 / 2 ^ 53 + 2 / 2 ^ 100) + 5 / 2 ^ 53 * S →
      S + ((names.enumFrom i).map (specRowBandwidth w col)).sum ≤ 65535 →
      k + names.length ≤ 65535 →
      ∃ acc', bandwidthLoop w.objManager w.schedulerModel col names i acc = some acc' ∧
        0 ≤ acc' ∧
        |acc' - (S + ((names.enumFrom i).map (specRowBandwidth w col)).sum)|
          ≤ ((k + names.length : Nat) : ℚ) * (65537 / 2 ^ 53 + 2 / 2 ^ 100)
            + 5 / 2 ^ 53 * (S + ((names.enumFrom i).map (specRowBandwidth w col)).sum) := by
  intro names
  induction names with
  | nil =>
    intro i k acc S _ hacc _ hinv _ _
    refine ⟨acc, rfl, hacc, ?_⟩
    simpa using hinv
  | cons name rest ih =>
    intro i k acc S hreg hacc hS hinv hsum hk
    have h1 : getObject w.objManager name ≠ none := hreg name (List.mem_cons_self _ _)
    obtain ⟨obj, hobj⟩ := Option.ne_none_iff_exists'.mp h1
    have hlt : obj.numBytes < 65536 := hsize obj (getObject_mem hobj).1
    obtain ⟨hT0, ht1, ht2⟩ := row_bounds w col i name obj hobj hlt (hperiod i)
    simp only [List.enumFrom_cons, List.map_cons, List.sum_cons, List.length_cons] at hsum hk ⊢
    have hrest0 : 0 ≤ ((rest.enumFrom (i + 1)).map (specRowBandwidth w col)).sum := by
      apply List.sum_nonneg
      intro x hx
      obtain ⟨y, _, rfl⟩ := List.mem_map.mp hx
      unfold specRowBandwidth
      split
      · exact le_refl _
      · split
        · positivity
        · exact le_refl _
    set T := specRowBandwidth w col (i, name) with hTdef
    set t := roundDouble (updateFrequency_Hz w.schedulerModel i col
        * ((obj.numBytes % 65536 : Nat) : ℚ)) with htdef
    set R := ((rest.enumFrom (i + 1)).map (specRowBandwidth w col)).sum with hRdef
    have hk' : (k : ℚ) ≤ 65535 := by
      have : k ≤ 65535 := by omega
      exact_mod_cast this
    have hk0 : (0 : ℚ) ≤ k := Nat.cast_nonneg _
    have hST : S + T ≤ 65535 := by linarith
    have hSle : S ≤ 65535 := by linarith
    have hTle : T ≤ 65535 := by linarith
    rw [abs_le] at hinv
    have ht0 : 0 ≤ t := by
      rw [htdef]
      apply roundDouble_nonneg
      apply mul_nonneg
      · unfold updateFrequency_Hz
        split
        · apply roundDouble_nonneg
          rename_i hpos
          exact (one_div_pos.mpr hpos).le
        · exact le_refl _
      · exact Nat.cast_nonneg _
    obtain ⟨hs1, hs2⟩ := roundDouble_bounds_any (acc + t) (add_nonneg hacc ht0)
    have hsumle : acc + t ≤ 65537 := by
      have e1 : (k : ℚ) * (65537 / 2 ^ 53 + 2 / 2 ^ 100) ≤ 65535 * (65537 / 2 ^ 53 + 2 / 2 ^ 100) :=
        mul_le_mul_of_nonneg_right hk' (by norm_num)
      have e2 : (5 : ℚ) / 2 ^ 53 * S ≤ 5 / 2 ^ 53 * 65535 :=
        mul_le_mul_of_nonneg_left hSle (by norm_num)
      have e3 : T * (1 + 5 / 2 ^ 53) ≤ T + 65535 * (5 / 2 ^ 53) := by nlinarith
      have e4 : (65535 : ℚ) * (65537 / 2 ^ 53 + 2 / 2 ^ 100) + 5 / 2 ^ 53 * 65535
          + 65535 * (5 / 2 ^ 53) + 1 / 2 ^ 100 ≤ 1 := by norm_num
      linarith [hinv.2]
    have hih := ih (i + 1) (k + 1) (roundDouble (acc + t)) (S + T)
      (fun n hn => hreg n (List.mem_cons_of_mem _ hn))
      (roundDouble_nonneg _ (add_nonneg hacc ht0)) (add_nonneg hS hT0)
      (by
        rw [abs_le]
        push_cast
        have e1 : (acc + t) * (1 / 2 ^ 53) ≤ 65537 * (1 / 2 ^ 53) :=
          mul_le_mul_of_nonneg_right hsumle (by norm_num)
        constructor
        · nlinarith [hinv.1]
        · nlinarith [hinv.2])
      (by linarith) (by omega)
    obtain ⟨acc', hloop, hacc', hbound⟩ := hih
    refine ⟨acc', ?_, hacc', ?_⟩
    · simp only [bandwidthLoop, hobj]
      exact hloop
    · have e : S + T + R = S + (T + R) := by ring
      have e2 : k + 1 + rest.length = k + (rest.length + 1) := by omega
      rw [e, e2] at hbound
      exact hbound

theorem storedBandwidth_bounds (w : TelemetrySchedulerGadgetWidget) (col : Nat)
    (hreg : ∀ name ∈ w.schedulerModel.verticalHeader, getObject w.objManager name ≠ none)
    (hsize : ∀ o ∈ w.objManager, o.numBytes < 65536)
    (hperiod : ∀ i, (w.schedulerModel.data i col).toUInt ≤ UINT_MAX)
    (hrows : w.schedulerModel.verticalHeader.length ≤ 65535)
    (hfit : specBandwidth w col ≤ 65535) :
    ∃ v : Nat, storedBandwidth w col = .ok v ∧
      specBandwidth w col - 1 / 2 - 1 / 1000000 < (v : ℚ) ∧
      (v : ℚ) ≤ specBandwidth w col + 1 / 2 + 1 / 1000000 := by
  obtain ⟨acc, hloop, hacc, hbound⟩ := bandwidthLoop_bounds w col hsize hperiod
    w.schedulerModel.verticalHeader 1 0 0 0 hreg (le_refl _) (le_refl _) (by simp)
    (by rw [zero_add]; exact hfit) (by omega)
  rw [zero_add] at hbound
  have hS : ((w.schedulerModel.verticalHeader.enumFrom 1).map (specRowBandwidth w col)).sum
      = specBandwidth w col := rfl
  rw [hS] at hbound
  have hS0 : 0 ≤ specBandwidth w col := by
    unfold specBandwidth
    apply List.sum_nonneg
    intro x hx
    obtain ⟨y, _, rfl⟩ := List.mem_map.mp hx
    unfold specRowBandwidth
    split
    · exact le_refl _
    · split
      · positivity
      · exact le_refl _
  set S := specBandwidth w col with hSdef
  have hN : ((0 + w.schedulerModel.verticalHeader.length : Nat) : ℚ) ≤ 65535 := by
    have : 0 + w.schedulerModel.verticalHeader.length ≤ 65535 := by omega
    exact_mod_cast this
  have hN0 : (0 : ℚ) ≤ ((0 + w.schedulerModel.verticalHeader.length : Nat) : ℚ) :=
    Nat.cast_nonneg _
  set N := ((0 + w.schedulerModel.verticalHeader.length : Nat) : ℚ) with hNdef
  have hE : N * (65537 / 2 ^ 53 + 2 / 2 ^ 100) + 5 / 2 ^ 53 * S
      ≤ 65535 * (65537 / 2 ^ 53 + 2 / 2 ^ 100) + 5 / 2 ^ 53 * 65535 := by
    have e1 : N * (65537 / 2 ^ 53 + 2 / 2 ^ 100) ≤ 65535 * (65537 / 2 ^ 53 + 2 / 2 ^ 100) :=
      mul_le_mul_of_nonneg_right hN (by norm_num)
    have e2 : (5 : ℚ) / 2 ^ 53 * S ≤ 5 / 2 ^ 53 * 65535 :=
      mul_le_mul_of_nonneg_left hfit (by norm_num)
    linarith
  rw [abs_le] at hbound
  obtain ⟨hr1, hr2⟩ := roundDouble_bounds (acc + 1 / 2)
    (by linarith [show (1 : ℚ) / 2 ^ 40 ≤ 1 / 2 by norm_num])
  set r := roundDouble (acc + 1 / 2) with hrdef
  have hacc2 : acc + 1 / 2 ≤ 65536 := by
    have e4 : (65535 : ℚ) * (65537 / 2 ^ 53 + 2 / 2 ^ 100) + 5 / 2 ^ 53 * 65535 ≤ 1 / 2 := by
      norm_num
    linarith [hbound.2]
  have hu : (acc + 1 / 2) * (1 / 2 ^ 53) ≤ 65536 * (1 / 2 ^ 53) :=
    mul_le_mul_of_nonneg_right hacc2 (by norm_num)
  have hu0 : 0 ≤ (acc + 1 / 2) * (1 / 2 ^ 53) := by positivity
  have hconst : (65535 : ℚ) * (65537 / 2 ^ 53 + 2 / 2 ^ 100) + 5 / 2 ^ 53 * 65535
      + 65536 * (1 / 2 ^ 53) < 1 / 1000000 := by norm_num
  have hrlo : S + 1 / 2 - 1 / 1000000 < r := by
    have : (acc + 1 / 2) * (1 - 1 / 2 ^ 53) = acc + 1 / 2 - (acc + 1 / 2) * (1 / 2 ^ 53) := by ring
    linarith [hbound.1]
  have hrhi : r < S + 1 / 2 + 1 / 1000000 := by
    have : (acc + 1 / 2) * (1 + 1 / 2 ^ 53) = acc + 1 / 2 + (acc + 1 / 2) * (1 / 2 ^ 53) := by ring
    linarith [hbound.2]
  have hr0 : 0 ≤ r := roundDouble_nonneg _ (by linarith)
  have hfl0 : 0 ≤ ⌊r⌋ := Int.floor_nonneg.mpr hr0
  have hcast : ((⌊r⌋.toNat : Nat) : ℚ) = (⌊r⌋ : ℚ) := by
    have : ((⌊r⌋.toNat : Nat) : ℤ) = ⌊r⌋ := Int.toNat_of_nonneg hfl0
    exact_mod_cast this
  refine ⟨⌊r⌋.toNat, ?_, ?_, ?_⟩
  · unfold storedBandwidth
    rw [hloop]
    simp only
    unfold toUInt16
    rw [← hrdef, if_pos ⟨by linarith, by linarith⟩]
  · rw [hcast]
    have := Int.lt_floor_add_one r
    linarith
  · rw [hcast]
    have := Int.floor_le r
    linarith

theorem wThreeMs_spec : specBandwidth wThreeMs 2 = 10000 / 3 := by
  simp [specBandwidth, specRowBandwidth, wThreeMs, getObject, QStandardItemModel.data,
    QStandardItemModel.hasIndex, QStandardItemModel.rowCount, QStandardItemModel.columnCount,
    QVariant.toUInt]
  norm_num

theorem wThreeMs_periods (i : Nat) : (wThreeMs.schedulerModel.data i 2).toUInt ≤ UINT_MAX := by
  simp only [wThreeMs, QStandardItemModel.data]
  split
  · split
    · decide
    · decide
  · decide

theorem wThreeMs_stored : storedBandwidth wThreeMs 2 = .ok 3333 := by
  obtain ⟨v, hv, h1, h2⟩ := storedBandwidth_bounds wThreeMs 2 (by decide) (by decide)
    wThreeMs_periods (by decide) (by rw [wThreeMs_spec]; norm_num)
  rw [wThreeMs_spec] at h1 h2
  have h3 : (3332 : ℚ) < v := by linarith
  have h4 : (v : ℚ) < 3334 := by linarith
  have h5 : 3332 < v := by exact_mod_cast h3
  have h6 : v < 3334 := by exact_mod_cast h4
  have : v = 3333 := by omega
  rw [hv, this]

theorem storedBandwidth_of_loop (w : TelemetrySchedulerGadgetWidget) (col : Nat) (bps : ℚ)
    (v : Nat)
    (hloop : bandwidthLoop w.objManager w.schedulerModel col w.schedulerModel.verticalHeader 1 0
      = some bps)
    (hcast : toUInt16 (roundDouble (bps + 1 / 2)) = some v) :
    storedBandwidth w col = .ok v := by
  unfold storedBandwidth
  rw [hloop]
  simp only
  rw [hcast]

theorem storedBandwidth_of_loop_fault (w : TelemetrySchedulerGadgetWidget) (col : Nat) (bps : ℚ)
    (hloop : bandwidthLoop w.objManager w.schedulerModel col w.schedulerModel.verticalHeader 1 0
      = some bps)
    (hcast : toUInt16 (roundDouble (bps + 1 / 2)) = none) :
    storedBandwidth w col = .error .castOutOfRange := by
  unfold storedBandwidth
  rw [hloop]
  simp only
  rw [hcast]

theorem bandwidthLoop_one_row (w : TelemetrySchedulerGadgetWidget) (col : Nat) (name : String)
    (obj : UAVObject) (hrows : w.schedulerModel.verticalHeader = [name])
    (hobj : getObject w.objManager name = some obj) :
    bandwidthLoop w.objManager w.schedulerModel col w.schedulerModel.verticalHeader 1 0
      = some (roundDouble (0 + roundDouble (updateFrequency_Hz w.schedulerModel 1 col
          * ((obj.numBytes % 65536 : Nat) : ℚ)))) := by
  rw [hrows, bandwidthLoop]
  simp only [hobj]
  rw [bandwidthLoop]

theorem wHalfway_spec : specBandwidth wHalfway 2 = 8125 / 2 := by
  simp [specBandwidth, specRowBandwidth, wHalfway, getObject, QStandardItemModel.data,
    QStandardItemModel.hasIndex, QStandardItemModel.rowCount, QStandardItemModel.columnCount,
    QVariant.toUInt]
  norm_num

theorem wHalfway_stored : storedBandwidth wHalfway 2 = .ok 4062 := by
  have h1 : roundDouble (48 / 1000) = 6917529027641082 / 2 ^ 57 := by
    rw [roundDouble_eq (48 / 1000) (-5) 6917529027641082 (by norm_num) (by norm_num) (by norm_num)
      (by norm_num [abs_lt])]
    norm_num
  have h2 : roundDouble (1 / (6917529027641082 / 2 ^ 57)) = 5864062014805333 / 2 ^ 48 := by
    rw [roundDouble_eq _ 4 5864062014805333 (by norm_num) (by norm_num) (by norm_num)
      (by norm_num [abs_lt])]
    norm_num
  have h3 : roundDouble (5864062014805333 / 2 ^ 48 * 195) = 8933531975679999 / 2 ^ 41 := by
    rw [roundDouble_eq _ 11 8933531975679999 (by norm_num) (by norm_num) (by norm_num)
      (by norm_num [abs_lt])]
    norm_num
  have h4 : roundDouble (0 + 8933531975679999 / 2 ^ 41) = 8933531975679999 / 2 ^ 41 := by
    rw [roundDouble_eq _ 11 8933531975679999 (by norm_num) (by norm_num) (by norm_num)
      (by norm_num [abs_lt])]
    norm_num
  have h5 : roundDouble (8933531975679999 / 2 ^ 41 + 1 / 2) = 8934631487307775 / 2 ^ 41 := by
    rw [roundDouble_eq _ 11 8934631487307775 (by norm_num) (by norm_num) (by norm_num)
      (by norm_num [abs_lt])]
    norm_num
  have hfl : ⌊(8934631487307775 : ℚ) / 2 ^ 41⌋ = 4062 := by
    rw [Int.floor_eq_iff]
    norm_num
  have hloop : bandwidthLoop wHalfway.objManager wHalfway.schedulerModel 2
      wHalfway.schedulerModel.verticalHeader 1 0 = some (8933531975679999 / 2 ^ 41) := by
    have hd : (wHalfway.schedulerModel.data 1 2).toUInt = 48 := by decide
    have hn : ((195 % 65536 : Nat) : ℚ) = 195 := by norm_num
    have h48 : ((48 : Nat) : ℚ) = 48 := by norm_num
    rw [bandwidthLoop_one_row wHalfway 2 "A" ⟨"A", 1, 195, Metadata.zero⟩ rfl (by decide)]
    unfold updateFrequency_Hz
    rw [hd, h48, h1, if_pos (by norm_num), h2, hn, h3, h4]
  apply storedBandwidth_of_loop wHalfway 2 _ 4062 hloop
  rw [h5]
  unfold toUInt16
  rw [if_pos (by norm_num), hfl]
  rfl

theorem wOutOfRange_spec : specBandwidth wOutOfRange 2 = 65535000 := by
  simp [specBandwidth, specRowBandwidth, wOutOfRange, getObject, QStandardItemModel.data,
    QStandardItemModel.hasIndex, QStandardItemModel.rowCount, QStandardItemModel.columnCount,
    QVariant.toUInt]
  norm_num

theorem wOutOfRange_stored : storedBandwidth wOutOfRange 2 = .error .castOutOfRange := by
  have h1 : roundDouble (1 / 1000) = 4611686018427388 / 2 ^ 62 := by
    rw [roundDouble_eq (1 / 1000) (-10) 4611686018427388 (by norm_num) (by norm_num)
      (by norm_num) (by norm_num [abs_lt])]
    norm_num
  have h2 : roundDouble (1 / (4611686018427388 / 2 ^ 62)) = 1000 := by
    rw [roundDouble_eq _ 9 8796093022208000 (by norm_num) (by norm_num) (by norm_num)
      (by norm_num [abs_lt])]
    norm_num
  have h3 : roundDouble (1000 * 65535) = 65535000 := by
    rw [roundDouble_eq _ 25 8795958804480000 (by norm_num) (by norm_num) (by norm_num)
      (by norm_num [abs_lt])]
    norm_num
  have h4 : roundDouble (0 + 65535000) = 65535000 := by
    rw [roundDouble_eq _ 25 8795958804480000 (by norm_num) (by norm_num) (by norm_num)
      (by norm_num [abs_lt])]
    norm_num
  have h5 : roundDouble (65535000 + 1 / 2) = 131070001 / 2 := by
    rw [roundDouble_eq _ 25 8795958871588864 (by norm_num) (by norm_num) (by norm_num)
      (by norm_num [abs_lt])]
    norm_num
  have hloop : bandwidthLoop wOutOfRange.objManager wOutOfRange.schedulerModel 2
      wOutOfRange.schedulerModel.verticalHeader 1 0 = some 65535000 := by
    have hd : (wOutOfRange.schedulerModel.data 1 2).toUInt = 1 := by decide
    have hn : ((65535 % 65536 : Nat) : ℚ) = 65535 := by norm_num
    have h48 : ((1 : Nat) : ℚ) = 1 := by norm_num
    rw [bandwidthLoop_one_row wOutOfRange 2 "A" ⟨"A", 1, 65535, Metadata.zero⟩ rfl (by decide)]
    unfold updateFrequency_Hz
    rw [hd, h48, h1, if_pos (by norm_num), h2, hn, h3, h4]
  apply storedBandwidth_of_loop_fault wOutOfRange 2 _ hloop
  rw [h5]
  unfold toUInt16
  rw [if_neg (by norm_num)]

/-- C1 (amended): take a table of at most 65535 object rows, each naming a registered
object, where every registered object has fewer than 2^16 bytes, and a column of the
frozen model whose periods fit 32 bits and for which the sum `S` of the claim,
`1000 / period * byteSize` over the rows with a positive period, is at most 65535.  Then
`dataModel_itemChanged` stores a whole number `v` in the cell of the column in the
frozen model, and leaves the other cells of the frozen model as they were; `v` is `S`
rounded to the nearest whole number by `double` arithmetic:
`S - 1/2 - 10^-6 < v ≤ S + 1/2 + 10^-6`, and `v` is the integer part of `S + 1/2` whenever
`S + 1/2` is farther than `10^-6` from every whole number. -/
theorem dataModel_itemChanged_stores_rounded_sum (w : TelemetrySchedulerGadgetWidget)
    (frozenModel : FrozenModel) (col : Nat)
    (hreg : ∀ name ∈ w.schedulerModel.verticalHeader, getObject w.objManager name ≠ none)
    (hsize : ∀ o ∈ w.objManager, o.numBytes < 65536)
    (hperiod : ∀ i, (w.schedulerModel.data i col).toUInt ≤ UINT_MAX)
    (hrows : w.schedulerModel.verticalHeader.length ≤ 65535)
    (hfit : specBandwidth w col ≤ 65535)
    (hcol : col < frozenModel.columnCount) :
    ∃ v : Nat, storedBandwidth w col = .ok v ∧
      dataModel_itemChanged w frozenModel col = .ok (frozenModel.setData col (.num v)) ∧
      (frozenModel.setData col (.num v)).data col = .num v ∧
      (∀ c, c ≠ col → (frozenModel.setData col (.num v)).data c = frozenModel.data c) ∧
      specBandwidth w col - 1 / 2 - 1 / 1000000 < (v : ℚ) ∧
      (v : ℚ) ≤ specBandwidth w col + 1 / 2 + 1 / 1000000 ∧
      ((∀ k : ℤ, 1 / 1000000 < |specBandwidth w col + 1 / 2 - k|) →
        v = ⌊specBandwidth w col + 1 / 2⌋.toNat) := by
  obtain ⟨v, hv, h1, h2⟩ := storedBandwidth_bounds w col hreg hsize hperiod hrows hfit
  refine ⟨v, hv, ?_, ?_, ?_, h1, h2, ?_⟩
  · unfold dataModel_itemChanged
    rw [hv]
  · simp [FrozenModel.setData, FrozenModel.data, hcol]
  · intro c hc
    simp [FrozenModel.setData, FrozenModel.data, hcol, hc]
  · intro hfar
    set S := specBandwidth w col with hSdef
    have hf1 : ((⌊S + 1 / 2⌋ : ℤ) : ℚ) ≤ S + 1 / 2 := Int.floor_le _
    have hf2 : S + 1 / 2 < ((⌊S + 1 / 2⌋ : ℤ) : ℚ) + 1 := Int.lt_floor_add_one _
    have ha := hfar ⌊S + 1 / 2⌋
    have hb := hfar (⌊S + 1 / 2⌋ + 1)
    rw [abs_of_nonneg (by linarith)] at ha
    rw [abs_of_nonpos (by push_cast; linarith)] at hb
    push_cast at hb
    have hv1 : ((v : ℤ) : ℚ) < ((⌊S + 1 / 2⌋ + 1 : ℤ) : ℚ) := by
      push_cast
      linarith
    have hv2 : ((⌊S + 1 / 2⌋ - 1 : ℤ) : ℚ) < ((v : ℤ) : ℚ) := by
      push_cast
      linarith
    have hv3 : (v : ℤ) < ⌊S + 1 / 2⌋ + 1 := by exact_mod_cast hv1
    have hv4 : ⌊S + 1 / 2⌋ - 1 < (v : ℤ) := by exact_mod_cast hv2
    omega

/-- Instance of C1 (amended): one object of 10 bytes with the period 3 ms in the "USB"
column, where the sum is 10000/3; the value stored is 3333. -/
theorem dataModel_itemChanged_stores_rounded_sum_witness :
    ∃ v : Nat, dataModel_itemChanged wThreeMs frozen3 2 = .ok (frozen3.setData 2 (.num v)) ∧
      (frozen3.setData 2 (.num v)).data 2 = .num v ∧ v = 3333 := by
  obtain ⟨v, _, h2, h3, _, h5, h6, _⟩ := dataModel_itemChanged_stores_rounded_sum wThreeMs frozen3 2
    (by decide) (by decide) wThreeMs_periods (by decide) (by rw [wThreeMs_spec]; norm_num)
    (by decide)
  refine ⟨v, h2, h3, ?_⟩
  rw [wThreeMs_spec] at h5 h6
  have h7 : (3332 : ℚ) < v := by linarith
  have h8 : (v : ℚ) < 3334 := by linarith
  have h9 : 3332 < v := by exact_mod_cast h7
  have h10 : v < 3334 := by exact_mod_cast h8
  omega

/-- C1 as stated fails.  For one object of 10 bytes with the period 3 ms the sum is
10000/3 and the value stored is 3333.  For one object of 195 bytes with the period 48 ms
the sum is 4062.5 and the value stored is 4062: the rounded quotients leave the `double`
sum just below the half.  For one object of 65535 bytes with the period 1 ms the sum is
65535000, which is no value of `uint16_t`, so that the conversion is undefined. -/
theorem bandwidth_is_rounded_not_exact :
    specBandwidth wThreeMs 2 = 10000 / 3 ∧ storedBandwidth wThreeMs 2 = .ok 3333 ∧
    ((3333 : Nat) : ℚ) ≠ 10000 / 3 ∧
    specBandwidth wHalfway 2 = 8125 / 2 ∧ storedBandwidth wHalfway 2 = .ok 4062 ∧
    specBandwidth wOutOfRange 2 = 65535000 ∧
    storedBandwidth wOutOfRange 2 = .error .castOutOfRange :=
  ⟨wThreeMs_spec, wThreeMs_stored, by norm_num, wHalfway_spec, wHalfway_stored,
    wOutOfRange_spec, wOutOfRange_stored⟩

/-! ## Import: zero fallback -/

theorem scanBack_nonzero (valuesList : List String) (n val : Nat) (h : val ≠ 0) :
    scanBack valuesList n val = val := by
  cases n <;> simp [scanBack, h]

theorem scanBack_zero_all (valuesList : List String) :
    ∀ n, (∀ i, i < n → parsedValue valuesList i = 0) → scanBack valuesList n 0 = 0 := by
  intro n
  induction n with
  | zero => intro _; rfl
  | succ n ih =>
    intro h
    have hn : QString.toUInt (valuesList.getD n "") = 0 := h n (Nat.lt_succ_self n)
    simp only [scanBack, if_true, hn]
    exact ih (fun i hi => h i (Nat.lt_succ_of_lt hi))

theorem scanBack_zero_found (valuesList : List String) (i : Nat) (hi : parsedValue valuesList i ≠ 0) :
    ∀ n, i < n → (∀ t, i < t → t < n → parsedValue valuesList t = 0) →
      scanBack valuesList n 0 = parsedValue valuesList i := by
  intro n
  induction n with
  | zero => intro h; omega
  | succ n ih =>
    intro hlt hz
    simp only [scanBack, if_true]
    rcases Nat.lt_succ_iff_lt_or_eq.mp hlt with h | h
    · have hn : QString.toUInt (valuesList.getD n "") = 0 := hz n h (Nat.lt_succ_self n)
      rw [hn]
      exact ih h (fun t h1 h2 => hz t h1 (Nat.lt_succ_of_lt h2))
    · subst h
      exact scanBack_nonzero valuesList i _ hi

theorem loadValues_aux (valuesList : List String) (row : Nat) (m : QStandardItemModel) :
    ∀ k,
      let m' := (List.range k).foldl
        (fun m j => m.setData row (j + 1) (.num (importValue m row valuesList j))) m
      m'.verticalHeader = m.verticalHeader ∧ m'.horizontalHeader = m.horizontalHeader ∧
      (∀ r c, (r ≠ row ∨ c = 0 ∨ k < c) → m'.data r c = m.data r c) ∧
      (∀ j, j < k → m.hasIndex row (j + 1) = true →
        m'.data row (j + 1) = .num (importValue m row valuesList j)) := by
  intro k
  induction k with
  | zero =>
    simp
  | succ k ih =>
    simp only [List.range_succ, List.foldl_append, List.foldl_cons, List.foldl_nil]
    obtain ⟨hv, hh, hother, hcell⟩ := ih
    set mk := (List.range k).foldl
        (fun m j => m.setData row (j + 1) (.num (importValue m row valuesList j))) m with hmk
    have hval : importValue mk row valuesList k = importValue m row valuesList k := by
      unfold importValue
      rw [hother row 0 (Or.inr (Or.inl rfl))]
    have hidx : ∀ r c, mk.hasIndex r c = m.hasIndex r c := by
      intro r c
      simp [QStandardItemModel.hasIndex, QStandardItemModel.rowCount, QStandardItemModel.columnCount, hv, hh]
    refine ⟨by simp [hv], by simp [hh], ?_, ?_⟩
    · intro r c h
      rw [QStandardItemModel.data_setData_other]
      · apply hother
        rcases h with h | h | h
        · exact Or.inl h
        · exact Or.inr (Or.inl h)
        · exact Or.inr (Or.inr (by omega))
      · rintro ⟨h1, h2⟩
        rcases h with h | h | h <;> omega
    · intro j hj hidxj
      rcases Nat.lt_succ_iff_lt_or_eq.mp hj with h | h
      · rw [QStandardItemModel.data_setData_other]
        · exact hcell j h hidxj
        · rintro ⟨_, h2⟩
          omega
      · subst h
        rw [QStandardItemModel.data_setData_same _ _ _ _ (by rw [hidx]; exact hidxj), hval]

/-- C2: the value `importTelemetryConfiguration` writes for position `j` of a value list
is the parsed value at `j` when that is not zero; else the parsed value at the greatest
`i < j` that is not zero; else, when there is none, the `toUInt()` of the row's column 0
(the "Default" column).  The value is stored in the cell `(row, j + 1)` when the model
has that cell. -/
theorem import_zero_fallback (m : QStandardItemModel) (row : Nat) (valuesList : List String)
    (j : Nat) :
    (parsedValue valuesList j ≠ 0 →
      importValue m row valuesList j = parsedValue valuesList j) ∧
    (parsedValue valuesList j = 0 → ∀ i, i < j → parsedValue valuesList i ≠ 0 →
      (∀ t, i < t → t < j → parsedValue valuesList t = 0) →
      importValue m row valuesList j = parsedValue valuesList i) ∧
    (parsedValue valuesList j = 0 → (∀ i, i < j → parsedValue valuesList i = 0) →
      importValue m row valuesList j = (m.data row 0).toUInt) ∧
    (j < valuesList.length → m.hasIndex row (j + 1) = true →
      (loadValues valuesList row m).data row (j + 1) = .num (importValue m row valuesList j)) := by
  refine ⟨?_, ?_, ?_, ?_⟩
  · intro h
    have h' : QString.toUInt (valuesList.getD j "") ≠ 0 := h
    unfold importValue
    rw [scanBack_nonzero valuesList j _ h', if_neg h']
    rfl
  · intro h0 i hi hne hz
    have h0' : QString.toUInt (valuesList.getD j "") = 0 := h0
    unfold importValue
    rw [h0', scanBack_zero_found valuesList i hne j hi hz, if_neg hne]
  · intro h0 hz
    have h0' : QString.toUInt (valuesList.getD j "") = 0 := h0
    unfold importValue
    rw [h0', scanBack_zero_all valuesList j hz, if_pos rfl]
  · intro hj hidx
    exact (loadValues_aux valuesList row m valuesList.length).2.2.2 j hj hidx

/-- Instance of C2 on the value list `0, 0, 5, 0` of a row whose "Default" cell holds
1000: the positions 0 and 1 resolve to 1000, the positions 2 and 3 to 5. -/
theorem import_zero_fallback_witness :
    importValue wTwoRows.schedulerModel 2 ["0", "0", "5", "0"] 0 = 1000 ∧
    importValue wTwoRows.schedulerModel 2 ["0", "0", "5", "0"] 1 = 1000 ∧
    importValue wTwoRows.schedulerModel 2 ["0", "0", "5", "0"] 2 = 5 ∧
    importValue wTwoRows.schedulerModel 2 ["0", "0", "5", "0"] 3 = 5 ∧
    (loadValues ["0", "0", "5", "0"] 2 wTwoRows.schedulerModel).data 2 3
      = .num (importValue wTwoRows.schedulerModel 2 ["0", "0", "5", "0"] 2) :=
  ⟨(import_zero_fallback wTwoRows.schedulerModel 2 ["0", "0", "5", "0"] 0).2.2.1 (by decide)
      (by decide),
   (import_zero_fallback wTwoRows.schedulerModel 2 ["0", "0", "5", "0"] 1).2.2.1 (by decide)
      (by decide),
   (import_zero_fallback wTwoRows.schedulerModel 2 ["0", "0", "5", "0"] 2).1 (by decide),
   (import_zero_fallback wTwoRows.schedulerModel 2 ["0", "0", "5", "0"] 3).2.1 (by decide) 2
      (by decide) (by decide) (fun t h1 h2 => absurd h2 (by omega)),
   (import_zero_fallback wTwoRows.schedulerModel 2 ["0", "0", "5", "0"] 2).2.2.2 (by decide)
      (by decide)⟩

/-! ## Export followed by import -/

theorem hasIndex_congr {m1 m2 : QStandardItemModel} (hv : m1.verticalHeader = m2.verticalHeader)
    (hh : m1.horizontalHeader = m2.horizontalHeader) (r c : Nat) :
    m1.hasIndex r c = m2.hasIndex r c := by
  simp [QStandardItemModel.hasIndex, QStandardItemModel.rowCount, QStandardItemModel.columnCount, hv, hh]

theorem data_of_not_hasIndex (m : QStandardItemModel) (r c : Nat) (h : m.hasIndex r c ≠ true) :
    m.data r c = .invalid := by
  simp [QStandardItemModel.data, h]

theorem loadValues_verticalHeader (valuesList : List String) (row : Nat) (m : QStandardItemModel) :
    (loadValues valuesList row m).verticalHeader = m.verticalHeader :=
  (loadValues_aux valuesList row m valuesList.length).1

theorem loadValues_horizontalHeader (valuesList : List String) (row : Nat) (m : QStandardItemModel) :
    (loadValues valuesList row m).horizontalHeader = m.horizontalHeader :=
  (loadValues_aux valuesList row m valuesList.length).2.1

theorem loadValues_data_frame (valuesList : List String) (row : Nat) (m : QStandardItemModel)
    (r c : Nat) (h : r ≠ row ∨ c = 0 ∨ valuesList.length < c) :
    (loadValues valuesList row m).data r c = m.data r c :=
  (loadValues_aux valuesList row m valuesList.length).2.2.1 r c h

theorem loadValues_data_written (valuesList : List String) (row : Nat) (m : QStandardItemModel)
    (j : Nat) (hj : j < valuesList.length) (hidx : m.hasIndex row (j + 1) = true) :
    (loadValues valuesList row m).data row (j + 1) = .num (importValue m row valuesList j) :=
  (loadValues_aux valuesList row m valuesList.length).2.2.2 j hj hidx

theorem loadValues_row_congr (valuesList : List String) (row : Nat) (m1 m2 : QStandardItemModel)
    (hv : m1.verticalHeader = m2.verticalHeader) (hh : m1.horizontalHeader = m2.horizontalHeader)
    (hrow : ∀ c, m1.data row c = m2.data row c) (c : Nat) :
    (loadValues valuesList row m1).data row c = (loadValues valuesList row m2).data row c := by
  by_cases hc : c = 0 ∨ valuesList.length < c
  · rw [loadValues_data_frame _ _ _ _ _ (Or.inr hc), loadValues_data_frame _ _ _ _ _ (Or.inr hc)]
    exact hrow c
  · have hc1 : c ≠ 0 := fun h => hc (Or.inl h)
    have hc2 : ¬ valuesList.length < c := fun h => hc (Or.inr h)
    obtain ⟨j, rfl⟩ : ∃ j, c = j + 1 := ⟨c - 1, by omega⟩
    by_cases hidx : m1.hasIndex row (j + 1) = true
    · have hidx2 : m2.hasIndex row (j + 1) = true := by rw [← hasIndex_congr hv hh]; exact hidx
      rw [loadValues_data_written _ _ _ _ (by omega) hidx,
        loadValues_data_written _ _ _ _ (by omega) hidx2]
      unfold importValue
      rw [hrow 0]
    · have hidx2 : m2.hasIndex row (j + 1) ≠ true := by rw [← hasIndex_congr hv hh]; exact hidx
      rw [data_of_not_hasIndex _ _ _ (by
          rw [hasIndex_congr (loadValues_verticalHeader _ _ _) (loadValues_horizontalHeader _ _ _)]
          exact hidx),
        data_of_not_hasIndex _ _ _ (by
          rw [hasIndex_congr (loadValues_verticalHeader _ _ _) (loadValues_horizontalHeader _ _ _)]
          exact hidx2)]

theorem findRowFrom_append (name : String) (rest : List String) :
    ∀ (pre : List String) (s : Nat), name ∉ pre →
      findRowFrom name (pre ++ name :: rest) s = s + pre.length := by
  intro pre
  induction pre with
  | nil => intro s _; simp [findRowFrom]
  | cons h t ih =>
    intro s hnot
    have h1 : h ≠ name := fun e => hnot (by simp [e])
    have h2 : name ∉ t := fun e => hnot (List.mem_cons_of_mem _ e)
    show findRowFrom name (h :: (t ++ name :: rest)) s = s + (t.length + 1)
    rw [findRowFrom, if_neg h1, ih (s + 1) h2]
    omega

theorem importNode_saved (w : TelemetrySchedulerGadgetWidget) (M : QStandardItemModel)
    (obj : UAVObject) (row : Nat)
    (hobj : getObject w.objManager obj.name = some obj) :
    importNode w.objManager M
      (.element "uavobject" [("name", obj.name), ("id", "0x" ++ hexUpper obj.objID)]
        [.element "field" [("values", QStringList.join ',' (saveVals w row))] []])
      = loadValues (savedTokens w row) (findRowFrom obj.name M.verticalHeader 1) M := by
  simp [importNode, QDomNode.tagName, QDomNode.attr, QDomNode.childNodes, hobj, savedTokens]

theorem import_saved_rows (w : TelemetrySchedulerGadgetWidget) (i : Nat) :
    ∀ (names pre : List String) (os : List QDomNode) (M : QStandardItemModel),
      M.verticalHeader = pre ++ names → (pre ++ names).Nodup →
      saveRows w names (pre.length + 1) = some os →
      (os.foldl (importNode w.objManager) M).verticalHeader = M.verticalHeader ∧
      (os.foldl (importNode w.objManager) M).horizontalHeader = M.horizontalHeader ∧
      ∀ c, (os.foldl (importNode w.objManager) M).data i c
        = if pre.length + 1 ≤ i ∧ i < pre.length + 1 + names.length then
            (loadValues (savedTokens w i) i M).data i c
          else M.data i c := by
  intro names
  induction names with
  | nil =>
    intro pre os M _ _ hsave
    simp only [saveRows, Option.some.injEq] at hsave
    subst hsave
    refine ⟨rfl, rfl, ?_⟩
    intro c
    rw [if_neg (by simp only [List.length_nil]; omega)]
    rfl
  | cons name rest ih =>
    intro pre os M hM hnodup hsave
    simp only [saveRows] at hsave
    split at hsave
    · exact absurd hsave (by simp)
    · rename_i obj hobj
      split at hsave
      · exact absurd hsave (by simp)
      · rename_i os' hos'
        simp only [Option.some.injEq] at hsave
        subst hsave
        have hname : obj.name = name := (getObject_mem hobj).2
        have hobj' : getObject w.objManager obj.name = some obj := by rw [hname]; exact hobj
        have hnotin : name ∉ pre := by
          intro hin
          have := List.nodup_append.mp hnodup
          exact this.2.2 hin (List.mem_cons_self _ _)
        have hrow : findRowFrom obj.name M.verticalHeader 1 = pre.length + 1 := by
          rw [hname, hM, findRowFrom_append name rest pre 1 hnotin]
          omega
        simp only [List.foldl_cons]
        rw [importNode_saved w M obj _ hobj', hrow]
        set M1 := loadValues (savedTokens w (pre.length + 1)) (pre.length + 1) M with hM1
        have hv1 : M1.verticalHeader = M.verticalHeader := loadValues_verticalHeader _ _ _
        have hh1 : M1.horizontalHeader = M.horizontalHeader := loadValues_horizontalHeader _ _ _
        have hpre : (pre ++ [name]) ++ rest = pre ++ name :: rest := by simp
        have hlen : (pre ++ [name]).length = pre.length + 1 := by simp
        have hIH := ih (pre ++ [name]) os' M1 (by rw [hv1, hM, hpre]) (by rw [hpre]; exact hnodup)
          (by rw [hlen]; exact hos')
        obtain ⟨hv, hh, hd⟩ := hIH
        refine ⟨by rw [hv, hv1], by rw [hh, hh1], ?_⟩
        intro c
        rw [hd c, hlen]
        simp only [List.length_cons]
        by_cases hi : i = pre.length + 1
        · subst hi
          rw [if_neg (by omega), if_pos (by omega)]
        · by_cases hin : pre.length + 1 + 1 ≤ i ∧ i < pre.length + 1 + 1 + rest.length
          · rw [if_pos hin, if_pos (by omega)]
            exact loadValues_row_congr _ _ _ _ hv1 hh1
              (fun c' => loadValues_data_frame _ _ _ _ _ (Or.inl hi)) c
          · rw [if_neg hin, if_neg (by omega)]
            exact loadValues_data_frame _ _ _ _ _ (Or.inl hi)

theorem saveVals_length (w : TelemetrySchedulerGadgetWidget) (row : Nat) :
    (saveVals w row).length = w.columnHeaders.length := by
  simp [saveVals]

theorem saveVals_getD (w : TelemetrySchedulerGadgetWidget) (row j : Nat)
    (hj : j < w.columnHeaders.length) :
    (saveVals w row).getD j "" = (w.schedulerModel.data row (j + 1)).toString := by
  simp [saveVals, List.getD_eq_getElem?_getD, List.getElem?_map, List.getElem?_range hj]

theorem toString_no_comma (v : QVariant) (h : ∀ s, v = .str s → ',' ∉ s.data) :
    ',' ∉ v.toString.data := by
  cases v with
  | invalid => simp [QVariant.toString]
  | num n => exact repr_no_comma n
  | str s => exact h s rfl

theorem savedTokens_eq (w : TelemetrySchedulerGadgetWidget) (row : Nat)
    (hne : w.columnHeaders ≠ [])
    (hfree : ∀ c s, w.schedulerModel.data row c = .str s → ',' ∉ s.data) :
    savedTokens w row = saveVals w row := by
  unfold savedTokens
  apply split_join
  · intro h
    have := saveVals_length w row
    rw [h] at this
    exact hne (List.length_eq_zero.mp this.symm)
  · intro s hs
    unfold saveVals at hs
    obtain ⟨col, _, rfl⟩ := List.mem_map.mp hs
    exact toString_no_comma _ (hfree (col + 1))

theorem removeColumns_verticalHeader (m : QStandardItemModel) (a b : Nat) :
    (m.removeColumns a b).verticalHeader = m.verticalHeader := by
  unfold QStandardItemModel.removeColumns; split <;> rfl

theorem import_of_saved (w : TelemetrySchedulerGadgetWidget) (doc : QDomNode)
    (rest : List String)
    (hcols : w.columnHeaders = "Default" :: "Current" :: rest)
    (hrest : rest ≠ []) (hcomma : ∀ h ∈ rest, ',' ∉ h.data)
    (hsave : saveTelemetryToFile w = some doc) :
    ∃ os, saveRows w w.schedulerModel.verticalHeader 1 = some os ∧
      importTelemetryConfiguration (some doc) w =
        (.imported,
          { w with
            schedulerModel := os.foldl (importNode w.objManager)
              ((w.schedulerModel.removeColumns 2 w.columnHeaders.length).setHorizontalHeaderLabels
                w.columnHeaders)
            cmbScheduleList := w.columnHeaders }) := by
  unfold saveTelemetryToFile at hsave
  rw [hcols] at hsave
  simp only at hsave
  split at hsave
  · exact absurd hsave (by simp)
  · rename_i os hos
    simp only [Option.some.injEq] at hsave
    subst hsave
    refine ⟨os, hos, ?_⟩
    have hsplit : QString.split (fun c => c == ',') (QStringList.join ',' rest) = rest :=
      split_join rest hrest hcomma
    simp [importTelemetryConfiguration, subtreeRoot, QDomNode.tagName, QDomNode.firstChildElement,
      QDomNode.childNodes, QDomNode.isElementNamed, QDomNode.attr, hsplit, hcols]

theorem importValue_of_nonzero (m : QStandardItemModel) (row : Nat) (valuesList : List String)
    (j : Nat) (h : QString.toUInt (valuesList.getD j "") ≠ 0) :
    importValue m row valuesList j = QString.toUInt (valuesList.getD j "") := by
  unfold importValue
  rw [scanBack_nonzero valuesList j _ h, if_neg h]

theorem saveRows_isSome (w : TelemetrySchedulerGadgetWidget) :
    ∀ (names : List String) (s : Nat),
      (∀ name ∈ names, getObject w.objManager name ≠ none) →
      ∃ os, saveRows w names s = some os := by
  intro names
  induction names with
  | nil => intro s _; exact ⟨[], rfl⟩
  | cons name rest ih =>
    intro s hreg
    obtain ⟨obj, hobj⟩ := Option.ne_none_iff_exists'.mp (hreg name (List.mem_cons_self _ _))
    obtain ⟨os, hos⟩ := ih (s + 1) (fun n hn => hreg n (List.mem_cons_of_mem _ hn))
    refine ⟨.element "uavobject" [("name", obj.name), ("id", "0x" ++ hexUpper obj.objID)]
      [.element "field" [("values", QStringList.join ',' (saveVals w s))] []] :: os, ?_⟩
    simp only [saveRows, hobj, hos]

theorem rowCount_eq (m : QStandardItemModel) (i : Nat) (h : i < m.rowCount) :
    m.rowCount = m.verticalHeader.length + 1 := by
  unfold QStandardItemModel.rowCount at h ⊢
  cases hv : m.verticalHeader with
  | nil => rw [hv] at h; simp at h
  | cons a t => simp

theorem import_keeps_columns (m : QStandardItemModel) (labels : List String)
    (h : m.horizontalHeader = labels) :
    ((m.removeColumns 2 labels.length).setHorizontalHeaderLabels labels).verticalHeader
      = m.verticalHeader ∧
    ((m.removeColumns 2 labels.length).setHorizontalHeaderLabels labels).horizontalHeader
      = m.horizontalHeader ∧
    ∀ r c, ((m.removeColumns 2 labels.length).setHorizontalHeaderLabels labels).data r c
      = m.data r c := by
  have hrem : m.removeColumns 2 labels.length = m := by
    unfold QStandardItemModel.removeColumns
    rw [if_pos]
    right
    simp only [QStandardItemModel.columnCount, h]
    omega
  rw [hrem]
  have hh : (m.setHorizontalHeaderLabels labels).horizontalHeader = m.horizontalHeader := by
    simp [QStandardItemModel.setHorizontalHeaderLabels, h]
  refine ⟨rfl, hh, ?_⟩
  intro r c
  have hidx : (m.setHorizontalHeaderLabels labels).hasIndex r c = m.hasIndex r c :=
    @hasIndex_congr (m.setHorizontalHeaderLabels labels) m rfl hh r c
  unfold QStandardItemModel.data
  rw [hidx]
  split
  · rename_i hi
    simp only [QStandardItemModel.hasIndex, Bool.and_eq_true, decide_eq_true_eq] at hi
    simp only [QStandardItemModel.setHorizontalHeaderLabels]
    rw [if_pos hi.2]
  · rfl

theorem parsedValue_saveVals (w : TelemetrySchedulerGadgetWidget) (i j : Nat)
    (hj : j < w.columnHeaders.length) :
    parsedValue (saveVals w i) j = cellPeriod w.schedulerModel i (j + 1) := by
  unfold parsedValue cellPeriod
  rw [saveVals_getD w i j hj]

/-- C3 (amended): take a table whose model has exactly the columns named in
`columnHeaders`, which are "Default", "Current" and at least one further name, none with
a comma, and whose rows are distinct registered objects; let the file read back give the
document `saveTelemetryToFile` built.  The import succeeds and leaves `columnHeaders`,
the columns and the rows of the model as they were, and the cells of row 0.  In an
object row no string cell of which contains a comma, a cell of a column other than
"Default" and "Current" that held a number from 1 to `UINT_MAX` holds the same number; a
cell whose text converts to a period other than 0 holds that period as a number; a cell
whose text converts to 0 (an empty cell, the number 0) holds the period of the nearest
cell to its left, from "Current" on, that does not convert to 0, and when there is none
the `toUInt()` of the "Default" cell of its row. -/
theorem export_import_round_trip (w : TelemetrySchedulerGadgetWidget) (rest : List String)
    (content : Option QDomNode)
    (hfile : content = saveTelemetryToFile w)
    (hcols : w.columnHeaders = "Default" :: "Current" :: rest)
    (hmodel : w.schedulerModel.horizontalHeader = w.columnHeaders)
    (hrest : rest ≠ []) (hcomma : ∀ h ∈ rest, ',' ∉ h.data)
    (hnodup : w.schedulerModel.verticalHeader.Nodup)
    (hreg : ∀ name ∈ w.schedulerModel.verticalHeader, getObject w.objManager name ≠ none) :
    (importTelemetryConfiguration content w).1 = .imported ∧
    (importTelemetryConfiguration content w).2.columnHeaders = w.columnHeaders ∧
    (importTelemetryConfiguration content w).2.schedulerModel.horizontalHeader
      = w.schedulerModel.horizontalHeader ∧
    (importTelemetryConfiguration content w).2.schedulerModel.verticalHeader
      = w.schedulerModel.verticalHeader ∧
    (∀ c, (importTelemetryConfiguration content w).2.schedulerModel.data 0 c
      = w.schedulerModel.data 0 c) ∧
    ∀ i c, 1 ≤ i → i < w.schedulerModel.rowCount → 2 ≤ c → c < w.columnHeaders.length →
      (∀ c' s, w.schedulerModel.data i c' = .str s → ',' ∉ s.data) →
      (∀ n, w.schedulerModel.data i c = .num n → 0 < n → n ≤ UINT_MAX →
        (importTelemetryConfiguration content w).2.schedulerModel.data i c = .num n) ∧
      (cellPeriod w.schedulerModel i c ≠ 0 →
        (importTelemetryConfiguration content w).2.schedulerModel.data i c
          = .num (cellPeriod w.schedulerModel i c)) ∧
      (cellPeriod w.schedulerModel i c = 0 →
        ∀ k, 1 ≤ k → k < c → cellPeriod w.schedulerModel i k ≠ 0 →
          (∀ t, k < t → t < c → cellPeriod w.schedulerModel i t = 0) →
          (importTelemetryConfiguration content w).2.schedulerModel.data i c
            = .num (cellPeriod w.schedulerModel i k)) ∧
      (cellPeriod w.schedulerModel i c = 0 →
        (∀ t, 1 ≤ t → t < c → cellPeriod w.schedulerModel i t = 0) →
        (importTelemetryConfiguration content w).2.schedulerModel.data i c
          = .num (w.schedulerModel.data i 0).toUInt) := by
  obtain ⟨os0, hos0⟩ := saveRows_isSome w w.schedulerModel.verticalHeader 1 hreg
  have hsave : saveTelemetryToFile w = some (.element "telemetry_scheduler" []
        [.element "version" [] [],
         .element "headings" [("values", QStringList.join ',' rest)] [],
         .element "settings" [] os0]) := by
    unfold saveTelemetryToFile
    rw [hcols]
    simp only [hos0]
  obtain ⟨os, hos, himp⟩ := import_of_saved w _ rest hcols hrest hcomma hsave
  rw [hfile, hsave, himp]
  simp only
  set M := (w.schedulerModel.removeColumns 2 w.columnHeaders.length).setHorizontalHeaderLabels
      w.columnHeaders with hMdef
  obtain ⟨hMv, hMh, hMd⟩ := import_keeps_columns w.schedulerModel w.columnHeaders hmodel
  rw [← hMdef] at hMv hMh hMd
  have hrows := fun i => import_saved_rows w i w.schedulerModel.verticalHeader [] os M
    (by rw [hMv]; rfl) hnodup hos
  refine ⟨trivial, trivial, ?_, ?_, ?_, ?_⟩
  · rw [(hrows 0).2.1, hMh]
  · rw [(hrows 0).1, hMv]
  · intro c
    rw [(hrows 0).2.2 c, if_neg (by simp only [List.length_nil]; omega)]
    exact hMd 0 c
  intro i c hi1 hi2 hc1 hc2 hfree
  have hrc := rowCount_eq _ i hi2
  have hne : w.columnHeaders ≠ [] := by rw [hcols]; simp
  obtain ⟨j, rfl⟩ : ∃ j, c = j + 1 := ⟨c - 1, by omega⟩
  have hidx : M.hasIndex i (j + 1) = true := by
    rw [hasIndex_congr hMv hMh]
    simp only [QStandardItemModel.hasIndex, QStandardItemModel.columnCount, hmodel,
      Bool.and_eq_true, decide_eq_true_eq]
    omega
  have hcell : (os.foldl (importNode w.objManager) M).data i (j + 1)
      = .num (importValue M i (saveVals w i) j) := by
    rw [(hrows i).2.2 (j + 1), if_pos (by simp only [List.length_nil]; omega),
      savedTokens_eq w i hne hfree,
      loadValues_data_written _ _ _ _ (by rw [saveVals_length]; omega) hidx]
  rw [hcell]
  have hpv : ∀ t, t < w.columnHeaders.length →
      QString.toUInt ((saveVals w i).getD t "") = cellPeriod w.schedulerModel i (t + 1) :=
    fun t ht => parsedValue_saveVals w i t ht
  have hnz : cellPeriod w.schedulerModel i (j + 1) ≠ 0 →
      QVariant.num (importValue M i (saveVals w i) j)
        = .num (cellPeriod w.schedulerModel i (j + 1)) := by
    intro h
    rw [importValue_of_nonzero _ _ _ _ (by rw [hpv j (by omega)]; exact h), hpv j (by omega)]
  refine ⟨?_, hnz, ?_, ?_⟩
  · intro n hn hn0 hnmax
    have hp : cellPeriod w.schedulerModel i (j + 1) = n := by
      unfold cellPeriod
      rw [hn]
      exact toUInt_repr n hnmax
    rw [hnz (by rw [hp]; omega), hp]
  · intro h0 k hk1 hkc hk hz
    obtain ⟨k', rfl⟩ : ∃ k', k = k' + 1 := ⟨k - 1, by omega⟩
    unfold importValue
    rw [hpv j (by omega), h0,
      scanBack_zero_found (saveVals w i) k'
        (by rw [parsedValue_saveVals w i k' (by omega)]; exact hk) j (by omega)
        (fun t h1 h2 => by
          rw [parsedValue_saveVals w i t (by omega)]
          exact hz (t + 1) (by omega) (by omega)),
      parsedValue_saveVals w i k' (by omega), if_neg hk]
  · intro h0 hz
    unfold importValue
    rw [hpv j (by omega), h0,
      scanBack_zero_all (saveVals w i) j (fun t ht => by
        rw [parsedValue_saveVals w i t (by omega)]
        exact hz (t + 1) (by omega) (by omega)),
      if_pos rfl, hMd i 0]

/-- Instance of C3 (amended) on a table with two rows and the columns "USB" and "9600":
the period 250 of row 2 in "USB" survives the round trip; the period 0 next to it becomes
250; the empty "USB" cell of row 1 takes the default period 1000 of its row. -/
theorem export_import_round_trip_witness :
    (importTelemetryConfiguration (saveTelemetryToFile wTwoRows) wTwoRows).1 = .imported ∧
    (importTelemetryConfiguration (saveTelemetryToFile wTwoRows) wTwoRows).2.columnHeaders
      = ["Default", "Current", "USB", "9600"] ∧
    (importTelemetryConfiguration (saveTelemetryToFile wTwoRows) wTwoRows).2.schedulerModel.horizontalHeader
      = ["Default", "Current", "USB", "9600"] ∧
    (importTelemetryConfiguration (saveTelemetryToFile wTwoRows) wTwoRows).2.schedulerModel.data 2 2
      = .num 250 ∧
    (importTelemetryConfiguration (saveTelemetryToFile wTwoRows) wTwoRows).2.schedulerModel.data 2 3
      = .num 250 ∧
    (importTelemetryConfiguration (saveTelemetryToFile wTwoRows) wTwoRows).2.schedulerModel.data 1 2
      = .num 1000 :=
  have hfree : ∀ i c' s, wTwoRows.schedulerModel.data i c' = .str s → ',' ∉ s.data := by
    intro i c' s hs
    exfalso
    revert hs
    simp only [wTwoRows, QStandardItemModel.data]
    split <;> (try split) <;> (try split) <;> (try split) <;> simp
  have h := export_import_round_trip wTwoRows ["USB", "9600"] (saveTelemetryToFile wTwoRows) rfl
    rfl rfl (by decide) (by decide) (by decide) (by decide)
  ⟨h.1, h.2.1, h.2.2.1, 
    (h.2.2.2.2.2 2 2 (by decide) (by decide) (by decide) (by decide) (hfree 2)).1 250
      (by decide) (by decide) (by decide),
    ((h.2.2.2.2.2 2 3 (by decide) (by decide) (by decide) (by decide) (hfree 2)).2.2.1
      (by decide) 2 (by decide) (by decide) (by decide)
      (fun t h1 h2 => absurd h2 (by omega))).trans (by decide),
    ((h.2.2.2.2.2 1 2 (by decide) (by decide) (by decide) (by decide) (hfree 1)).2.2.2
      (by decide) (fun t h1 h2 => by
        have ht : t = 1 := by omega
        subst ht
        decide)).trans (by decide)⟩

/-- C3 as stated fails.  A "USB" cell holding the period 0 holds 1000, the value of the
"Default" cell of its row, after the export and the import.  And in the state that
importing a file with one heading leaves, three column names over a model of six columns,
the export and the import cut the model to three columns: the period 77 of the cell
(1, 5) is gone. -/
theorem round_trip_loses_cells :
    wZeroPeriod.schedulerModel.data 1 2 = .num 0 ∧
    (importTelemetryConfiguration (saveTelemetryToFile wZeroPeriod) wZeroPeriod).1 = .imported ∧
    (importTelemetryConfiguration (saveTelemetryToFile wZeroPeriod) wZeroPeriod).2.schedulerModel.data 1 2
      = .num 1000 ∧
    wNamesShort.columnHeaders = ["Default", "Current", "X"] ∧
    wNamesShort.schedulerModel.horizontalHeader
      = ["Default", "Current", "X", "2400", "4800", "9600"] ∧
    wNamesShort.schedulerModel.data 1 5 = .num 77 ∧
    (importTelemetryConfiguration (saveTelemetryToFile wNamesShort) wNamesShort).1 = .imported ∧
    (importTelemetryConfiguration (saveTelemetryToFile wNamesShort) wNamesShort).2.columnHeaders
      = ["Default", "Current", "X"] ∧
    (importTelemetryConfiguration (saveTelemetryToFile wNamesShort)
        wNamesShort).2.schedulerModel.horizontalHeader = ["Default", "Current", "X"] ∧
    (importTelemetryConfiguration (saveTelemetryToFile wNamesShort)
        wNamesShort).2.schedulerModel.data 1 5 = .invalid ∧
    (importTelemetryConfiguration (saveTelemetryToFile wNamesShort)
        wNamesShort).2.schedulerModel.data 1 2 = .num 1000 := by
  decide

/-! ## Import: root tag check -/

/-- C4 (amended): for a document whose root tag is not "telemetry_scheduler" the import
reports "Wrong file contents"; when the root tag is not "headings" either, the state
(cells, columns of the model, `columnHeaders`, combo box) is exactly as before. -/
theorem import_wrong_root_tag (doc : QDomNode) (w : TelemetrySchedulerGadgetWidget)
    (hroot : doc.tagName ≠ "telemetry_scheduler") :
    (importTelemetryConfiguration (some doc) w).1 = .wrongFileContents ∧
    (doc.tagName ≠ "headings" → (importTelemetryConfiguration (some doc) w).2 = w) := by
  cases doc with
  | other =>
    simp [importTelemetryConfiguration, subtreeRoot, QDomNode.tagName, QDomNode.toElement]
  | element t a c =>
    have ht : t ≠ "telemetry_scheduler" := hroot
    by_cases hh : t = "headings"
    · subst hh
      simp [importTelemetryConfiguration, subtreeRoot, QDomNode.tagName, QDomNode.toElement]
    · simp [importTelemetryConfiguration, subtreeRoot, QDomNode.tagName, QDomNode.toElement, ht, hh]

/-- Instance of C4 (amended) on a document with the root tag "uavobjects". -/
theorem import_wrong_root_tag_witness :
    (importTelemetryConfiguration (some docOtherRoot) wZeroPeriod).1 = .wrongFileContents ∧
    (importTelemetryConfiguration (some docOtherRoot) wZeroPeriod).2 = wZeroPeriod :=
  have h := import_wrong_root_tag docOtherRoot wZeroPeriod (by decide)
  ⟨h.1, h.2 (by decide)⟩

/-- C4 as stated fails: a document whose root element is `headings` passes the first
check, so `columnHeaders` and the header of the model are replaced before the import
stops with "Wrong file contents" at the missing `settings`. -/
theorem import_headings_root_changes_columnHeaders :
    docHeadingsRoot.tagName ≠ "telemetry_scheduler" ∧
    (importTelemetryConfiguration (some docHeadingsRoot) wZeroPeriod).1 = .wrongFileContents ∧
    wZeroPeriod.columnHeaders = ["Default", "Current", "USB"] ∧
    (importTelemetryConfiguration (some docHeadingsRoot) wZeroPeriod).2.columnHeaders
      = ["Default", "Current", "X"] ∧
    (importTelemetryConfiguration (some docHeadingsRoot) wZeroPeriod).2.schedulerModel.horizontalHeader
      = ["Default", "Current", "X"] := by
  decide

/-! ## Applying a schedule -/

theorem findColumnFrom_of_mem (currentText : String) :
    ∀ (hh : List String) (j : Nat), currentText ∈ hh →
      ∃ col, findColumnFrom currentText hh j = some col ∧ j ≤ col ∧
        hh[col - j]? = some currentText := by
  intro hh
  induction hh with
  | nil => intro j h; simp at h
  | cons h t ih =>
    intro j hmem
    by_cases he : h = currentText
    · exact ⟨j, by simp [findColumnFrom, he], le_refl j, by simp [he]⟩
    · have hmem' : currentText ∈ t := by
        rcases List.mem_cons.mp hmem with h1 | h1
        · exact absurd h1.symm he
        · exact h1
      obtain ⟨col, h1, h2, h3⟩ := ih (j + 1) hmem'
      refine ⟨col, by simp [findColumnFrom, he, h1], by omega, ?_⟩
      have : col - j = (col - (j + 1)) + 1 := by omega
      rw [this, List.getElem?_cons_succ]
      exact h3

theorem QMap.insert_of_not_mem (m : List (String × Metadata)) (key : String) (value : Metadata)
    (h : key ∉ m.map Prod.fst) : QMap.insert m key value = m ++ [(key, value)] := by
  unfold QMap.insert
  congr 1
  rw [List.filter_eq_self]
  intro e he
  have : e.1 ≠ key := fun h' => h (List.mem_map.mpr ⟨e, he, h'⟩)
  simpa using this

theorem QMap.value_of_mem (m : List (String × Metadata)) (key : String) (value : Metadata)
    (hnodup : (m.map Prod.fst).Nodup) (h : (key, value) ∈ m) : QMap.value m key = value := by
  induction m with
  | nil => simp at h
  | cons e t ih =>
    simp only [List.map_cons, List.nodup_cons] at hnodup
    rcases List.mem_cons.mp h with h1 | h1
    · subst h1
      simp [QMap.value]
    · have hne : e.1 ≠ key := by
        intro he
        apply hnodup.1
        rw [he]
        exact List.mem_map.mpr ⟨(key, value), h1, rfl⟩
      have := ih hnodup.2 h1
      unfold QMap.value at this ⊢
      rw [List.find?_cons_of_neg _ (by simpa using hne)]
      exact this

theorem applyLoop_spec (w : TelemetrySchedulerGadgetWidget) (col : Nat) :
    ∀ (names : List String) (s : Nat) (acc : List (String × Metadata)),
      (∀ name ∈ names, getObject w.objManager name ≠ none) →
      names.Nodup → (∀ name ∈ names, name ∉ acc.map Prod.fst) →
      ∃ ml, applyLoop w col names s acc = some ml ∧
        ml.map Prod.fst = acc.map Prod.fst ++ names ∧
        (∀ e ∈ acc, e ∈ ml) ∧
        ∀ (k : Nat) (hk : k < names.length), ∃ obj,
          getObject w.objManager names[k] = some obj ∧
          (names[k], { obj.metadata with
              flightTelemetryUpdatePeriod := updatePeriod_ms w obj (s + k) col % 65536 }) ∈ ml := by
  intro names
  induction names with
  | nil =>
    intro s acc _ _ _
    exact ⟨acc, rfl, by simp, fun e he => he, fun k hk => absurd hk (by simp)⟩
  | cons name rest ih =>
    intro s acc hreg hnodup hfresh
    obtain ⟨obj, hobj⟩ := Option.ne_none_iff_exists'.mp (hreg name (List.mem_cons_self _ _))
    have hnd := List.nodup_cons.mp hnodup
    have hins := QMap.insert_of_not_mem acc name
      { obj.metadata with flightTelemetryUpdatePeriod := updatePeriod_ms w obj s col % 65536 }
      (hfresh name (List.mem_cons_self _ _))
    obtain ⟨ml, h1, h2, h3, h4⟩ := ih (s + 1)
      (acc ++ [(name, { obj.metadata with
        flightTelemetryUpdatePeriod := updatePeriod_ms w obj s col % 65536 })])
      (fun n hn => hreg n (List.mem_cons_of_mem _ hn)) hnd.2
      (by
        intro n hn hmem
        simp only [List.map_append, List.map_cons, List.map_nil, List.mem_append,
          List.mem_singleton] at hmem
        rcases hmem with hm | hm
        · exact hfresh n (List.mem_cons_of_mem _ hn) hm
        · subst hm
          exact hnd.1 hn)
    refine ⟨ml, ?_, ?_, ?_, ?_⟩
    · simp only [applyLoop, hobj, hins]
      exact h1
    · rw [h2]
      simp
    · intro e he
      exact h3 e (List.mem_append_left _ he)
    · intro k hk
      cases k with
      | zero =>
        refine ⟨obj, hobj, ?_⟩
        exact h3 _ (List.mem_append_right _ (by simp))
      | succ k =>
        obtain ⟨obj', ho1, ho2⟩ := h4 k (by simpa using hk)
        refine ⟨obj', by simpa using ho1, ?_⟩
        have : s + 1 + k = s + (k + 1) := by omega
        rw [this] at ho2
        simpa using ho2

/-- C5 (amended): when the selected text is the header of a column and the rows are
distinct registered objects, `applySchedule` makes its one call of
`setAllNonSettingsMetadata` with a map whose keys are the row names, in which the period
of a row is the `toUInt()` of its cell in the selected column when the cell is valid and
that value fits the 16 bit period field, and the saved default period of the row's object
when the cell is invalid. -/
theorem applySchedule_periods (w : TelemetrySchedulerGadgetWidget) (currentText : String)
    (hsel : currentText ∈ w.schedulerModel.horizontalHeader)
    (hnodup : w.schedulerModel.verticalHeader.Nodup)
    (hreg : ∀ name ∈ w.schedulerModel.verticalHeader, getObject w.objManager name ≠ none) :
    ∃ col ml,
      findColumnFrom currentText w.schedulerModel.horizontalHeader 0 = some col ∧
      w.schedulerModel.horizontalHeader[col]? = some currentText ∧
      applySchedule w currentText = some (.applied ml) ∧
      ml.map Prod.fst = w.schedulerModel.verticalHeader ∧
      ∀ (k : Nat) (hk : k < w.schedulerModel.verticalHeader.length),
        ((w.schedulerModel.data (k + 1) col).isValid = true →
          (w.schedulerModel.data (k + 1) col).toUInt ≤ 65535 →
          (QMap.value ml w.schedulerModel.verticalHeader[k]).flightTelemetryUpdatePeriod
            = (w.schedulerModel.data (k + 1) col).toUInt) ∧
        ((w.schedulerModel.data (k + 1) col).isValid = false →
          (QMap.value w.defaultMdata
              (w.schedulerModel.verticalHeader[k] ++ "Meta")).flightTelemetryUpdatePeriod ≤ 65535 →
          (QMap.value ml w.schedulerModel.verticalHeader[k]).flightTelemetryUpdatePeriod
            = (QMap.value w.defaultMdata
                (w.schedulerModel.verticalHeader[k] ++ "Meta")).flightTelemetryUpdatePeriod) := by
  obtain ⟨col, hc1, _, hc3⟩ := findColumnFrom_of_mem currentText _ 0 hsel
  obtain ⟨ml, h1, h2, _, h4⟩ := applyLoop_spec w col w.schedulerModel.verticalHeader 1 [] hreg hnodup
    (by simp)
  refine ⟨col, ml, hc1, by simpa using hc3, by simp [applySchedule, hc1, h1], by simpa using h2, ?_⟩
  intro k hk
  obtain ⟨obj, ho1, ho2⟩ := h4 k hk
  have hname : obj.name = w.schedulerModel.verticalHeader[k] := (getObject_mem ho1).2
  have hval := QMap.value_of_mem ml _ _ (by rw [h2]; simpa using hnodup) ho2
  have hrow : 1 + k = k + 1 := by omega
  rw [hval, hrow]
  constructor
  · intro hv hle
    simp only [updatePeriod_ms, hv, if_true]
    exact Nat.mod_eq_of_lt (by omega)
  · intro hv hle
    simp only [updatePeriod_ms, hv, hname, Bool.false_eq_true, if_false]
    exact Nat.mod_eq_of_lt (by omega)

/-- Instance of C5 (amended) on a table with two rows and the schedule "USB": row A has
no value there and gets its default 1000, row B gets its cell 250. -/
theorem applySchedule_periods_witness :
    ∃ col ml,
      findColumnFrom "USB" wTwoRows.schedulerModel.horizontalHeader 0 = some col ∧
      wTwoRows.schedulerModel.horizontalHeader[col]? = some "USB" ∧
      applySchedule wTwoRows "USB" = some (.applied ml) ∧
      ml.map Prod.fst = ["A", "B"] ∧
      (QMap.value ml "A").flightTelemetryUpdatePeriod = 1000 ∧
      (QMap.value ml "B").flightTelemetryUpdatePeriod = 250 := by
  obtain ⟨col, ml, h1, h2, h3, h4, h5⟩ :=
    applySchedule_periods wTwoRows "USB" (by decide) (by decide) (by decide)
  have hcol : col = 2 := by
    have : findColumnFrom "USB" wTwoRows.schedulerModel.horizontalHeader 0 = some 2 := by decide
    rw [this] at h1
    exact (Option.some.inj h1).symm
  subst hcol
  refine ⟨2, ml, h1, h2, h3, h4, ?_, ?_⟩
  · exact (h5 0 (by decide)).2 (by decide) (by decide)
  · exact (h5 1 (by decide)).1 (by decide) (by decide)

/-- C5 as stated fails: a cell holding 70000, which an import can write, does not fit
the 16 bit period field; the map carries 4464 for it. -/
theorem applySchedule_truncates_large_period :
    wLargePeriod.schedulerModel.data 1 2 = .num 70000 ∧
    applySchedule wLargePeriod "USB" = some (.applied [("A", ⟨0, 4464, 0, 0⟩)]) := by
  decide

/-! ## Paste -/

theorem pasteRow_spec (cells : List String) (anchor : QModelIndex) (row : Nat)
    (m0 : QStandardItemModel) (cell0 : Nat) :
    ∀ cols,
      (pasteRow cells anchor row cols (m0, cell0)).2 = cell0 + cols ∧
      (pasteRow cells anchor row cols (m0, cell0)).1.verticalHeader = m0.verticalHeader ∧
      (pasteRow cells anchor row cols (m0, cell0)).1.horizontalHeader = m0.horizontalHeader ∧
      ∀ r k, (pasteRow cells anchor row cols (m0, cell0)).1.data r k
        = if r = anchor.row + row ∧ anchor.column ≤ k ∧ k < anchor.column + cols ∧
              m0.hasIndex r k = true then
            .str (cells.getD (cell0 + (k - anchor.column)) "")
          else m0.data r k := by
  intro cols
  induction cols with
  | zero =>
    refine ⟨rfl, rfl, rfl, ?_⟩
    intro r k
    rw [if_neg (by omega)]
    rfl
  | succ n ih =>
    obtain ⟨h1, h2, h3, h4⟩ := ih
    have hstep : pasteRow cells anchor row (n + 1) (m0, cell0)
        = ((pasteRow cells anchor row n (m0, cell0)).1.setData (anchor.row + row)
              (anchor.column + n)
              (.str (cells.getD (pasteRow cells anchor row n (m0, cell0)).2 "")),
            (pasteRow cells anchor row n (m0, cell0)).2 + 1) := by
      simp only [pasteRow, List.range_succ, List.foldl_append, List.foldl_cons, List.foldl_nil]
    rw [hstep]
    refine ⟨by simp only [h1]; omega, by simp [h2], by simp [h3], ?_⟩
    intro r k
    simp only
    rw [QStandardItemModel.data_setData, h4 r k, h1, hasIndex_congr h2 h3]
    by_cases hk : r = anchor.row + row ∧ k = anchor.column + n
    · obtain ⟨rfl, rfl⟩ := hk
      by_cases hidx : m0.hasIndex (anchor.row + row) (anchor.column + n) = true
      · rw [if_pos ⟨rfl, rfl, hidx⟩, if_pos ⟨rfl, by omega, by omega, hidx⟩,
          Nat.add_sub_cancel_left]
      · rw [if_neg (fun h => hidx h.2.2), if_neg (by omega), if_neg (fun h => hidx h.2.2.2)]
    · rw [if_neg (fun h => hk ⟨h.1, h.2.1⟩)]
      by_cases hin : r = anchor.row + row ∧ anchor.column ≤ k ∧ k < anchor.column + n ∧
          m0.hasIndex r k = true
      · rw [if_pos hin, if_pos ⟨hin.1, hin.2.1, by omega, hin.2.2.2⟩]
      · rw [if_neg hin, if_neg]
        rintro ⟨h5, h6, h7, h8⟩
        apply hin
        refine ⟨h5, h6, ?_, h8⟩
        by_contra hlt
        exact hk ⟨h5, by omega⟩

theorem pasteRows_spec (cells : List String) (anchor : QModelIndex) (cols : Nat)
    (m : QStandardItemModel) :
    ∀ rows,
      ((List.range rows).foldl (fun s row => pasteRow cells anchor row cols s) (m, 0)).2
        = rows * cols ∧
      ((List.range rows).foldl (fun s row => pasteRow cells anchor row cols s) (m, 0)).1.verticalHeader
        = m.verticalHeader ∧
      ((List.range rows).foldl (fun s row => pasteRow cells anchor row cols s) (m, 0)).1.horizontalHeader
        = m.horizontalHeader ∧
      ∀ r k,
        ((List.range rows).foldl (fun s row => pasteRow cells anchor row cols s) (m, 0)).1.data r k
        = if anchor.row ≤ r ∧ r < anchor.row + rows ∧ anchor.column ≤ k ∧
              k < anchor.column + cols ∧ m.hasIndex r k = true then
            .str (cells.getD ((r - anchor.row) * cols + (k - anchor.column)) "")
          else m.data r k := by
  intro rows
  induction rows with
  | zero =>
    refine ⟨by simp, rfl, rfl, ?_⟩
    intro r k
    rw [if_neg (by omega)]
    rfl
  | succ n ih =>
    obtain ⟨h1, h2, h3, h4⟩ := ih
    simp only [List.range_succ, List.foldl_append, List.foldl_cons, List.foldl_nil]
    set st := (List.range n).foldl (fun s row => pasteRow cells anchor row cols s) (m, 0) with hst
    have hsp := pasteRow_spec cells anchor n st.1 st.2 cols
    obtain ⟨p1, p2, p3, p4⟩ := hsp
    refine ⟨by rw [p1, h1]; ring, by rw [p2, h2], by rw [p3, h3], ?_⟩
    intro r k
    rw [p4 r k, h4 r k, hasIndex_congr h2 h3, h1]
    by_cases hr : r = anchor.row + n
    · subst hr
      by_cases hin : anchor.column ≤ k ∧ k < anchor.column + cols ∧
          m.hasIndex (anchor.row + n) k = true
      · rw [if_pos ⟨rfl, hin⟩, if_pos ⟨by omega, by omega, hin⟩]
        congr 3
        simp
      · rw [if_neg (fun h => hin h.2), if_neg (by omega), if_neg (fun h => hin h.2.2)]
    · rw [if_neg (fun h => hr h.1)]
      by_cases hin : anchor.row ≤ r ∧ r < anchor.row + n ∧ anchor.column ≤ k ∧
          k < anchor.column + cols ∧ m.hasIndex r k = true
      · rw [if_pos hin, if_pos ⟨hin.1, by omega, hin.2.2⟩]
      · rw [if_neg hin, if_neg]
        rintro ⟨h5, h6, h7⟩
        exact hin ⟨h5, by omega, h7⟩

theorem pasteLoop_data (cells : List String) (anchor : QModelIndex) (rows cols : Nat)
    (m : QStandardItemModel) (r k : Nat) :
    (pasteLoop cells anchor rows cols m).data r k
      = if anchor.row ≤ r ∧ r < anchor.row + rows ∧ anchor.column ≤ k ∧
            k < anchor.column + cols ∧ m.hasIndex r k = true then
          .str (cells.getD ((r - anchor.row) * cols + (k - anchor.column)) "")
        else m.data r k :=
  (pasteRows_spec cells anchor cols m rows).2.2.2 r k

theorem isCellSeparator_false (c : Char) (h1 : c ≠ '\n') (h2 : c ≠ '\t') :
    isCellSeparator c = false := by
  simp [isCellSeparator, h1, h2]

theorem splitChars_rowText (rest : List Char) :
    ∀ row : List String, row ≠ [] →
      (∀ s ∈ row, ∀ c ∈ s.data, isCellSeparator c = false) →
      splitChars isCellSeparator (rowText row ++ rest)
        = row.map String.data ++ splitChars isCellSeparator rest := by
  intro row
  induction row with
  | nil => intro h; exact absurd rfl h
  | cons s t ih =>
    intro _ hfree
    cases t with
    | nil =>
      simp only [rowText, List.append_assoc, List.singleton_append, List.map_cons, List.map_nil]
      rw [splitChars_append_sep isCellSeparator '\n' (by decide) rest s.data
        (hfree s (List.mem_cons_self _ _))]
    | cons u us =>
      simp only [rowText, List.append_assoc, List.cons_append, List.map_cons]
      rw [splitChars_append_sep isCellSeparator '\t' (by decide) _ s.data
        (hfree s (List.mem_cons_self _ _))]
      rw [ih (by simp) (fun x hx => hfree x (List.mem_cons_of_mem _ hx))]
      simp

theorem splitChars_blockText :
    ∀ grid : List (List String), (∀ row ∈ grid, row ≠ []) →
      (∀ row ∈ grid, ∀ s ∈ row, ∀ c ∈ s.data, isCellSeparator c = false) →
      splitChars isCellSeparator (blockText grid) = grid.flatten.map String.data ++ [[]] := by
  intro grid
  induction grid with
  | nil => intro _ _; rfl
  | cons row rest ih =>
    intro hne hfree
    simp only [blockText, List.flatten_cons, List.map_append]
    rw [splitChars_rowText _ row (hne row (List.mem_cons_self _ _))
      (hfree row (List.mem_cons_self _ _))]
    rw [ih (fun r hr => hne r (List.mem_cons_of_mem _ hr))
      (fun r hr => hfree r (List.mem_cons_of_mem _ hr))]
    simp

theorem count_rowText :
    ∀ row : List String, (∀ s ∈ row, '\n' ∉ s.data) → (rowText row).count '\n' = 1 := by
  intro row
  induction row with
  | nil => intro _; rfl
  | cons s t ih =>
    intro hfree
    have hs : s.data.count '\n' = 0 := List.count_eq_zero.mpr (hfree s (List.mem_cons_self _ _))
    cases t with
    | nil => simp [rowText, hs]
    | cons u us =>
      simp only [rowText, List.count_append, hs, zero_add]
      rw [List.count_cons_of_ne (by decide)]
      exact ih (fun x hx => hfree x (List.mem_cons_of_mem _ hx))

theorem count_blockText :
    ∀ grid : List (List String), (∀ row ∈ grid, ∀ s ∈ row, '\n' ∉ s.data) →
      (blockText grid).count '\n' = grid.length := by
  intro grid
  induction grid with
  | nil => intro _; rfl
  | cons row rest ih =>
    intro hfree
    simp only [blockText, List.count_append, List.length_cons]
    rw [count_rowText row (hfree row (List.mem_cons_self _ _)),
      ih (fun r hr => hfree r (List.mem_cons_of_mem _ hr))]
    omega

theorem length_join_of_rows :
    ∀ (grid : List (List String)) (c : Nat), (∀ row ∈ grid, row.length = c) →
      grid.flatten.length = grid.length * c := by
  intro grid c
  induction grid with
  | nil => intro _; simp
  | cons row rest ih =>
    intro h
    simp only [List.flatten_cons, List.length_append, List.length_cons]
    rw [h row (List.mem_cons_self _ _), ih (fun r hr => h r (List.mem_cons_of_mem _ hr))]
    ring

theorem stripTrailingEmpty_tokens (tokens : List String) (h : ∀ s ∈ tokens, s ≠ "") :
    stripTrailingEmpty (tokens ++ [""]) = tokens := by
  unfold stripTrailingEmpty
  rw [List.rdropWhile_concat_pos _ _ _ (by decide)]
  rw [List.rdropWhile_eq_self_iff]
  intro hl
  have hmem := List.getLast_mem hl
  have hne := h _ hmem
  simp only [beq_iff_eq, String.length]
  intro h0
  apply hne
  have : (tokens.getLast hl).data = [] := List.length_eq_zero.mp h0
  exact String.ext this

theorem paste_tokens (text : String) (grid : List (List String))
    (hne : ∀ row ∈ grid, row ≠ [])
    (hcell : ∀ row ∈ grid, ∀ s ∈ row, s ≠ "" ∧ '\n' ∉ s.data ∧ '\t' ∉ s.data)
    (htext : text.data = blockText grid) :
    stripTrailingEmpty (QString.split isCellSeparator text) = grid.flatten ∧
    QString.count '\n' text = grid.length := by
  constructor
  · unfold QString.split
    rw [htext, splitChars_blockText grid hne (by
      intro row hrow s hs c hc
      apply isCellSeparator_false
      · rintro rfl
        exact (hcell row hrow s hs).2.1 hc
      · rintro rfl
        exact (hcell row hrow s hs).2.2 hc)]
    have hmap : (grid.flatten.map String.data ++ [[]]).map String.mk = grid.flatten ++ [""] := by
      simp [List.map_append, List.map_map, Function.comp_def]
    rw [hmap]
    apply stripTrailingEmpty_tokens
    intro s hs
    obtain ⟨row, hrow, hsrow⟩ := List.mem_flatten.mp hs
    exact (hcell row hrow s hsrow).1
  · unfold QString.count
    rw [htext]
    exact count_blockText grid (fun row hrow s hs => (hcell row hrow s hs).2.1)

/-- C6: when the clipboard text consists of `r ≥ 1` rows, each `c ≥ 1` non-empty cells
separated by tabs and closed by a newline, and the block fits at the anchor (the first
selected index), `paste` succeeds, sets the cell `(R + i, C + j)` to the token number
`i * c + j` for all `i < r`, `j < c`, and leaves every other cell as it was. -/
theorem paste_writes_block (v : QTableViewWithCopyPaste) (grid : List (List String)) (c : Nat)
    (anchor : QModelIndex) (others : List QModelIndex)
    (hsel : v.selectedIndexes = anchor :: others)
    (hgrid : grid ≠ []) (hc : 0 < c) (hrow : ∀ row ∈ grid, row.length = c)
    (hcell : ∀ row ∈ grid, ∀ s ∈ row, s ≠ "" ∧ '\n' ∉ s.data ∧ '\t' ∉ s.data)
    (htext : v.clipboard.data = blockText grid)
    (hR : anchor.row + grid.length ≤ v.model.rowCount)
    (hC : anchor.column + c ≤ v.model.columnCount) :
    ∃ m, paste v = .ok (.pasted, { v with model := m }) ∧
      (∀ i j, i < grid.length → j < c →
        m.data (anchor.row + i) (anchor.column + j) = .str (grid.flatten.getD (i * c + j) "")) ∧
      (∀ r k, ¬(anchor.row ≤ r ∧ r < anchor.row + grid.length ∧
          anchor.column ≤ k ∧ k < anchor.column + c) → m.data r k = v.model.data r k) := by
  have hne : ∀ row ∈ grid, row ≠ [] := by
    intro row hr h
    have := hrow row hr
    rw [h] at this
    simp at this
    omega
  obtain ⟨htok, hcount⟩ := paste_tokens v.clipboard grid hne hcell htext
  have hlen : grid.flatten.length = grid.length * c := length_join_of_rows grid c hrow
  have hpos : 0 < grid.length := List.length_pos.mpr hgrid
  have hdiv : grid.length * c / grid.length = c := Nat.mul_div_cancel_left c hpos
  have hmod : grid.length * c % grid.length = 0 := Nat.mul_mod_right _ _
  refine ⟨pasteLoop grid.flatten anchor grid.length c v.model, ?_, ?_, ?_⟩
  · unfold paste
    simp only [htok, hcount, hlen, hdiv, hmod, hsel]
    rw [if_neg (by omega), if_neg (by simp), if_neg (by omega), if_neg (by omega)]
  · intro i j hi hj
    rw [pasteLoop_data, if_pos, Nat.add_sub_cancel_left, Nat.add_sub_cancel_left]
    refine ⟨by omega, by omega, by omega, by omega, ?_⟩
    simp only [QStandardItemModel.hasIndex, Bool.and_eq_true, decide_eq_true_eq]
    omega
  · intro r k hout
    rw [pasteLoop_data, if_neg]
    rintro ⟨h1, h2, h3, h4, _⟩
    exact hout ⟨h1, h2, h3, h4⟩

/-- Instance of C6: the text of the rows `1, 2` and `3, 4` pasted at the anchor (2, 1)
of a table with four rows and three columns. -/
theorem paste_writes_block_witness :
    ∃ m, paste vBlock = .ok (.pasted, { vBlock with model := m }) ∧
      m.data 2 1 = .str "1" ∧ m.data 2 2 = .str "2" ∧ m.data 3 1 = .str "3" ∧
      m.data 3 2 = .str "4" ∧ m.data 1 1 = vBlock.model.data 1 1 := by
  obtain ⟨m, h1, h2, h3⟩ := paste_writes_block vBlock [["1", "2"], ["3", "4"]] 2 ⟨2, 1⟩ [] rfl
    (by decide) (by decide) (by decide) (by decide) (by decide) (by decide) (by decide)
  exact ⟨m, h1, h2 0 0 (by decide) (by decide), h2 0 1 (by decide) (by decide),
    h2 1 0 (by decide) (by decide), h2 1 1 (by decide) (by decide), h3 1 1 (by decide)⟩

/-- C7: when the clipboard text parses into `r ≥ 1` rows of `c` columns and the area
from the anchor to the edges of the table is smaller than that, `paste` reports that the
rows or the columns would be exceeded and leaves the view, and so every cell, as it was. -/
theorem paste_out_of_bounds (v : QTableViewWithCopyPaste) (r c : Nat)
    (anchor : QModelIndex) (others : List QModelIndex)
    (hsel : v.selectedIndexes = anchor :: others)
    (hr : QString.count '\n' v.clipboard = r) (hpos : 0 < r)
    (hcells : (stripTrailingEmpty (QString.split isCellSeparator v.clipboard)).length = r * c)
    (hout : anchor.row + r > v.model.rowCount ∨ anchor.column + c > v.model.columnCount) :
    paste v = .ok (.exceedsRows, v) ∨ paste v = .ok (.exceedsColumns, v) := by
  have hdiv : r * c / r = c := Nat.mul_div_cancel_left c hpos
  have hmod : r * c % r = 0 := Nat.mul_mod_right _ _
  unfold paste
  simp only [hr, hcells, hdiv, hmod, hsel]
  rw [if_neg (by omega), if_neg (by simp)]
  by_cases h1 : anchor.row + r > v.model.rowCount
  · left
    rw [if_pos h1]
  · right
    rw [if_neg h1, if_pos (by omega)]

/-- Instance of C7: two rows pasted at the anchor (3, 1) of a table with four rows. -/
theorem paste_out_of_bounds_witness :
    paste { vBlock with selectedIndexes := [⟨3, 1⟩] }
        = .ok (.exceedsRows, { vBlock with selectedIndexes := [⟨3, 1⟩] }) ∨
      paste { vBlock with selectedIndexes := [⟨3, 1⟩] }
        = .ok (.exceedsColumns, { vBlock with selectedIndexes := [⟨3, 1⟩] }) :=
  paste_out_of_bounds { vBlock with selectedIndexes := [⟨3, 1⟩] } 2 2 ⟨3, 1⟩ [] rfl
    (by decide) (by decide) (by decide) (by decide)

/-- With at least one newline on the clipboard, a token count that the row count does
not divide makes `paste` report invalid clipboard data and write nothing. -/
theorem paste_uneven (v : QTableViewWithCopyPaste)
    (hpos : 0 < QString.count '\n' v.clipboard)
    (huneven : (stripTrailingEmpty (QString.split isCellSeparator v.clipboard)).length
      % QString.count '\n' v.clipboard ≠ 0) :
    paste v = .ok (.invalidClipboardData, v) := by
  unfold paste
  simp only
  rw [if_neg (by omega), if_pos huneven]

/-- C8, the failing input: the clipboard text `abc` has one token and no newline, so
the row count is 0; the token count is not a multiple of it, and `paste` divides by the
row count before it tests the shape. -/
theorem paste_without_newline_divides_by_zero :
    (stripTrailingEmpty (QString.split isCellSeparator "abc")).length = 1 ∧
    QString.count '\n' "abc" = 0 ∧
    paste { vBlock with clipboard := "abc" } = .error .divisionByZero := by
  refine ⟨by decide, by decide, ?_⟩
  rfl

/-! ## Copy -/

/-- C9, the failing input: with the single cell (1, 1) selected, whose text is `5`,
`copy` puts only a newline on the clipboard. -/
theorem copy_single_cell_loses_text :
    (vBlock.model.data 1 1).toString = "5" ∧
    (copy { vBlock with selectedIndexes := [⟨1, 1⟩] }).clipboard = "\n" := by
  decide

/-- C10: with no cell selected, `copy` leaves the clipboard, the table and the
selection as they were. -/
theorem copy_empty_selection (v : QTableViewWithCopyPaste) (h : v.selectedIndexes = []) :
    copy v = v := by
  unfold copy
  rw [h]
  rfl

/-- Instance of C10 on a view whose clipboard holds text. -/
theorem copy_empty_selection_witness :
    copy { vBlock with selectedIndexes := [] } = { vBlock with selectedIndexes := [] } :=
  copy_empty_selection { vBlock with selectedIndexes := [] } rfl

/-! ## Live metadata: the "Current" column -/

theorem append_meta_inj (a b : String) (h : a ++ "Meta" = b ++ "Meta") : a = b := by
  have hd : (a ++ "Meta").data = (b ++ "Meta").data := by rw [h]
  rw [String.data_append, String.data_append] at hd
  exact String.ext (List.append_cancel_right hd)

theorem findMetaRowFrom_append (name : String) (rest : List String) :
    ∀ (pre : List String) (s : Nat), name ∉ pre →
      findMetaRowFrom (name ++ "Meta") (pre ++ name :: rest) s = some (s + pre.length) := by
  intro pre
  induction pre with
  | nil => intro s _; simp [findMetaRowFrom]
  | cons h t ih =>
    intro s hnot
    have h1 : h ++ "Meta" ≠ name ++ "Meta" := fun e => hnot (by simp [append_meta_inj _ _ e])
    have h2 : name ∉ t := fun e => hnot (List.mem_cons_of_mem _ e)
    show findMetaRowFrom (name ++ "Meta") (h :: (t ++ name :: rest)) s = some (s + (t.length + 1))
    rw [findMetaRowFrom, if_neg h1, ih (s + 1) h2]
    congr 1
    omega

theorem findMetaRowFrom_row (m : QStandardItemModel) (k : Nat)
    (hk : k < m.verticalHeader.length) (hnodup : m.verticalHeader.Nodup) :
    findMetaRowFrom (m.verticalHeader[k] ++ "Meta") m.verticalHeader 1 = some (k + 1) := by
  have hsplit : m.verticalHeader
      = m.verticalHeader.take k ++ m.verticalHeader[k] :: m.verticalHeader.drop (k + 1) := by
    rw [← List.drop_eq_getElem_cons hk, List.take_append_drop]
  have hnot : m.verticalHeader[k] ∉ m.verticalHeader.take k := by
    intro hin
    rw [hsplit] at hnodup
    have := List.nodup_append.mp hnodup
    exact this.2.2 hin (List.mem_cons_self _ _)
  have h := findMetaRowFrom_append m.verticalHeader[k] (m.verticalHeader.drop (k + 1))
    (m.verticalHeader.take k) 1 hnot
  rw [← hsplit] at h
  rw [h, List.length_take, Nat.min_eq_left (le_of_lt hk)]
  congr 1
  omega

theorem rowCount_of_length (m : QStandardItemModel) (k : Nat) (hk : k < m.verticalHeader.length) :
    k + 1 < m.rowCount := by
  unfold QStandardItemModel.rowCount
  cases hv : m.verticalHeader with
  | nil => rw [hv] at hk; simp at hk
  | cons a t => rw [hv] at hk; simp at hk ⊢; omega

/-- C14: for the meta object of the object in row `k + 1` of a table with distinct row
names whose column 1 is "Current", `updateCurrentColumn` sets the cell `(k + 1, 1)` to the
live period when that differs from the saved default period of the object, and returns the
state as it was when the two are equal; no other cell and no header changes. -/
theorem updateCurrentColumn_current_cell (w : TelemetrySchedulerGadgetWidget)
    (mobj : UAVMetaObject) (k : Nat)
    (hk : k < w.schedulerModel.verticalHeader.length)
    (hname : mobj.name = w.schedulerModel.verticalHeader[k] ++ "Meta")
    (hnodup : w.schedulerModel.verticalHeader.Nodup)
    (hcur : w.schedulerModel.horizontalHeader[1]? = some "Current") :
    (mobj.data.flightTelemetryUpdatePeriod
        ≠ (QMap.value w.defaultMdata mobj.name).flightTelemetryUpdatePeriod →
      (updateCurrentColumn w (some mobj)).schedulerModel.data (k + 1) 1
        = .num mobj.data.flightTelemetryUpdatePeriod) ∧
    (mobj.data.flightTelemetryUpdatePeriod
        = (QMap.value w.defaultMdata mobj.name).flightTelemetryUpdatePeriod →
      updateCurrentColumn w (some mobj) = w) ∧
    (∀ r c, ¬(r = k + 1 ∧ c = 1) →
      (updateCurrentColumn w (some mobj)).schedulerModel.data r c
        = w.schedulerModel.data r c) ∧
    (updateCurrentColumn w (some mobj)).schedulerModel.verticalHeader
      = w.schedulerModel.verticalHeader ∧
    (updateCurrentColumn w (some mobj)).schedulerModel.horizontalHeader
      = w.schedulerModel.horizontalHeader ∧
    (updateCurrentColumn w (some mobj)).columnHeaders = w.columnHeaders := by
  have hrow : findMetaRowFrom mobj.name w.schedulerModel.verticalHeader 1 = some (k + 1) := by
    rw [hname]
    exact findMetaRowFrom_row w.schedulerModel k hk hnodup
  have hidx : w.schedulerModel.hasIndex (k + 1) 1 = true := by
    have h1 := rowCount_of_length w.schedulerModel k hk
    have h2 : 1 < w.schedulerModel.horizontalHeader.length := by
      by_contra hlt
      rw [List.getElem?_eq_none (by omega)] at hcur
      exact absurd hcur (by simp)
    simp only [QStandardItemModel.hasIndex, QStandardItemModel.columnCount, Bool.and_eq_true,
      decide_eq_true_eq]
    exact ⟨h1, h2⟩
  by_cases hp : mobj.data.flightTelemetryUpdatePeriod
      = (QMap.value w.defaultMdata mobj.name).flightTelemetryUpdatePeriod
  · have hupd : updateCurrentColumn w (some mobj) = w := by
      simp only [updateCurrentColumn, hrow]
      rw [if_neg (by simpa using hp)]
    rw [hupd]
    exact ⟨fun h => absurd hp h, fun _ => rfl, fun _ _ _ => rfl, rfl, rfl, rfl⟩
  · have hupd : updateCurrentColumn w (some mobj)
        = { w with schedulerModel :=
              w.schedulerModel.setData (k + 1) 1 (.num mobj.data.flightTelemetryUpdatePeriod) } := by
      simp only [updateCurrentColumn, hrow]
      rw [if_pos hp]
    rw [hupd]
    refine ⟨fun _ => ?_, fun h => absurd h hp, fun r c hrc => ?_, ?_, ?_, rfl⟩
    · exact QStandardItemModel.data_setData_same _ _ _ _ hidx
    · exact QStandardItemModel.data_setData_other _ _ _ _ _ _ hrc
    · simp
    · simp

/-- Instance of C14 on a table with the rows A and B, both with the default period 1000:
a live period of 500 for B is written to B's "Current" cell, a live period of 1000 for A
changes nothing. -/
theorem updateCurrentColumn_current_cell_witness :
    (updateCurrentColumn wTwoRows (some ⟨"BMeta", ⟨0, 500, 0, 0⟩⟩)).schedulerModel.data 2 1
      = .num 500 ∧
    updateCurrentColumn wTwoRows (some ⟨"AMeta", ⟨0, 1000, 0, 0⟩⟩) = wTwoRows :=
  ⟨(updateCurrentColumn_current_cell wTwoRows ⟨"BMeta", ⟨0, 500, 0, 0⟩⟩ 1 (by decide) (by decide)
      (by decide) (by decide)).1 (by decide),
   (updateCurrentColumn_current_cell wTwoRows ⟨"AMeta", ⟨0, 1000, 0, 0⟩⟩ 0 (by decide) (by decide)
      (by decide) (by decide)).2.1 (by decide)⟩

/-! ## Import: missing sections -/

theorem firstChildElement_tagName (doc h : QDomNode) (tag : String)
    (hfind : doc.firstChildElement tag = some h) : h.tagName = tag := by
  unfold QDomNode.firstChildElement at hfind
  have := List.find?_some hfind
  cases h with
  | element t a c => simpa [QDomNode.isElementNamed, QDomNode.tagName] using this
  | other => simp [QDomNode.isElementNamed] at this

/-- C15 (amended): for a document with the root tag "telemetry_scheduler", the import
reports "Wrong file contents" when the `headings` element or the `settings` element is
missing.  Without `headings` the state is exactly as before.  With `headings` and without
`settings` the failure comes after the columns were rebuilt: `columnHeaders`, the combo
box and the header of the model hold the names of the file. -/
theorem import_missing_section (doc : QDomNode) (w : TelemetrySchedulerGadgetWidget)
    (hroot : doc.tagName = "telemetry_scheduler") :
    (doc.firstChildElement "headings" = none →
      importTelemetryConfiguration (some doc) w = (.wrongFileContents, w)) ∧
    (∀ h, doc.firstChildElement "headings" = some h → doc.firstChildElement "settings" = none →
      importTelemetryConfiguration (some doc) w =
        (.wrongFileContents,
          { w with
            schedulerModel :=
              (w.schedulerModel.removeColumns 2 w.columnHeaders.length).setHorizontalHeaderLabels
                ("Default" :: "Current" :: QString.split (fun c => c == ',') (h.attr "values"))
            cmbScheduleList :=
              "Default" :: "Current" :: QString.split (fun c => c == ',') (h.attr "values")
            columnHeaders :=
              "Default" :: "Current" :: QString.split (fun c => c == ',') (h.attr "values") })) := by
  constructor
  · intro hnone
    simp [importTelemetryConfiguration, subtreeRoot, hroot, hnone]
  · intro h hh hs
    have htag := firstChildElement_tagName doc h "headings" hh
    simp [importTelemetryConfiguration, subtreeRoot, hroot, hh, hs, htag]

/-- Instance of C15 (amended): a file without `headings` leaves the table as it was; a
file with the heading "X" and without `settings` leaves the column names "Default",
"Current", "X". -/
theorem import_missing_section_witness :
    importTelemetryConfiguration (some docNoHeadings) wZeroPeriod
      = (.wrongFileContents, wZeroPeriod) ∧
    (importTelemetryConfiguration (some docNoSettings) wZeroPeriod).2.columnHeaders
      = ["Default", "Current", "X"] :=
  ⟨(import_missing_section docNoHeadings wZeroPeriod (by decide)).1 (by rfl),
   by
    have h := (import_missing_section docNoSettings wZeroPeriod (by decide)).2
      (.element "headings" [("values", "X")] []) (by rfl) (by rfl)
    rw [h]
    decide⟩

/-- C15 as stated fails: a file with the root tag "telemetry_scheduler" and a `headings`
element but no `settings` element is refused only after `columnHeaders` and the header
of the model were replaced. -/
theorem import_missing_settings_changes_columnHeaders :
    docNoSettings.tagName = "telemetry_scheduler" ∧
    docNoSettings.firstChildElement "settings" = none ∧
    (importTelemetryConfiguration (some docNoSettings) wZeroPeriod).1 = .wrongFileContents ∧
    wZeroPeriod.columnHeaders = ["Default", "Current", "USB"] ∧
    (importTelemetryConfiguration (some docNoSettings) wZeroPeriod).2.columnHeaders
      = ["Default", "Current", "X"] ∧
    (importTelemetryConfiguration (some docNoSettings) wZeroPeriod).2.schedulerModel.horizontalHeader
      = ["Default", "Current", "X"] := by
  refine ⟨by decide, ?_, by decide, by decide, by decide, by decide⟩
  rfl

/-! ## Import: entries without a row -/

theorem importNode_unknown (objManager : List UAVObject) (m : QStandardItemModel)
    (node : QDomNode) (h : getObject objManager (node.attr "name") = none) :
    importNode objManager m node = m := by
  unfold importNode
  split
  · rw [h]
  · rfl

/-- An entry whose name the object manager does not know is skipped: the import goes on
with the entries after it as if the entry were not in the file. -/
theorem import_skips_unknown (objManager : List UAVObject) (m : QStandardItemModel)
    (before after : List QDomNode) (node : QDomNode)
    (h : getObject objManager (node.attr "name") = none) :
    (before ++ node :: after).foldl (importNode objManager) m
      = (before ++ after).foldl (importNode objManager) m := by
  simp only [List.foldl_append, List.foldl_cons, importNode_unknown objManager _ node h]

/-- C11, the failing input: the file names the settings object "S", which the object
manager knows and which has no row in the table.  The entry is not skipped: its values
are stored in row 0, whose cells were empty. -/
theorem import_entry_without_row_writes_row_zero :
    findRowFrom "S" wWithSettingsObject.schedulerModel.verticalHeader 1 = 0 ∧
    wWithSettingsObject.schedulerModel.data 0 1 = .invalid ∧
    wWithSettingsObject.schedulerModel.data 0 2 = .invalid ∧
    (importTelemetryConfiguration (some docSettingsObject) wWithSettingsObject).1 = .imported ∧
    (importTelemetryConfiguration (some docSettingsObject)
        wWithSettingsObject).2.schedulerModel.data 0 1 = .num 7 ∧
    (importTelemetryConfiguration (some docSettingsObject)
        wWithSettingsObject).2.schedulerModel.data 0 2 = .num 8 := by
  decide

/-! ## Paste: undefined behaviour -/

/-- C16, the failing inputs: with the empty text or the text `abc` on the clipboard the
row count is 0 and `paste` divides by it; with the text of one cell and one newline and
nothing selected, `paste` reads the first element of the empty list of indexes. -/
theorem paste_is_not_total :
    paste { vBlock with clipboard := "" } = .error .divisionByZero ∧
    paste { vBlock with clipboard := "abc" } = .error .divisionByZero ∧
    paste { vBlock with clipboard := "1\n", selectedIndexes := [] }
      = .error .frontOfEmptyList := by
  refine ⟨?_, ?_, ?_⟩ <;> rfl

/-! ## Export: the document -/

theorem saveRows_spec (w : TelemetrySchedulerGadgetWidget) :
    ∀ (names : List String) (s : Nat) (os : List QDomNode),
      saveRows w names s = some os →
      os.length = names.length ∧
      ∀ (k : Nat) (hk : k < names.length), ∃ node, os[k]? = some node ∧
        node.tagName = "uavobject" ∧ node.attr "name" = names[k] ∧
        node.childNodes
          = [.element "field" [("values", QStringList.join ',' (saveVals w (s + k)))] []] := by
  intro names
  induction names with
  | nil =>
    intro s os h
    simp only [saveRows, Option.some.injEq] at h
    subst h
    exact ⟨rfl, fun k hk => absurd hk (by simp)⟩
  | cons name rest ih =>
    intro s os h
    simp only [saveRows] at h
    split at h
    · exact absurd h (by simp)
    · rename_i obj hobj
      split at h
      · exact absurd h (by simp)
      · rename_i os' hos'
        simp only [Option.some.injEq] at h
        subst h
        obtain ⟨hlen, hnodes⟩ := ih (s + 1) os' hos'
        refine ⟨by simp [hlen], ?_⟩
        intro k hk
        cases k with
        | zero =>
          refine ⟨.element "uavobject" [("name", obj.name), ("id", "0x" ++ hexUpper obj.objID)]
            [.element "field" [("values", QStringList.join ',' (saveVals w s))] []],
            by simp, rfl, ?_, rfl⟩
          simp [QDomNode.attr, (getObject_mem hobj).2]
        | succ k =>
          obtain ⟨node, h1, h2, h3, h4⟩ := hnodes k (by simpa using hk)
          refine ⟨node, by simpa using h1, h2, by simpa using h3, ?_⟩
          rw [h4]
          have : s + 1 + k = s + (k + 1) := by omega
          rw [this]

/-- C12 (amended): for a table whose column names are "Default", "Current" and further
names and whose rows are registered objects, `saveTelemetryToFile` builds a document with
the root "telemetry_scheduler" holding a `version` element, a `headings` element whose
value list is the further names joined by commas, and a `settings` element with one
`uavobject` per object row, in row order and named after the row.  The value list of a
row has one entry per column name, and its entry `j`, counted from 0, is the text of the
row's cell in column `j + 1` for every `j + 1` below the number of column names: the
"Default" column, column 0, is not saved. -/
theorem saveTelemetryToFile_document (w : TelemetrySchedulerGadgetWidget) (rest : List String)
    (hcols : w.columnHeaders = "Default" :: "Current" :: rest)
    (hreg : ∀ name ∈ w.schedulerModel.verticalHeader, getObject w.objManager name ≠ none) :
    ∃ os,
      saveTelemetryToFile w = some (.element "telemetry_scheduler" []
        [.element "version" [] [],
         .element "headings" [("values", QStringList.join ',' rest)] [],
         .element "settings" [] os]) ∧
      os.length = w.schedulerModel.verticalHeader.length ∧
      ∀ (k : Nat) (hk : k < w.schedulerModel.verticalHeader.length), ∃ node,
        os[k]? = some node ∧ node.tagName = "uavobject" ∧
        node.attr "name" = w.schedulerModel.verticalHeader[k] ∧
        node.childNodes
          = [.element "field" [("values", QStringList.join ',' (saveVals w (k + 1)))] []] ∧
        (saveVals w (k + 1)).length = w.columnHeaders.length ∧
        ∀ j, j + 1 < w.columnHeaders.length →
          (saveVals w (k + 1)).getD j "" = (w.schedulerModel.data (k + 1) (j + 1)).toString := by
  obtain ⟨os, hos⟩ := saveRows_isSome w w.schedulerModel.verticalHeader 1 hreg
  obtain ⟨hlen, hnodes⟩ := saveRows_spec w _ 1 os hos
  refine ⟨os, ?_, hlen, ?_⟩
  · unfold saveTelemetryToFile
    rw [hcols]
    simp only [hos]
  · intro k hk
    obtain ⟨node, h1, h2, h3, h4⟩ := hnodes k hk
    have h14 : 1 + k = k + 1 := by omega
    rw [h14] at h4
    exact ⟨node, h1, h2, h3, h4, saveVals_length w (k + 1),
      fun j hj => saveVals_getD w (k + 1) j (by omega)⟩

/-- Instance of C12 (amended) on a table with the rows A and B and the columns "USB" and
"9600": the value list of row B has four entries, the entry 1 being the text of B's
"USB" cell. -/
theorem saveTelemetryToFile_document_witness :
    ∃ os,
      saveTelemetryToFile wTwoRows = some (.element "telemetry_scheduler" []
        [.element "version" [] [],
         .element "headings" [("values", "USB,9600")] [],
         .element "settings" [] os]) ∧
      os.length = 2 ∧
      (saveVals wTwoRows 2).length = 4 ∧
      (saveVals wTwoRows 2).getD 1 "" = "250" := by
  obtain ⟨os, h1, h2, h3⟩ := saveTelemetryToFile_document wTwoRows ["USB", "9600"] rfl
    (by decide)
  obtain ⟨node, _, _, _, _, h4, h5⟩ := h3 1 (by decide)
  exact ⟨os, h1, h2, h4, h5 1 (by decide)⟩

/-- C12 as stated fails: in a row holding 1000, 5 and 7 in the columns "Default",
"Current" and "USB", the value list is `5, 7` and an empty entry; its first entry is not
the text of the first column. -/
theorem saved_values_leave_out_default :
    (List.range 3).map (fun c => (wThreeCells.schedulerModel.data 1 c).toString)
      = ["1000", "5", "7"] ∧
    saveVals wThreeCells 1 = ["5", "7", ""] ∧
    (saveTelemetryToFile wThreeCells).map
        (fun d => (d.firstChildElement "settings").map
          (fun s => s.childNodes.map (fun o => o.childNodes.map (fun f => f.attr "values"))))
      = some (some [["5,7,"]]) := by
  decide

/-! ## The 16 bit range of the periods -/

theorem periodsIn16Bit_setData (m : QStandardItemModel) (row column : Nat) (value : QVariant)
    (hm : periodsIn16Bit m) (hv : value.toUInt ≤ 65535) :
    periodsIn16Bit (m.setData row column value) := by
  intro r c
  rw [QStandardItemModel.data_setData]
  split
  · exact hv
  · exact hm r c

theorem QSpinBox.setValue_range (s : QSpinBox) (val : Int) (h : s.minimum ≤ s.maximum) :
    (s.setValue val).minimum = s.minimum ∧ (s.setValue val).maximum = s.maximum ∧
    s.minimum ≤ (s.setValue val).value ∧ (s.setValue val).value ≤ s.maximum := by
  refine ⟨rfl, rfl, ?_, ?_⟩
  · exact le_max_left _ _
  · exact max_le h (min_le_left _ _)

theorem editor_value_range (entered : List Int) :
    ∀ s : QSpinBox, s.minimum = 0 → s.maximum = 65535 → 0 ≤ s.value → s.value ≤ 65535 →
      0 ≤ (entered.foldl QSpinBox.setValue s).value ∧
      (entered.foldl QSpinBox.setValue s).value ≤ 65535 := by
  induction entered with
  | nil => intro s _ _ h1 h2; exact ⟨h1, h2⟩
  | cons x xs ih =>
    intro s hmin hmax _ _
    obtain ⟨h1, h2, h3, h4⟩ := QSpinBox.setValue_range s x (by rw [hmin, hmax]; decide)
    simp only [List.foldl_cons]
    exact ih (s.setValue x) (by rw [h1, hmin]) (by rw [h2, hmax]) (by rw [← hmin]; exact h3)
      (by rw [← hmax]; exact h4)

theorem periodsIn16Bit_editCell (m : QStandardItemModel) (row column : Nat) (entered : List Int)
    (hm : periodsIn16Bit m) : periodsIn16Bit (SpinBoxDelegate.editCell m row column entered) := by
  unfold SpinBoxDelegate.editCell SpinBoxDelegate.setModelData
  apply periodsIn16Bit_setData _ _ _ _ hm
  obtain ⟨_, _, h3, h4⟩ := QSpinBox.setValue_range SpinBoxDelegate.createEditor
    (m.data row column).toInt (by decide)
  obtain ⟨_, h2⟩ := editor_value_range entered
    (SpinBoxDelegate.setEditorData SpinBoxDelegate.createEditor m row column) rfl rfl h3 h4
  simp only [QVariant.toUInt]
  omega

theorem periodsIn16Bit_removeColumns (m : QStandardItemModel) (column count : Nat)
    (hm : periodsIn16Bit m) : periodsIn16Bit (m.removeColumns column count) := by
  unfold QStandardItemModel.removeColumns
  split
  · exact hm
  · rename_i hok
    intro r c
    have hlen : column + count ≤ m.horizontalHeader.length := by
      simp only [QStandardItemModel.columnCount] at hok
      omega
    simp only [QStandardItemModel.data, QStandardItemModel.hasIndex, QStandardItemModel.rowCount,
      QStandardItemModel.columnCount, List.length_append, List.length_take, List.length_drop,
      Bool.and_eq_true, decide_eq_true_eq]
    split
    · rename_i hidx
      split
      · rename_i hc
        have := hm r c
        simp only [QStandardItemModel.data, QStandardItemModel.hasIndex,
          QStandardItemModel.rowCount, QStandardItemModel.columnCount, Bool.and_eq_true,
          decide_eq_true_eq] at this
        rw [if_pos ⟨hidx.1, by omega⟩] at this
        exact this
      · rename_i hc
        have := hm r (c + count)
        simp only [QStandardItemModel.data, QStandardItemModel.hasIndex,
          QStandardItemModel.rowCount, QStandardItemModel.columnCount, Bool.and_eq_true,
          decide_eq_true_eq] at this
        rw [if_pos ⟨hidx.1, by omega⟩] at this
        exact this
    · simp [QVariant.toUInt]

theorem periodsIn16Bit_setHorizontalHeaderLabels (m : QStandardItemModel) (labels : List String)
    (hm : periodsIn16Bit m) : periodsIn16Bit (m.setHorizontalHeaderLabels labels) := by
  intro r c
  simp only [QStandardItemModel.setHorizontalHeaderLabels, QStandardItemModel.data,
    QStandardItemModel.hasIndex, QStandardItemModel.rowCount, QStandardItemModel.columnCount,
    Bool.and_eq_true, decide_eq_true_eq]
  split
  · rename_i hidx
    split
    · rename_i hc
      have := hm r c
      simp only [QStandardItemModel.data, QStandardItemModel.hasIndex,
        QStandardItemModel.rowCount, QStandardItemModel.columnCount, Bool.and_eq_true,
        decide_eq_true_eq] at this
      rw [if_pos ⟨hidx.1, hc⟩] at this
      exact this
    · simp [QVariant.toUInt]
  · simp [QVariant.toUInt]

theorem toUInt_getD_le (valuesList : List String) (h : ∀ t ∈ valuesList, QString.toUInt t ≤ 65535)
    (i : Nat) : QString.toUInt (valuesList.getD i "") ≤ 65535 := by
  by_cases hi : i < valuesList.length
  · rw [List.getD_eq_getElem _ _ hi]
    exact h _ (List.getElem_mem hi)
  · rw [List.getD_eq_default _ _ (by omega)]
    decide

theorem scanBack_le (valuesList : List String) (h : ∀ t ∈ valuesList, QString.toUInt t ≤ 65535) :
    ∀ n val, val ≤ 65535 → scanBack valuesList n val ≤ 65535 := by
  intro n
  induction n with
  | zero => intro val hv; exact hv
  | succ n ih =>
    intro val hv
    simp only [scanBack]
    split
    · exact ih _ (toUInt_getD_le valuesList h n)
    · exact hv

theorem importValue_le (m : QStandardItemModel) (row : Nat) (valuesList : List String) (j : Nat)
    (hm : periodsIn16Bit m) (h : ∀ t ∈ valuesList, QString.toUInt t ≤ 65535) :
    importValue m row valuesList j ≤ 65535 := by
  unfold importValue
  split
  · exact hm row 0
  · exact scanBack_le valuesList h j _ (toUInt_getD_le valuesList h j)

theorem periodsIn16Bit_loadValues (valuesList : List String) (row : Nat) (m : QStandardItemModel)
    (hm : periodsIn16Bit m) (h : ∀ t ∈ valuesList, QString.toUInt t ≤ 65535) :
    periodsIn16Bit (loadValues valuesList row m) := by
  intro r c
  by_cases hframe : r ≠ row ∨ c = 0 ∨ valuesList.length < c
  · rw [loadValues_data_frame _ _ _ _ _ hframe]
    exact hm r c
  · have hr : r = row := by
      by_contra hne
      exact hframe (Or.inl hne)
    obtain ⟨j, rfl⟩ : ∃ j, c = j + 1 := ⟨c - 1, by
      have : c ≠ 0 := fun h0 => hframe (Or.inr (Or.inl h0))
      omega⟩
    have hj : j < valuesList.length := by
      by_contra hlt
      exact hframe (Or.inr (Or.inr (by omega)))
    subst hr
    by_cases hidx : m.hasIndex r (j + 1) = true
    · rw [loadValues_data_written _ _ _ _ hj hidx]
      exact importValue_le m r valuesList j hm h
    · rw [data_of_not_hasIndex _ _ _ (by
        rw [hasIndex_congr (loadValues_verticalHeader _ _ _) (loadValues_horizontalHeader _ _ _)]
        exact hidx)]
      decide

theorem periodsIn16Bit_importNode (objManager : List UAVObject) (m : QStandardItemModel)
    (node : QDomNode) (hm : periodsIn16Bit m)
    (h : ∀ t ∈ nodeValues node, QString.toUInt t ≤ 65535) :
    periodsIn16Bit (importNode objManager m node) := by
  unfold importNode
  split
  · split
    · exact hm
    · split
      · exact hm
      · rename_i f hf
        split
        · apply periodsIn16Bit_loadValues _ _ _ hm
          intro t ht
          apply h
          unfold nodeValues
          rw [hf]
          exact ht
        · exact hm
  · exact hm

theorem periodsIn16Bit_importNodes (objManager : List UAVObject) :
    ∀ (nodes : List QDomNode) (m : QStandardItemModel), periodsIn16Bit m →
      (∀ t ∈ nodes.flatMap nodeValues, QString.toUInt t ≤ 65535) →
      periodsIn16Bit (nodes.foldl (importNode objManager) m) := by
  intro nodes
  induction nodes with
  | nil => intro m hm _; exact hm
  | cons node rest ih =>
    intro m hm h
    simp only [List.foldl_cons]
    apply ih
    · apply periodsIn16Bit_importNode _ _ _ hm
      intro t ht
      exact h t (by simp only [List.flatMap_cons, List.mem_append]; exact Or.inl ht)
    · intro t ht
      exact h t (by simp only [List.flatMap_cons, List.mem_append]; exact Or.inr ht)

theorem periodsIn16Bit_import (content : Option QDomNode) (w : TelemetrySchedulerGadgetWidget)
    (hm : periodsIn16Bit w.schedulerModel)
    (h : ∀ doc, content = some doc → ∀ t ∈ fileValues doc, QString.toUInt t ≤ 65535) :
    periodsIn16Bit (importTelemetryConfiguration content w).2.schedulerModel := by
  have hm1 : ∀ labels, periodsIn16Bit
      ((w.schedulerModel.removeColumns 2 w.columnHeaders.length).setHorizontalHeaderLabels
        labels) :=
    fun labels => periodsIn16Bit_setHorizontalHeaderLabels _ _
      (periodsIn16Bit_removeColumns _ _ _ hm)
  unfold importTelemetryConfiguration
  cases content with
  | none => exact hm
  | some doc =>
    have hdoc := h doc rfl
    simp only
    split
    · exact hm
    · split
      · exact hm
      · split
        · exact hm1 _
        · rename_i root hroot
          split
          · exact hm1 _
          · apply periodsIn16Bit_importNodes _ _ _ (hm1 _)
            intro t ht
            apply hdoc
            unfold fileValues
            rw [hroot]
            exact ht

theorem periodsIn16Bit_pasteLoop (cells : List String) (anchor : QModelIndex) (rows cols : Nat)
    (m : QStandardItemModel) (hm : periodsIn16Bit m)
    (h : ∀ t ∈ cells, (QVariant.str t).toUInt ≤ 65535) :
    periodsIn16Bit (pasteLoop cells anchor rows cols m) := by
  intro r c
  rw [pasteLoop_data]
  split
  · by_cases hi : (r - anchor.row) * cols + (c - anchor.column) < cells.length
    · rw [List.getD_eq_getElem _ _ hi]
      exact h _ (List.getElem_mem hi)
    · rw [List.getD_eq_default _ _ (by omega)]
      decide
  · exact hm r c

theorem periodsIn16Bit_paste (v : QTableViewWithCopyPaste) (r : PasteOutcome × QTableViewWithCopyPaste)
    (hm : periodsIn16Bit v.model)
    (h : ∀ t ∈ stripTrailingEmpty (QString.split isCellSeparator v.clipboard),
      (QVariant.str t).toUInt ≤ 65535)
    (hr : paste v = .ok r) : periodsIn16Bit r.2.model := by
  unfold paste at hr
  simp only at hr
  split at hr
  · exact absurd hr (by simp)
  · split at hr
    · simp only [Except.ok.injEq] at hr
      rw [← hr]
      exact hm
    · split at hr
      · exact absurd hr (by simp)
      · split at hr
        · simp only [Except.ok.injEq] at hr
          rw [← hr]
          exact hm
        · split at hr
          · simp only [Except.ok.injEq] at hr
            rw [← hr]
            exact hm
          · simp only [Except.ok.injEq] at hr
            rw [← hr]
            exact periodsIn16Bit_pasteLoop _ _ _ _ _ hm h

theorem wThreeCells_periods : periodsIn16Bit wThreeCells.schedulerModel := by
  intro r c
  simp only [wThreeCells, QStandardItemModel.data]
  split
  · split_ifs <;> simp [QVariant.toUInt]
  · simp [QVariant.toUInt]

theorem vBlock_periods : periodsIn16Bit vBlock.model := by
  intro r c
  simp only [vBlock, QStandardItemModel.data]
  split
  · split_ifs <;> simp [QVariant.toUInt]
  · simp [QVariant.toUInt]

/-- C13 (amended): the 16 bit range of the periods is kept by a cell edit through
`SpinBoxDelegate`, whatever the user enters; by `importTelemetryConfiguration` when every
value in the `settings` section of the file reads as at most 65535; and by `paste` when
every token of the clipboard reads as at most 65535.  The import and `paste` do not
check the range themselves. -/
theorem periodsIn16Bit_preserved :
    (∀ (m : QStandardItemModel) (row column : Nat) (entered : List Int),
      periodsIn16Bit m → periodsIn16Bit (SpinBoxDelegate.editCell m row column entered)) ∧
    (∀ (content : Option QDomNode) (w : TelemetrySchedulerGadgetWidget),
      periodsIn16Bit w.schedulerModel →
      (∀ doc, content = some doc → ∀ t ∈ fileValues doc, QString.toUInt t ≤ 65535) →
      periodsIn16Bit (importTelemetryConfiguration content w).2.schedulerModel) ∧
    (∀ (v : QTableViewWithCopyPaste) (r : PasteOutcome × QTableViewWithCopyPaste),
      periodsIn16Bit v.model →
      (∀ t ∈ stripTrailingEmpty (QString.split isCellSeparator v.clipboard),
        (QVariant.str t).toUInt ≤ 65535) →
      paste v = .ok r → periodsIn16Bit r.2.model) :=
  ⟨periodsIn16Bit_editCell, periodsIn16Bit_import, periodsIn16Bit_paste⟩

/-- Instance of C13 (amended): entering 70000 in the editor stores 65535; a file with
the periods 250 and 300 and a clipboard with the tokens 1 to 4 keep the range. -/
theorem periodsIn16Bit_preserved_witness :
    periodsIn16Bit (SpinBoxDelegate.editCell wThreeCells.schedulerModel 1 2 [70000]) ∧
    (SpinBoxDelegate.editCell wThreeCells.schedulerModel 1 2 [70000]).data 1 2 = .num 65535 ∧
    periodsIn16Bit (importTelemetryConfiguration (some docInRange) wThreeCells).2.schedulerModel ∧
    periodsIn16Bit (pasteLoop ["1", "2", "3", "4"] ⟨2, 1⟩ 2 2 vBlock.model) :=
  ⟨periodsIn16Bit_preserved.1 wThreeCells.schedulerModel 1 2 [70000] wThreeCells_periods,
   by decide,
   periodsIn16Bit_preserved.2.1 (some docInRange) wThreeCells wThreeCells_periods
     (fun doc hdoc => by
       cases hdoc
       decide),
   periodsIn16Bit_preserved.2.2 vBlock
     (.pasted, { vBlock with model := pasteLoop ["1", "2", "3", "4"] ⟨2, 1⟩ 2 2 vBlock.model })
     vBlock_periods (by decide) rfl⟩

/-- C13 as stated fails: on a table whose periods are all in the 16 bit range, the import
of a file with the value 70000 stores the number 70000, and `paste` of the text `70000`
stores that text, which reads as the period 70000. -/
theorem import_and_paste_leave_16_bit_range :
    periodsIn16Bit wThreeCells.schedulerModel ∧
    (importTelemetryConfiguration (some docLargeValue) wThreeCells).1 = .imported ∧
    (importTelemetryConfiguration (some docLargeValue) wThreeCells).2.schedulerModel.data 1 1
      = .num 70000 ∧
    ¬ periodsIn16Bit (importTelemetryConfiguration (some docLargeValue) wThreeCells).2.schedulerModel ∧
    (paste vLargeValue).toOption.map (fun r => (r.1, r.2.model.data 1 1))
      = some (.pasted, .str "70000") ∧
    (QVariant.str "70000").toUInt = 70000 := by
  refine ⟨wThreeCells_periods, by decide, by decide, ?_, by decide, by decide⟩
  intro h
  have h1 := h 1 1
  have h2 : (importTelemetryConfiguration (some docLargeValue) wThreeCells).2.schedulerModel.data 1 1
      = .num 70000 := by decide
  rw [h2] at h1
  exact absurd h1 (by decide)

/-! ## Copy followed by paste -/

theorem QModelIndex.le_trans (a b c : QModelIndex) (h1 : QModelIndex.le a b)
    (h2 : QModelIndex.le b c) : QModelIndex.le a c := by
  unfold QModelIndex.le at *
  omega

theorem QModelIndex.le_antisymm (a b : QModelIndex) (h1 : QModelIndex.le a b)
    (h2 : QModelIndex.le b a) : a = b := by
  unfold QModelIndex.le at *
  cases a
  cases b
  simp only [QModelIndex.mk.injEq] at *
  omega

end TelemetryScheduler
